import Mathlib

/-!
# SmartCharge: reservation settlement, slot pricing and density forecasts

A shallow embedding of `internal/reservation/service.go`, `internal/station/service.go`,
`internal/operator/service.go`, `internal/errors/errors.go` and `scripts/seed.go` of the
smartcharge API.

Conventions of the embedding

* Go `int32` values are `Int`; where the Go code does `int32` arithmetic the result is
  wrapped with `wrap32`.
* Go `float64` values in `internal/station/service.go` (prices, discount rates) are
  IEEE 754 binary64 values, type `float64`: every operation rounds to the nearest value,
  halves to even, with the infinities and NaN; the two zeros are identified.
* The seed script `scripts/seed.go` is embedded twice. Its sample loads and sums are exact
  rationals (`ℚ`) for the claims on counts, ranges and branches, which do not depend on
  rounding; `linearReg` is also embedded in binary64 (`linearReg64`) for the claim on the
  values it returns.
* Go `int(x)` of a float is the 64-bit conversion `toInt`.
* `pgtype` nullable columns are `Option`.
* Persistence is explicit state passing over `DB`; every query takes the record `Faults`
  that says which calls of the persistence layer report an error.
-/

namespace SmartCharge

/-! ## `internal/errors/errors.go` -/

/-- AppError is a structured application error with HTTP status code and error code. -/
structure AppError where
  StatusCode : Nat
  Code : String
  Message : String
deriving DecidableEq, Repr

def ErrAlreadyCompleted : AppError :=
  ⟨400, "RESERVATION_ALREADY_COMPLETED", "Reservation is already completed"⟩

def ErrInternal : AppError :=
  ⟨500, "INTERNAL_ERROR", "An unexpected error occurred"⟩

def NewValidationError (msg : String) : AppError :=
  ⟨400, "VALIDATION_ERROR", msg⟩

def NewNotFoundError (resource : String) : AppError :=
  ⟨404, "RESOURCE_NOT_FOUND", resource ++ " not found"⟩

/-! ## Machine integers -/

/-- Two's-complement wrap of an integer into the range of a Go `int32`. -/
def wrap32 (x : Int) : Int := (x + 2147483648) % 4294967296 - 2147483648

/-- The values a Go `int32` can hold. -/
def isInt32 (x : Int) : Prop := -2147483648 ≤ x ∧ x ≤ 2147483647

instance (x : Int) : Decidable (isInt32 x) := by unfold isInt32; infer_instance

/-! ## Go `float64`: IEEE 754 binary64 -/

/-- Go `math.Round`: the nearest integer, halves away from zero. -/
def Round (x : ℚ) : ℚ :=
  if 0 ≤ x then ((x + 1 / 2).floor : ℚ) else -(((-x) + 1 / 2).floor : ℚ)

/-- A Go `float64`: an IEEE 754 binary64 value, finite (the rational it denotes; the two
zeros are identified), infinite or not a number. -/
inductive float64 where
  | fin (q : ℚ)
  | inf (neg : Bool)
  | nan
deriving DecidableEq, Repr

namespace float64

/-- The nearest integer, halves to the even neighbour. -/
def roundEven (x : ℚ) : Int :=
  if x - (⌊x⌋ : ℚ) < 1 / 2 then ⌊x⌋
  else if 1 / 2 < x - (⌊x⌋ : ℚ) then ⌊x⌋ + 1
  else if ⌊x⌋ % 2 = 0 then ⌊x⌋ else ⌊x⌋ + 1

/-- The spacing of the binary64 values in the binade of `q`: 2^(e - 52) with
2^e ≤ |q| < 2^(e+1), and 2^(-1074) below the normal range. -/
def ulp (q : ℚ) : ℚ := (2 : ℚ) ^ (max (Int.log 2 |q|) (-1022) - 52)

/-- Rounding of a rational to binary64: the nearest value, halves to even; a result of
magnitude 2^1024 or more is an infinity. -/
def ofRat (q : ℚ) : float64 :=
  let r := (roundEven (q / ulp q) : ℚ) * ulp q
  if (2 : ℚ) ^ (1024 : Nat) ≤ |r| then inf (decide (q < 0)) else fin r

/-- Negation. -/
def neg : float64 → float64
  | fin q => fin (-q)
  | inf b => inf (!b)
  | nan => nan

/-- Go `+` on binary64. -/
def add : float64 → float64 → float64
  | fin a, fin b => ofRat (a + b)
  | fin _, inf b => inf b
  | inf a, fin _ => inf a
  | inf a, inf b => if a = b then inf a else nan
  | _, _ => nan

/-- Go `-` on binary64. -/
def sub (x y : float64) : float64 := add x (neg y)

/-- Go `*` on binary64. -/
def mul : float64 → float64 → float64
  | fin a, fin b => ofRat (a * b)
  | fin a, inf b => if a = 0 then nan else inf (xor (decide (a < 0)) b)
  | inf a, fin b => if b = 0 then nan else inf (xor a (decide (b < 0)))
  | inf a, inf b => inf (xor a b)
  | _, _ => nan

/-- Go `/` on binary64. A zero divisor is taken as +0; the modelled code never divides by
a negative zero. -/
def div : float64 → float64 → float64
  | fin a, fin b =>
    if b = 0 then (if a = 0 then nan else inf (decide (a < 0))) else ofRat (a / b)
  | fin _, inf _ => fin 0
  | inf a, fin b => inf (xor a (decide (b < 0)))
  | _, _ => nan

/-- Go `<` on binary64: false when an operand is NaN. -/
def lt : float64 → float64 → Bool
  | fin a, fin b => decide (a < b)
  | fin _, inf b => !b
  | inf a, fin _ => a
  | inf a, inf b => a && !b
  | _, _ => false

/-- Go `<=` on binary64: false when an operand is NaN. -/
def le : float64 → float64 → Bool
  | fin a, fin b => decide (a ≤ b)
  | fin _, inf b => !b
  | inf a, fin _ => a
  | inf a, inf b => a || !b
  | _, _ => false

/-- Go `math.Round` on binary64: the nearest integer, halves away from zero; the
infinities and NaN are returned as they are. -/
def Round : float64 → float64
  | fin q => fin (SmartCharge.Round q)
  | x => x

/-- Go `==` on binary64: NaN equals nothing. -/
def eq : float64 → float64 → Bool
  | fin a, fin b => decide (a = b)
  | inf a, inf b => decide (a = b)
  | _, _ => false

/-- Go conversion `float64(n)` of a non-negative integer. -/
def ofNat (n : Nat) : float64 := ofRat (n : ℚ)

end float64

/-! ## Rows of the persistence layer (`db/generated`) -/

/-- Modelled from the spec: type `generated.User` is missing; a user is an identity plus the
cumulative gamification counters coins, co2_saved and xp. -/
structure User where
  ID : Int
  Coins : Int
  Co2Saved : ℚ
  Xp : Int
deriving DecidableEq, Repr

/-- Modelled from the spec: type `generated.Reservation` is missing; the fields are the ones
`reservationToResponse` reads. -/
structure Reservation where
  ID : Int
  UserID : Int
  StationID : Int
  Date : Option Int
  Hour : String
  IsGreen : Bool
  EarnedCoins : Int
  SavedCo2 : ℚ
  Status : String
deriving DecidableEq, Repr

/-- Modelled from the spec: type `generated.Campaign` is missing; the fields are the ones the
campaign service writes, with the creation time that orders campaigns by recency. -/
structure Campaign where
  ID : Int
  Title : String
  Description : String
  Status : String
  Target : String
  Discount : String
  EndDate : Option Int
  OwnerID : Int
  StationID : Option Int
  CoinReward : Int
  CreatedAt : Int
deriving DecidableEq, Repr

/-- Modelled from the spec: type `generated.Station` is missing; the fields are the ones
`GetStation` reads. -/
structure Station where
  ID : Int
  Name : String
  Lat : float64
  Lng : float64
  Address : Option String
  Price : float64
  Density : Int
  DensityProfile : String
deriving DecidableEq, Repr

/-- Modelled from the spec: a forecast entry, keyed by (station, day of week, hour), with its
predicted load. -/
structure Forecast where
  StationID : Int
  DayOfWeek : Int
  Hour : Int
  PredictedLoad : Int
deriving DecidableEq, Repr

/-- The persisted state. `nextReservationID` is the serial of table `reservations`. -/
structure DB where
  users : List User
  reservations : List Reservation
  campaigns : List Campaign
  stations : List Station
  forecasts : List Forecast
  nextReservationID : Int
deriving DecidableEq, Repr

/-- Which calls of the persistence layer report an error (connection loss, constraint
violation, ...). One flag per query used by the services. -/
structure Faults where
  getReservationByID : Bool
  updateReservationStatus : Bool
  beginTx : Bool
  completeReservation : Bool
  updateUserStats : Bool
  commit : Bool
  getActiveCampaignsForStation : Bool
  createReservation : Bool
  getStationByID : Bool
  getForecastForStation : Int → Bool

/-- No call of the persistence layer fails. -/
def Faults.none : Faults :=
  ⟨false, false, false, false, false, false, false, false, false, fun _ => false⟩

/-- The functions of Go package `time` used by the services: the two layouts accepted by
`time.Parse` and the RFC 3339 rendering of an instant. Instants are seconds. -/
structure TimeLib where
  parseRFC3339 : String → Option Int
  parseDateOnly : String → Option Int
  formatRFC3339 : Int → String

/-! ## Queries of `db/generated` -/

/-- Modelled from the spec: the column default of `reservations.status` is missing from the
sources; the spec names PENDING/CONFIRMED as the initial, creation-time state. -/
def reservationStatusDefault : String := "PENDING"

/-- Modelled from the spec: query `GetReservationByID` of `db/generated` is missing; it is
the read of one reservation by identity, an error when no row has that identity. -/
def GetReservationByID (f : Faults) (db : DB) (id : Int) : Option Reservation :=
  if f.getReservationByID then none
  else db.reservations.find? (fun r => decide (r.ID = id))

/-- Modelled from the spec: query `UpdateReservationStatus` of `db/generated` is missing; it
writes the status of the reservation with the given identity and returns the row. -/
def UpdateReservationStatus (f : Faults) (db : DB) (id : Int) (status : String) :
    Option (Reservation × DB) :=
  if f.updateReservationStatus then none
  else
    let rows := db.reservations.map
      (fun r => if r.ID = id then { r with Status := status } else r)
    match rows.find? (fun r => decide (r.ID = id)) with
    | none => none
    | some r => some (r, { db with reservations := rows })

/-- Modelled from the spec: the row written by query `CompleteReservation`: the reservation
marked COMPLETED with the given `earned_coins` and `saved_co2` = 2.5 if `is_green` else
0.5. -/
def Reservation.markCompleted (r : Reservation) (earnedCoins : Int) : Reservation :=
  { r with Status := "COMPLETED", EarnedCoins := earnedCoins,
           SavedCo2 := if r.IsGreen then 5 / 2 else 1 / 2 }

/-- Modelled from the spec: query `CompleteReservation` of `db/generated` is missing; it marks
the reservation COMPLETED with the given `earned_coins` and writes `saved_co2` = 2.5 if
`is_green` else 0.5, returning the row. -/
def CompleteReservation (f : Faults) (db : DB) (id : Int) (earnedCoins : Int) :
    Option (Reservation × DB) :=
  if f.completeReservation then none
  else
    let rows := db.reservations.map
      (fun r => if r.ID = id then r.markCompleted earnedCoins else r)
    match rows.find? (fun r => decide (r.ID = id)) with
    | none => none
    | some r => some (r, { db with reservations := rows })

/-- Modelled from the spec: the row written by query `UpdateUserStats`: the user with the
deltas added to the three counters. -/
def User.addStats (u : User) (coins : Int) (co2Saved : ℚ) (xp : Int) : User :=
  { u with Coins := u.Coins + coins, Co2Saved := u.Co2Saved + co2Saved, Xp := u.Xp + xp }

/-- Modelled from the spec: query `UpdateUserStats` of `db/generated` is missing; it adds the
given deltas to the user's counters (additive counter deltas) and returns the row. -/
def UpdateUserStats (f : Faults) (db : DB) (id : Int) (coins : Int) (co2Saved : ℚ)
    (xp : Int) : Option (User × DB) :=
  if f.updateUserStats then none
  else
    let rows := db.users.map
      (fun u => if u.ID = id then u.addStats coins co2Saved xp else u)
    match rows.find? (fun u => decide (u.ID = id)) with
    | none => none
    | some u => some (u, { db with users := rows })

/-- Parameters of query `CreateReservation`. -/
structure CreateReservationParams where
  UserID : Int
  StationID : Int
  Date : Option Int
  Hour : String
  IsGreen : Bool
  EarnedCoins : Int
deriving DecidableEq, Repr

/-- Modelled from the spec: query `CreateReservation` of `db/generated` is missing; it inserts
a reservation with a fresh identity, the status defaulting to the initial state and
`saved_co2` not yet populated, and returns the row. -/
def CreateReservation (f : Faults) (db : DB) (p : CreateReservationParams) :
    Option (Reservation × DB) :=
  if f.createReservation then none
  else
    let r : Reservation :=
      { ID := db.nextReservationID, UserID := p.UserID, StationID := p.StationID,
        Date := p.Date, Hour := p.Hour, IsGreen := p.IsGreen,
        EarnedCoins := p.EarnedCoins, SavedCo2 := 0,
        Status := reservationStatusDefault }
    some (r, { db with reservations := db.reservations ++ [r],
                       nextReservationID := db.nextReservationID + 1 })

/-- Modelled from the spec: the recency ordering of `GetActiveCampaignsForStation`; insertion
of a campaign into a list ordered by `CreatedAt`, most recent first. -/
def insertByRecency (c : Campaign) : List Campaign → List Campaign
  | [] => [c]
  | d :: ds => if d.CreatedAt < c.CreatedAt then c :: d :: ds else d :: insertByRecency c ds

/-- Modelled from the spec: the recency ordering of `GetActiveCampaignsForStation`; campaigns
ordered by creation time, most recent first. -/
def sortByRecency : List Campaign → List Campaign
  | [] => []
  | c :: cs => insertByRecency c (sortByRecency cs)

/-- Modelled from the spec: query `GetActiveCampaignsForStation` of `db/generated` is missing;
it returns the station-specific campaigns and the global (null-station) campaigns whose
status is ACTIVE and whose end_date is null or in the future, most recent first. -/
def GetActiveCampaignsForStation (f : Faults) (now : Int) (db : DB)
    (stationID : Option Int) : Option (List Campaign) :=
  if f.getActiveCampaignsForStation then none
  else
    some (sortByRecency (db.campaigns.filter (fun c =>
      decide (c.Status = "ACTIVE") &&
      (decide (c.StationID = none) || decide (c.StationID = stationID)) &&
      (match c.EndDate with
       | none => true
       | some e => decide (now < e)))))

/-! ## Transactions (`pgx`) -/

/-- A transaction: the persisted state it started from and the state its writes have
produced so far. `Commit` persists the writes, `Rollback` drops them. -/
structure Tx where
  base : DB
  work : DB

def BeginTx (f : Faults) (db : DB) : Option Tx :=
  if f.beginTx then none else some ⟨db, db⟩

def Tx.Commit (f : Faults) (tx : Tx) : Option DB :=
  if f.commit then none else some tx.work

def Tx.Rollback (tx : Tx) : DB := tx.base

/-! ## `internal/reservation/dto.go` -/

structure CreateReservationRequest where
  StationID : Int
  Date : String
  Hour : String
  IsGreen : Bool
deriving DecidableEq, Repr

structure UpdateStatusRequest where
  Status : String
deriving DecidableEq, Repr

structure ReservationResponse where
  ID : Int
  UserID : Int
  StationID : Int
  Date : String
  Hour : String
  IsGreen : Bool
  EarnedCoins : Int
  SavedCo2 : ℚ
  Status : String
deriving DecidableEq, Repr

structure UserStatsResponse where
  ID : Int
  Coins : Int
  Co2Saved : ℚ
  XP : Int
deriving DecidableEq, Repr

structure CompleteResponse where
  Reservation : ReservationResponse
  User : UserStatsResponse
deriving DecidableEq, Repr

/-! ## `internal/reservation/service.go` -/

def reservationToResponse (tl : TimeLib) (r : Reservation) : ReservationResponse :=
  let dateStr := match r.Date with
    | some t => tl.formatRFC3339 t
    | none => ""
  { ID := r.ID, UserID := r.UserID, StationID := r.StationID, Date := dateStr,
    Hour := r.Hour, IsGreen := r.IsGreen, EarnedCoins := r.EarnedCoins,
    SavedCo2 := r.SavedCo2, Status := r.Status }

/-- The coins a reservation earns: 10, or 50 in a green hour, plus the positive coin reward
of the first campaign of the list (`int32` addition). Lines 44-52 of `Create`. -/
def earnedCoinsFor (isGreen : Bool) (campaigns : List Campaign) : Int :=
  let earnedCoins : Int := if isGreen then 50 else 10
  match campaigns with
  | c :: _ => if c.CoinReward > 0 then wrap32 (earnedCoins + c.CoinReward) else earnedCoins
  | [] => earnedCoins

/-- The date of a request: `time.Parse` with layout RFC 3339 and, when that fails, with the
date-only layout (lines 29-36 of `Create`). -/
def parseDate (tl : TimeLib) (date : String) : Option Int :=
  match tl.parseRFC3339 date with
  | some t => some t
  | none => tl.parseDateOnly date

/-- Create creates a new reservation with campaign coin bonus applied. Returns the result
and the persisted state after the call. -/
def Create (tl : TimeLib) (f : Faults) (now : Int) (db : DB) (userID : Int)
    (req : CreateReservationRequest) : Except AppError ReservationResponse × DB :=
  match parseDate tl req.Date with
  | none => (.error (NewValidationError "Invalid date format"), db)
  | some reservationDate =>
    let campaigns := match GetActiveCampaignsForStation f now db (some req.StationID) with
      | some cs => cs
      | none => []
    let earnedCoins := earnedCoinsFor req.IsGreen campaigns
    match CreateReservation f db
        { UserID := userID, StationID := req.StationID, Date := some reservationDate,
          Hour := req.Hour, IsGreen := req.IsGreen, EarnedCoins := earnedCoins } with
    | none => (.error ErrInternal, db)
    | some (reservation, db1) => (.ok (reservationToResponse tl reservation), db1)

/-- UpdateStatus updates a reservation's status (e.g. CANCELLED). Returns the error, if
any, and the persisted state after the call. -/
def UpdateStatus (f : Faults) (db : DB) (reservationID : Int) (req : UpdateStatusRequest) :
    Option AppError × DB :=
  match GetReservationByID f db reservationID with
  | none => (some (NewNotFoundError "Reservation"), db)
  | some existing =>
    if existing.Status = "COMPLETED" then (some ErrAlreadyCompleted, db)
    else
      match UpdateReservationStatus f db reservationID req.Status with
      | none => (some ErrInternal, db)
      | some (_, db1) => (none, db1)

/-- What `Complete` has decided after reading the reservation (lines 99-115): the row it
read and the deltas it is going to write. -/
structure Settlement where
  reservation : Reservation
  earnedCoins : Int
  xpDelta : Int
  co2Delta : ℚ
deriving DecidableEq, Repr

/-- First part of `Complete` (lines 98-115): read the reservation through the plain query
handle, refuse a COMPLETED one, take the deltas from the stored row. -/
def completeCheck (f : Faults) (db : DB) (reservationID : Int) : Except AppError Settlement :=
  match GetReservationByID f db reservationID with
  | none => .error (NewNotFoundError "Reservation")
  | some reservation =>
    if reservation.Status = "COMPLETED" then .error ErrAlreadyCompleted
    else
      .ok { reservation := reservation, earnedCoins := reservation.EarnedCoins,
            xpDelta := 100, co2Delta := if reservation.IsGreen then 5 / 2 else 1 / 2 }

/-- Second part of `Complete` (lines 117-159): the transaction with the two writes. Every
error return runs the deferred `tx.Rollback`. -/
def completeSettle (tl : TimeLib) (f : Faults) (db : DB) (reservationID : Int)
    (s : Settlement) : Except AppError CompleteResponse × DB :=
  match BeginTx f db with
  | none => (.error ErrInternal, db)
  | some tx =>
    match CompleteReservation f tx.work reservationID s.earnedCoins with
    | none => (.error ErrInternal, tx.Rollback)
    | some (updatedReservation, w1) =>
      match UpdateUserStats f w1 s.reservation.UserID s.earnedCoins s.co2Delta s.xpDelta with
      | none => (.error ErrInternal, tx.Rollback)
      | some (updatedUser, w2) =>
        match Tx.Commit f { tx with work := w2 } with
        | none => (.error ErrInternal, tx.Rollback)
        | some db1 =>
          (.ok { Reservation := reservationToResponse tl updatedReservation,
                 User := { ID := updatedUser.ID, Coins := updatedUser.Coins,
                           Co2Saved := updatedUser.Co2Saved, XP := updatedUser.Xp } },
           db1)

/-- Complete atomically completes a reservation and awards the user coins, XP, and CO2.
Returns the result and the persisted state after the call. -/
def Complete (tl : TimeLib) (f : Faults) (db : DB) (reservationID : Int) :
    Except AppError CompleteResponse × DB :=
  match completeCheck f db reservationID with
  | .error e => (.error e, db)
  | .ok s => completeSettle tl f db reservationID s

/-! ## Go standard library used by `internal/station/service.go` -/

/-- Go `unicode.IsSpace`, by code point. -/
def isSpace (c : Char) : Bool :=
  let n := c.toNat
  (9 ≤ n && n ≤ 13) || n == 32 || n == 133 || n == 160 || n == 5760 ||
    (8192 ≤ n && n ≤ 8202) || n == 8232 || n == 8233 || n == 8239 || n == 8287 ||
    n == 12288

/-- Go `strings.TrimSpace`: the string without leading and trailing white space. -/
def TrimSpace (s : List Char) : List Char :=
  ((s.dropWhile isSpace).reverse.dropWhile isSpace).reverse

/-- Go `strings.ReplaceAll(s, old, new)` for a pattern `old` of one character. -/
def ReplaceAll (s : List Char) (old : Char) (new : List Char) : List Char :=
  match s with
  | [] => []
  | c :: cs => (if c = old then new else [c]) ++ ReplaceAll cs old new

/-- A decimal digit. -/
def isDigit (c : Char) : Bool := 48 ≤ c.toNat && c.toNat ≤ 57

/-- An optional sign at the head of a string: whether it is a minus, and the rest. -/
def readSign (s : List Char) : Bool × List Char :=
  match s with
  | [] => (false, [])
  | c :: cs =>
    if c.toNat = 43 then (false, cs)
    else if c.toNat = 45 then (true, cs)
    else (false, c :: cs)

/-- Go `strconv.commonPrefixLenIgnoreCase(s, prefix)`, `prefix` in lower case: the length
of the longest common prefix, the ASCII capitals of `s` read as lower case. -/
def commonPrefixLenIgnoreCase : List Char → List Char → Nat
  | c :: cs, p :: ps =>
    if (if 65 ≤ c.toNat ∧ c.toNat ≤ 90 then c.toNat + 32 else c.toNat) = p.toNat then
      commonPrefixLenIgnoreCase cs ps + 1
    else 0
  | _, _ => 0

/-- Go `strconv.special`: the words for the infinities (an optional sign, then `inf` or
`infinity`) and for NaN (`nan`, unsigned), in any case, at the head of the string. Returns
the value and the number of characters read. -/
def special (s : List Char) : Option (float64 × Nat) :=
  match s with
  | [] => none
  | c :: cs =>
    if c.toNat = 43 ∨ c.toNat = 45 then
      let n := commonPrefixLenIgnoreCase cs "infinity".toList
      let n := if 3 < n ∧ n < 8 then 3 else n
      if n = 3 ∨ n = 8 then some (float64.inf (decide (c.toNat = 45)), 1 + n) else none
    else if c.toNat = 105 ∨ c.toNat = 73 then
      let n := commonPrefixLenIgnoreCase (c :: cs) "infinity".toList
      let n := if 3 < n ∧ n < 8 then 3 else n
      if n = 3 ∨ n = 8 then some (float64.inf false, n) else none
    else if c.toNat = 110 ∨ c.toNat = 78 then
      if commonPrefixLenIgnoreCase (c :: cs) "nan".toList = 3 then some (float64.nan, 3)
      else none
    else none

/-- Whether `lower(c)` is a hexadecimal letter `a`..`f` (Go `lower(c) = c | 0x20`). -/
def isHexLetter (c : Char) : Bool :=
  (97 ≤ c.toNat && c.toNat ≤ 102) || (65 ≤ c.toNat && c.toNat ≤ 70)

/-- The state of the digit loop of Go `strconv.readFloat`. The mantissa holds every digit
read after the leading zeros (`readFloat` keeps 19 of them and a truncation flag; the
conversion that follows rounds the exact value, so the exact mantissa is kept here). -/
structure mantissaState where
  sawdot : Bool
  sawdigits : Bool
  nd : Nat
  dp : Int
  mantissa : Nat
  underscores : Bool
deriving DecidableEq, Repr

/-- The digit loop of Go `strconv.readFloat`: digits, at most one point and underscores.
Returns the state at the first character that does not belong to the mantissa, and the rest
of the string from that character. -/
def readMantissa (hex : Bool) : List Char → mantissaState → mantissaState × List Char
  | [], st => (st, [])
  | c :: cs, st =>
    if c.toNat = 95 then readMantissa hex cs { st with underscores := true }
    else if c.toNat = 46 then
      if st.sawdot then (st, c :: cs)
      else readMantissa hex cs { st with sawdot := true, dp := (st.nd : Int) }
    else if isDigit c then
      if c.toNat = 48 ∧ st.nd = 0 then
        readMantissa hex cs { st with sawdigits := true, dp := st.dp - 1 }
      else
        readMantissa hex cs
          { st with sawdigits := true, nd := st.nd + 1,
                    mantissa := st.mantissa * (if hex then 16 else 10) + (c.toNat - 48) }
    else if hex && isHexLetter c then
      readMantissa hex cs
        { st with sawdigits := true, nd := st.nd + 1,
                  mantissa := st.mantissa * 16 +
                    ((if c.toNat ≥ 97 then c.toNat - 97 else c.toNat - 65) + 10) }
    else (st, c :: cs)

/-- The digits of the exponent in Go `strconv.readFloat`: decimal digits and underscores;
the value stops growing once it has reached 10000. Returns the exponent, whether an
underscore was read, and the rest of the string. -/
def readExponentDigits : List Char → Nat → Bool → Nat × Bool × List Char
  | [], e, u => (e, u, [])
  | c :: cs, e, u =>
    if c.toNat = 95 then readExponentDigits cs e true
    else if isDigit c then
      readExponentDigits cs (if e < 10000 then e * 10 + (c.toNat - 48) else e) u
    else (e, u, c :: cs)

/-- Go `strconv.underscoreOK`, the scan after the optional sign: an underscore is allowed
only between digits or between a base prefix and a digit. `saw` is the last character
class seen: 0 the beginning, 1 a digit or base prefix, 2 an underscore, 3 anything else. -/
def underscoreScan (hex : Bool) : List Char → Nat → Bool
  | [], saw => saw ≠ 2
  | c :: cs, saw =>
    if isDigit c || (hex && isHexLetter c) then underscoreScan hex cs 1
    else if c.toNat = 95 then
      if saw ≠ 1 then false else underscoreScan hex cs 2
    else if saw = 2 then false
    else underscoreScan hex cs 3

/-- Go `strconv.underscoreOK`. -/
def underscoreOK (s : List Char) : Bool :=
  let s := (readSign s).2
  match s with
  | c0 :: c1 :: cs =>
    if c0.toNat = 48 ∧ (c1.toNat = 98 ∨ c1.toNat = 66 ∨ c1.toNat = 111 ∨ c1.toNat = 79 ∨
        c1.toNat = 120 ∨ c1.toNat = 88) then
      underscoreScan (decide (c1.toNat = 120 ∨ c1.toNat = 88)) cs 1
    else underscoreScan false s 0
  | _ => underscoreScan false s 0

/-- What Go `strconv.readFloat` reads off a well-formed literal: the sign, whether the
literal is hexadecimal, the mantissa and the exponent of the base (10, or 2 for a
hexadecimal literal), so that the value is mantissa × base ^ exp. -/
structure floatLiteral where
  neg : Bool
  hex : Bool
  mantissa : Nat
  exp : Int
deriving DecidableEq, Repr

/-- Go `strconv.readFloat` on a whole string: `none` when the string is not, as a whole, a
decimal or hexadecimal floating-point literal. -/
def readFloat (s : List Char) : Option floatLiteral :=
  match s with
  | [] => none
  | _ :: _ =>
    let sg := readSign s
    let hex : Bool :=
      match sg.2 with
      | c0 :: c1 :: _ :: _ => decide (c0.toNat = 48 ∧ (c1.toNat = 120 ∨ c1.toNat = 88))
      | _ => false
    let body := if hex then sg.2.drop 2 else sg.2
    let m := readMantissa hex body ⟨false, false, 0, 0, 0, false⟩
    let st := m.1
    if !st.sawdigits then none
    else
      let dp : Int := if st.sawdot then st.dp else (st.nd : Int)
      let dp : Int := if hex then dp * 4 else dp
      let ndMant : Int := if hex then (st.nd : Int) * 4 else (st.nd : Int)
      let tail : Option (Int × Bool × List Char) :=
        match m.2 with
        | c :: cs =>
          if (if hex then c.toNat = 112 ∨ c.toNat = 80 else c.toNat = 101 ∨ c.toNat = 69) then
            match cs with
            | [] => none
            | _ :: _ =>
              let es := readSign cs
              match es.2 with
              | d :: _ =>
                if isDigit d then
                  let r := readExponentDigits es.2 0 false
                  some (if es.1 then -(r.1 : Int) else (r.1 : Int), r.2.1, r.2.2)
                else none
              | [] => none
          else if hex then none
          else some (0, false, c :: cs)
        | [] => if hex then none else some (0, false, [])
      match tail with
      | none => none
      | some (e, u, rest) =>
        if !rest.isEmpty then none
        else if (st.underscores || u) && !underscoreOK s then none
        else
          some { neg := sg.1, hex := hex, mantissa := st.mantissa,
                 exp := if st.mantissa = 0 then 0 else dp + e - ndMant }

/-- The exact value of a literal. -/
def floatLiteral.value (l : floatLiteral) : ℚ :=
  let v : ℚ := (l.mantissa : ℚ) * (if l.hex then (2 : ℚ) else (10 : ℚ)) ^ l.exp
  if l.neg then -v else v

/-- Go `strconv.ParseFloat(s, 64)`, with `none` for every error. The words for the
infinities and NaN give these values; a decimal or hexadecimal literal gives the binary64
value nearest to its exact value (halves to even), a range error when that is an infinity;
every other string is a syntax error. -/
def ParseFloat (s : List Char) : Option float64 :=
  match special s with
  | some (v, n) => if n = s.length then some v else none
  | none =>
    match readFloat s with
    | none => none
    | some l =>
      match float64.ofRat l.value with
      | .fin r => some (.fin r)
      | _ => none

/-- Go `fmt.Sprintf("%02d:00", hour)`. -/
def hourLabel (hour : Int) : String :=
  (if 0 ≤ hour ∧ hour < 10 then "0" ++ toString hour else toString hour) ++ ":00"

/-! ## `internal/station/dto.go` -/

structure CampaignApplied where
  Title : String
  Discount : String
deriving DecidableEq, Repr

structure TimeSlot where
  Hour : Int
  Label : String
  StartTime : String
  IsGreen : Bool
  Coins : Int
  Price : float64
  Status : String
  Load : Int
  CampaignApplied : Option CampaignApplied
deriving DecidableEq, Repr

structure CampaignSummary where
  ID : Int
  Title : String
  Description : String
  Discount : String
  CoinReward : Int
  StationID : Option Int
deriving DecidableEq, Repr

structure StationDetailResponse where
  ID : Int
  Name : String
  Lat : float64
  Lng : float64
  Address : Option String
  Price : float64
  Density : Int
  DensityProfile : String
  Slots : List TimeSlot
  ActiveCampaign : Option CampaignSummary
deriving DecidableEq, Repr

/-! ## `internal/station/service.go` -/

def greenStart : Int := 23

def greenEnd : Int := 6

/-- Modelled from the spec: query `GetStationByID` of `db/generated` is missing; it is the
read of one station by identity, an error when no row has that identity. -/
def GetStationByID (f : Faults) (db : DB) (id : Int) : Option Station :=
  if f.getStationByID then none
  else db.stations.find? (fun s => decide (s.ID = id))

/-- Modelled from the spec: query `GetForecastForStation` of `db/generated` is missing; it
reads the predicted load stored for (station, day of week, hour), an error when there is
no forecast entry. -/
def GetForecastForStation (f : Faults) (db : DB) (stationID dayOfWeek hour : Int) :
    Option Int :=
  if f.getForecastForStation hour then none
  else
    (db.forecasts.find? (fun e => decide (e.StationID = stationID) &&
      decide (e.DayOfWeek = dayOfWeek) && decide (e.Hour = hour))).map Forecast.PredictedLoad

/-- The reading of `time.Now()` taken by `GetStation`: the instant (seconds), the Go
weekday (Sunday = 0) and the instant of the local midnight of that day. -/
structure Clock where
  now : Int
  weekday : Int
  today : Int

/-- loadStatus returns "GREEN", "YELLOW", or "RED" based on the load value. -/
def loadStatus (load : Int) : String :=
  if load > 65 then "RED"
  else if load > 45 then "YELLOW"
  else "GREEN"

/-- isGreenHour returns true if the hour falls in the green window (23:00-06:00). -/
def isGreenHour (hour : Int) : Bool :=
  decide (hour ≥ greenStart) || decide (hour ≤ greenEnd)

/-- parseDiscountRate parses a discount string like "%20" into 0.20. -/
def parseDiscountRate (discount : String) : float64 :=
  let cleaned := ReplaceAll discount.toList (Char.ofNat 37) []
  let cleaned := TrimSpace cleaned
  match ParseFloat cleaned with
  | none => float64.fin 0
  | some val => float64.div val (float64.fin 100)

/-- The body of the loop of `GetStation` (lines 112-169): the slot of one hour. -/
def timeSlot (tl : TimeLib) (f : Faults) (db : DB) (clock : Clock) (station : Station)
    (stationID : Int) (activeCampaign : Option Campaign) (campaignDiscountRate : float64)
    (dayOfWeek : Int) (hour : Int) : TimeSlot :=
  let slotTime := clock.today + hour * 3600
  let green := isGreenHour hour
  let price := station.Price
  let coins : Int := 10
  let price := if green then float64.mul price (float64.ofRat (4 / 5)) else price
  let coins := if green then 50 else coins
  let price :=
    if float64.lt (float64.fin 0) campaignDiscountRate then
      float64.mul price (float64.sub (float64.fin 1) campaignDiscountRate)
    else price
  let coins := match activeCampaign with
    | some c => if c.CoinReward > 0 then wrap32 (coins + c.CoinReward) else coins
    | none => coins
  let load := match GetForecastForStation f db stationID dayOfWeek hour with
    | some forecastLoad => forecastLoad
    | none => station.Density
  let status := if green then "GREEN" else "RED"
  let campaignApplied := match activeCampaign with
    | some c => some { Title := c.Title, Discount := c.Discount : CampaignApplied }
    | none => none
  { Hour := hour, Label := hourLabel hour, StartTime := tl.formatRFC3339 slotTime,
    IsGreen := green, Coins := coins,
    Price := float64.div (float64.Round (float64.mul price (float64.fin 100)))
      (float64.fin 100),
    Status := status, Load := load, CampaignApplied := campaignApplied }

/-- GetStation returns a station detail with 24h timeslots, campaign discount stacking,
and forecast-based load data. -/
def GetStation (tl : TimeLib) (f : Faults) (db : DB) (clock : Clock) (stationID : Int) :
    Except AppError StationDetailResponse :=
  match GetStationByID f db stationID with
  | none => .error (NewNotFoundError "Station")
  | some station =>
    let campaigns := match GetActiveCampaignsForStation f clock.now db (some stationID) with
      | some cs => cs
      | none => []
    let activeCampaign := campaigns.head?
    let campaignDiscountRate : float64 := match activeCampaign with
      | some c => parseDiscountRate c.Discount
      | none => float64.fin 0
    let dayOfWeek := (clock.weekday + 6) % 7
    let slots := (List.range 24).map (fun (hour : Nat) =>
      timeSlot tl f db clock station stationID activeCampaign campaignDiscountRate
        dayOfWeek (hour : Int))
    .ok { ID := station.ID, Name := station.Name, Lat := station.Lat, Lng := station.Lng,
          Address := station.Address, Price := station.Price, Density := station.Density,
          DensityProfile := station.DensityProfile, Slots := slots,
          ActiveCampaign := activeCampaign.map (fun c =>
            { ID := c.ID, Title := c.Title, Description := c.Description,
              Discount := c.Discount, CoinReward := c.CoinReward,
              StationID := c.StationID }) }

/-- The campaign `GetStation` applies (lines 88-100): the first campaign returned by the
lookup, none when the lookup fails or returns nothing. -/
def activeCampaignOf (f : Faults) (now : Int) (db : DB) (stationID : Int) : Option Campaign :=
  (match GetActiveCampaignsForStation f now db (some stationID) with
    | some cs => cs
    | none => []).head?

/-- The discount rate `GetStation` applies (lines 96-100): the parsed rate of the active
campaign, 0 without a campaign. -/
def campaignRateOf (activeCampaign : Option Campaign) : float64 :=
  match activeCampaign with
  | some c => parseDiscountRate c.Discount
  | none => float64.fin 0

/-! ## `internal/operator/service.go` -/

/-- densityStatus returns a status string based on density thresholds. -/
def densityStatus (density : Int) : String :=
  if density < 43 then "GREEN"
  else if density < 69 then "YELLOW"
  else "RED"

/-! ## `scripts/seed.go`: linear regression density forecasting -/

structure mockDataPoint where
  day : Int
  dayOfWeek : Int
  hour : Int
  load : ℚ
deriving DecidableEq, Repr

structure weeklyForecast where
  dayOfWeek : Int
  hour : Int
  predictedLoad : Int
deriving DecidableEq, Repr

/-- linearRegression computes slope (m) and intercept (b) for y = mx + b. The arithmetic
is exact here; `linearReg64` is the same function in binary64. -/
def linearReg (points : List (ℚ × ℚ)) : ℚ × ℚ :=
  let n : ℚ := (points.length : ℚ)
  if n = 0 then (0, 0)
  else
    let sumX := points.foldl (fun acc p => acc + p.1) 0
    let sumY := points.foldl (fun acc p => acc + p.2) 0
    let sumXY := points.foldl (fun acc p => acc + p.1 * p.2) 0
    let sumXX := points.foldl (fun acc p => acc + p.1 * p.1) 0
    let denom := n * sumXX - sumX * sumX
    if denom = 0 then (0, sumY / n)
    else
      let m := (n * sumXY - sumX * sumY) / denom
      let b := (sumY - m * sumX) / n
      (m, b)

/-- Two's-complement wrap of an integer into the range of the 64-bit Go `int`. -/
def wrap64 (x : Int) : Int :=
  (x + 9223372036854775808) % 18446744073709551616 - 9223372036854775808

/-- The values the 64-bit Go `int` can hold. -/
def isInt64 (x : Int) : Prop := -9223372036854775808 ≤ x ∧ x ≤ 9223372036854775807

instance (x : Int) : Decidable (isInt64 x) := by unfold isInt64; infer_instance

/-- Truncation toward zero. -/
def truncate (x : ℚ) : Int := if 0 ≤ x then x.floor else -((-x).floor)

/-- Go conversion `int(x)` of a float to the 64-bit `int`: truncation toward zero when the
truncated value fits the type. When it does not fit, the Go specification leaves the result
to the implementation: it is some value of the type, `ovfInt x` wrapped to 64 bits. -/
def toInt (ovfInt : ℚ → Int) (x : ℚ) : Int :=
  if isInt64 (truncate x) then truncate x else wrap64 (ovfInt x)

/-- The regression data of a bucket (lines 168-172 of `linearRegressionToWeekly`): the
position of each sample in the bucket, from 0, and its load. -/
def regressionPoints (samples : List mockDataPoint) : List (ℚ × ℚ) :=
  samples.enum.map (fun p => ((p.1 : ℚ), p.2.load))

/-- The prediction for the next week before rounding and clamping (lines 174-177 of
`linearRegressionToWeekly`): the regression line at index `len(samples)`. -/
def predictNext (samples : List mockDataPoint) : ℚ :=
  (linearReg (regressionPoints samples)).1 * (samples.length : ℚ)
    + (linearReg (regressionPoints samples)).2

/-- linearRegression computes slope (m) and intercept (b) for y = mx + b: `linearReg` in
binary64, every operation rounded on its own (no fused multiply-add, as on amd64). The
four sums of the loop of lines 122-127 are four folds over the same points. -/
def linearReg64 (points : List (float64 × float64)) : float64 × float64 :=
  let n := float64.ofNat points.length
  if float64.eq n (float64.fin 0) then (float64.fin 0, float64.fin 0)
  else
    let sumX := points.foldl (fun acc p => float64.add acc p.1) (float64.fin 0)
    let sumY := points.foldl (fun acc p => float64.add acc p.2) (float64.fin 0)
    let sumXY := points.foldl (fun acc p => float64.add acc (float64.mul p.1 p.2))
      (float64.fin 0)
    let sumXX := points.foldl (fun acc p => float64.add acc (float64.mul p.1 p.1))
      (float64.fin 0)
    let denom := float64.sub (float64.mul n sumXX) (float64.mul sumX sumX)
    if float64.eq denom (float64.fin 0) then (float64.fin 0, float64.div sumY n)
    else
      let m := float64.div (float64.sub (float64.mul n sumXY) (float64.mul sumX sumY)) denom
      let b := float64.div (float64.sub sumY (float64.mul m sumX)) n
      (m, b)

/-- The regression data of a bucket in binary64 (lines 168-172 of
`linearRegressionToWeekly`): the position of each sample in the bucket, from 0, and its
load. `loads` are the loads of the samples of the bucket, in order. -/
def regressionPoints64 (loads : List float64) : List (float64 × float64) :=
  loads.enum.map (fun p => (float64.ofNat p.1, p.2))

/-- The prediction for the next week before rounding and clamping, in binary64 (lines
174-177 of `linearRegressionToWeekly`). -/
def predictNext64 (loads : List float64) : float64 :=
  float64.add
    (float64.mul (linearReg64 (regressionPoints64 loads)).1 (float64.ofNat loads.length))
    (linearReg64 (regressionPoints64 loads)).2

/-- The forecast of one (dayOfWeek, hour) bucket (lines 153-186 of
`linearRegressionToWeekly`). With an empty bucket the average is 0/0, a NaN whose
conversion to `int` Go leaves to the implementation: `nanInt` is that value; `ovfInt`
gives the conversions of the values that do not fit (see `toInt`). -/
def bucketForecast (nanInt : Int) (ovfInt : ℚ → Int) (samples : List mockDataPoint)
    (dayOfWeek hour : Int) :
    weeklyForecast :=
  if samples.length < 2 then
    let sum := samples.foldl (fun acc s => acc + s.load) 0
    { dayOfWeek := dayOfWeek, hour := hour,
      predictedLoad :=
        if samples.length = 0 then nanInt
        else toInt ovfInt (Round (sum / (samples.length : ℚ))) }
  else
    let predicted := predictNext samples
    let bounded := min 100 (max 0 (Round predicted))
    { dayOfWeek := dayOfWeek, hour := hour, predictedLoad := toInt ovfInt bounded }

/-- linearRegressionToWeekly applies per (dayOfWeek, hour) linear regression to predict
next week. -/
def linearRegressionToWeekly (nanInt : Int) (ovfInt : ℚ → Int) (mockData : List mockDataPoint) :
    List weeklyForecast :=
  (List.range 7).flatMap (fun (dayOfWeek : Nat) =>
    (List.range 24).map (fun (hour : Nat) =>
      bucketForecast nanInt ovfInt
        (mockData.filter (fun d =>
          decide (d.dayOfWeek = (dayOfWeek : Int)) && decide (d.hour = (hour : Int))))
        (dayOfWeek : Int) (hour : Int)))

/-- The samples of one (dayOfWeek, hour) bucket (lines 146-151 of
`linearRegressionToWeekly`). -/
def bucketOf (mockData : List mockDataPoint) (dayOfWeek hour : Int) : List mockDataPoint :=
  mockData.filter (fun d => decide (d.dayOfWeek = dayOfWeek) && decide (d.hour = hour))

structure profileConfig where
  baseLoad : ℚ
  peakMultiplier : ℚ
  variance : ℚ
deriving DecidableEq, Repr

/-- The profile table; a profile that is not a key of the Go map reads as the zero value. -/
def profiles (profile : String) : profileConfig :=
  if profile = "central" then ⟨50, 9 / 5, 15⟩
  else if profile = "suburban" then ⟨35, 3 / 2, 12⟩
  else if profile = "outskirt" then ⟨20, 13 / 10, 8⟩
  else ⟨0, 0, 0⟩

/-- The load of an hour before noise and trend (lines 54-82 of
`generateTwoMonthMockData`): the base load scaled by the pattern of the hour and by the
weekend adjustment. -/
def patternLoad (cfg : profileConfig) (isWeekend : Bool) (hour : Int) : ℚ :=
  let load := cfg.baseLoad
  let load :=
    if hour ≥ 7 ∧ hour ≤ 9 then
      (if isWeekend then load * (11 / 10) else load * cfg.peakMultiplier)
    else if hour ≥ 12 ∧ hour ≤ 14 then load * (13 / 10)
    else if hour ≥ 17 ∧ hour ≤ 20 then
      (if isWeekend then load * (6 / 5) else load * cfg.peakMultiplier)
    else if hour ≥ 22 ∨ hour < 6 then load * (2 / 5)
    else load
  if isWeekend then load * (17 / 20) else load

/-- The random variance of sample number `k` (line 85): the call of `rand.Float64()` number
`2 * k` of this run of the generator, centred and scaled by the variance of the profile. -/
def noiseAt (cfg : profileConfig) (rnd : Nat → ℚ) (k : Nat) : ℚ :=
  (rnd (2 * k) - 1 / 2) * cfg.variance

/-- The trend direction of sample number `k` (lines 89-92): drawn by the call of
`rand.Float64()` number `2 * k + 1` of this run of the generator. -/
def directionAt (rnd : Nat → ℚ) (k : Nat) : ℚ :=
  if rnd (2 * k + 1) ≤ 1 / 2 then -1 else 1

/-- The body of the loops of `generateTwoMonthMockData` (lines 50-101): the sample of one
day and hour. `rnd n` is the result of the call of `rand.Float64()` number `n`. -/
def sampleAt (cfg : profileConfig) (rnd : Nat → ℚ) (day hour : Nat) : mockDataPoint :=
  let dayOfWeek := day % 7
  let isWeekend := decide (dayOfWeek ≥ 5)
  let load := patternLoad cfg isWeekend (hour : Int)
  let variance := noiseAt cfg rnd (day * 24 + hour)
  let load := min 100 (max 0 (load + variance))
  let direction := directionAt rnd (day * 24 + hour)
  let trendFactor := 1 + ((day : ℚ) / 60) * (1 / 10) * direction
  let load := min 100 (max 0 (load * trendFactor))
  { day := (day : Int), dayOfWeek := (dayOfWeek : Int), hour := (hour : Int),
    load := Round load }

/-- generateTwoMonthMockData creates 60 days × 24 hours of simulated load data. -/
def generateTwoMonthMockData (profile : String) (rnd : Nat → ℚ) : List mockDataPoint :=
  (List.range 60).flatMap (fun (day : Nat) =>
    (List.range 24).map (fun (hour : Nat) => sampleAt (profiles profile) rnd day hour))

/-- The denominator of the slope (lines 121-129 of `linearReg`): n·Σx² − (Σx)². -/
def regressionDenom (points : List (ℚ × ℚ)) : ℚ :=
  (points.length : ℚ) * points.foldl (fun acc p => acc + p.1 * p.1) 0
    - points.foldl (fun acc p => acc + p.1) 0 * points.foldl (fun acc p => acc + p.1) 0

/-- The campaign bonus in the words of the spec: the `coin_reward` of the first active
campaign returned for the station when the list is non-empty and the reward is positive,
nothing otherwise (no campaign, a failed lookup, or a reward ≤ 0). -/
def bonusOf (lookup : Option (List Campaign)) : Int :=
  match lookup with
  | some (c :: _) => if 0 < c.CoinReward then c.CoinReward else 0
  | _ => 0

/-- Two `Complete` calls on the same reservation whose reads both happen before either
transaction: caller A and caller B run lines 98-115, then A runs its transaction, then B
runs its own on the state A committed. Returns both results and the persisted state. -/
def CompleteInterleaved (tl : TimeLib) (fA fB : Faults) (db : DB) (reservationID : Int) :
    (Except AppError CompleteResponse × Except AppError CompleteResponse) × DB :=
  let checkA := completeCheck fA db reservationID
  let checkB := completeCheck fB db reservationID
  let (resA, dbA) : Except AppError CompleteResponse × DB :=
    match checkA with
    | .error e => (.error e, db)
    | .ok s => completeSettle tl fA db reservationID s
  let (resB, dbB) : Except AppError CompleteResponse × DB :=
    match checkB with
    | .error e => (.error e, dbA)
    | .ok s => completeSettle tl fB dbA reservationID s
  ((resA, resB), dbB)

/-! ## The settlement state machine -/

/-- One request handled by the reservation service, or a rewrite of the campaign table by
the campaign service (campaigns created, changed, expired or deleted). -/
inductive Op where
  | create (tl : TimeLib) (f : Faults) (now : Int) (userID : Int)
      (req : CreateReservationRequest)
  | updateStatus (f : Faults) (id : Int) (req : UpdateStatusRequest)
  | complete (tl : TimeLib) (f : Faults) (id : Int)
  | setCampaigns (cs : List Campaign)

/-- One award observed at a successful `Complete`: the reservation, the user, and by how
much the user's counters moved. -/
structure Credit where
  reservationID : Int
  userID : Int
  coins : Int
  co2 : ℚ
  xp : Int
deriving DecidableEq, Repr

/-- The award of a successful `Complete`, read off its response and the user's counters
before the call. -/
def creditOf (db : DB) (resp : CompleteResponse) : Credit :=
  let before : User :=
    match db.users.find? (fun u => decide (u.ID = resp.User.ID)) with
    | some u => u
    | none => ⟨resp.User.ID, 0, 0, 0⟩
  { reservationID := resp.Reservation.ID, userID := resp.User.ID,
    coins := resp.User.Coins - before.Coins,
    co2 := resp.User.Co2Saved - before.Co2Saved,
    xp := resp.User.XP - before.Xp }

/-- The persisted state together with the ledger of the awards made so far (a ghost
record of the successful completions, most recent first). -/
structure World where
  db : DB
  ledger : List Credit

/-- One step of the machine. -/
def Op.step (op : Op) (w : World) : World :=
  match op with
  | .create tl f now userID req => { w with db := (Create tl f now w.db userID req).2 }
  | .updateStatus f id req => { w with db := (UpdateStatus f w.db id req).2 }
  | .complete tl f id =>
    match Complete tl f w.db id with
    | (.ok resp, db1) => ⟨db1, creditOf w.db resp :: w.ledger⟩
    | (.error _, db1) => ⟨db1, w.ledger⟩
  | .setCampaigns cs => { w with db := { w.db with campaigns := cs } }

/-- The state after a sequence of requests. -/
def run (ops : List Op) (w : World) : World :=
  ops.foldl (fun w op => op.step w) w

/-- The awards of a ledger that went to one user. -/
def creditsOf (ledger : List Credit) (userID : Int) : List Credit :=
  ledger.filter (fun c => decide (c.userID = userID))

/-- The settlement invariant of a world reached from the persisted state `db0`: no
reservation has two awards in the ledger; every award belongs to a reservation that is
COMPLETED, for the stored `EarnedCoins` of that reservation, its user, its co2 delta and
100 xp; and every user's counters are the initial ones plus the awards of the ledger that
went to this user. -/
def SettledOnce (db0 : DB) (w : World) : Prop :=
  (w.ledger.map Credit.reservationID).Nodup ∧
  (∀ c ∈ w.ledger, ∃ x,
      w.db.reservations.find? (fun x => decide (x.ID = c.reservationID)) = some x ∧
      x.Status = "COMPLETED" ∧ x.EarnedCoins = c.coins ∧ x.UserID = c.userID ∧
      c.co2 = (if x.IsGreen then 5 / 2 else 1 / 2) ∧ c.xp = 100) ∧
  List.Forall₂ (fun u0 u => u.ID = u0.ID ∧
      u.Coins = u0.Coins + ((creditsOf w.ledger u0.ID).map Credit.coins).sum ∧
      u.Co2Saved = u0.Co2Saved + ((creditsOf w.ledger u0.ID).map Credit.co2).sum ∧
      u.Xp = u0.Xp + ((creditsOf w.ledger u0.ID).map Credit.xp).sum) db0.users w.db.users

/-! ## Concrete states used to exercise the definitions -/

/-- A `time` library that accepts every date as the instant 0. -/
def tlUnix : TimeLib :=
  ⟨fun _ => some 0, fun _ => none, fun _ => "1970-01-01T00:00:00Z"⟩

/-- One driver with empty counters. -/
def userAda : User := ⟨7, 0, 0, 0⟩

/-- A green reservation of driver 7, not yet settled, earning 50 coins. -/
def resPending : Reservation :=
  ⟨1, 7, 3, some 0, "23:00", true, 50, 0, "PENDING"⟩

/-- The same reservation after the driver cancelled it. -/
def resCancelled : Reservation :=
  ⟨1, 7, 3, some 0, "23:00", true, 50, 0, "CANCELLED"⟩

def dbPending : DB := ⟨[userAda], [resPending], [], [], [], 2⟩

def dbCancelled : DB := ⟨[userAda], [resCancelled], [], [], [], 2⟩

/-- A persistence layer whose commit fails. -/
def faultCommit : Faults :=
  ⟨false, false, false, false, false, true, false, false, false, fun _ => false⟩

/-- The reservation of `dbPending` once settled. -/
def resCompleted : Reservation :=
  ⟨1, 7, 3, some 0, "23:00", true, 50, 5 / 2, "COMPLETED"⟩

def dbCompleted : DB := ⟨[⟨7, 50, 5 / 2, 100⟩], [resCompleted], [], [], [], 2⟩

/-- A global campaign with the largest coin reward an `int32` column holds. -/
def campaignJackpot : Campaign :=
  ⟨1, "Jackpot", "", "ACTIVE", "", "2x Coin", none, 9, none, 2147483647, 0⟩

/-- A global campaign: 20 % off and 25 bonus coins. -/
def campaignSpring : Campaign :=
  ⟨2, "Spring", "", "ACTIVE", "", "%20", none, 9, none, 25, 0⟩

def dbJackpot : DB := ⟨[userAda], [], [campaignJackpot], [], [], 1⟩

def dbSpring : DB := ⟨[userAda], [], [campaignSpring], [], [], 1⟩

/-- A booking of a green hour at station 3. -/
def reqGreen : CreateReservationRequest := ⟨3, "2025-01-01", "23:00", true⟩

/-- The row `Create` stores for `reqGreen` of driver 7 in `dbSpring`. -/
def resSpring : Reservation :=
  ⟨1, 7, 3, some 0, "23:00", true, 75, 0, "PENDING"⟩

/-- The state `dbSpring` after that booking. -/
def dbSpringBooked : DB := ⟨[userAda], [resSpring], [campaignSpring], [], [], 2⟩

/-- A station with base price 10. -/
def stationHarbor : Station :=
  ⟨3, "Harbor", .fin 0, .fin 0, none, .fin 10, 40, "NORMAL"⟩

/-- The station, the Spring campaign (20 % off) and one forecast entry. -/
def dbHarbor : DB := ⟨[userAda], [], [campaignSpring], [stationHarbor], [⟨3, 0, 5, 77⟩], 1⟩

/-- A Monday. -/
def clockMonday : Clock := ⟨0, 1, 0⟩

/-- A global campaign with a discount above 100 %. -/
def campaignOver : Campaign :=
  ⟨3, "Over", "", "ACTIVE", "", "%150", none, 9, none, 0, 0⟩

/-- The station with the campaign `campaignOver`. -/
def dbOver : DB := ⟨[userAda], [], [campaignOver], [stationHarbor], [], 1⟩

/-- The station with the campaign `campaignJackpot` (label "2x Coin"). -/
def dbHarborJackpot : DB := ⟨[userAda], [], [campaignJackpot], [stationHarbor], [], 1⟩

/-- A global campaign with a promotional label and 200 bonus coins. -/
def campaignEco : Campaign :=
  ⟨4, "Eco", "", "ACTIVE", "", "2x Coin", none, 9, none, 200, 5⟩

/-- The station with the campaigns `campaignEco` (most recent) and `campaignSpring`. -/
def dbHarborEco : DB :=
  ⟨[userAda], [], [campaignSpring, campaignEco], [stationHarbor], [⟨3, 0, 5, 77⟩], 1⟩

/-- A station with base price 9.5. -/
def stationQuay : Station :=
  ⟨4, "Quay", .fin 0, .fin 0, none, .fin (19 / 2), 40, "NORMAL"⟩

/-- A global campaign: 15 % off. -/
def campaignFifteen : Campaign :=
  ⟨5, "Fifteen", "", "ACTIVE", "", "%15", none, 9, none, 0, 0⟩

/-- The station `stationQuay` with the campaign `campaignFifteen`. -/
def dbQuay : DB := ⟨[userAda], [], [campaignFifteen], [stationQuay], [], 1⟩

/-- The bucket of the spec: loads 10, 20, 30 on three Mondays at midnight. -/
def samplesLine : List mockDataPoint := [⟨0, 0, 0, 10⟩, ⟨7, 0, 0, 20⟩, ⟨14, 0, 0, 30⟩]

/-- A random source without noise (every variance draw is 0.5) whose direction draws
alternate between 0.25 and 0.75 from one sample to the next. -/
def rndAlternating : Nat → ℚ :=
  fun n => if n % 2 = 0 then 1 / 2 else if (n / 2) % 2 = 0 then 1 / 4 else 3 / 4

/-- A random source that always draws 0.5. -/
def rndHalf : Nat → ℚ := fun _ => 1 / 2

/-- One sample of load 150 in each of the 168 (dayOfWeek, hour) buckets. -/
def samplesOver : List mockDataPoint :=
  (List.range 7).flatMap (fun (d : Nat) =>
    (List.range 24).map (fun (h : Nat) => (⟨(d : Int), (d : Int), (h : Int), 150⟩ : mockDataPoint)))

/-- One sample, of load 10^19 (a `float64` value), in the bucket of day 0, hour 0. -/
def samplesHuge : List mockDataPoint := [⟨0, 0, 0, 10000000000000000000⟩]

/-- One sample of load 40 for every day of the week and hour. -/
def samplesFlat : List mockDataPoint :=
  (List.range 7).flatMap (fun (d : Nat) =>
    (List.range 24).map (fun (h : Nat) => (⟨(d : Int), (d : Int), (h : Int), 40⟩ : mockDataPoint)))

/-- A booking flagged green for noon, outside the green window. -/
def reqNoonGreen : CreateReservationRequest := ⟨3, "2025-01-02", "12:00", true⟩

/-- One driver, no reservation, no campaign. -/
def dbEmpty : DB := ⟨[userAda], [], [], [stationHarbor], [], 1⟩

/-! ## Lemmas on the queries -/

section Theorems

/-- Looking a row up by key after an update that keeps the keys finds the updated row. -/
theorem find?_map_key {α : Type} (key : α → Int) (g : α → α) (hg : ∀ x, key (g x) = key x)
    (id : Int) (xs : List α) :
    (xs.map (fun x => if key x = id then g x else x)).find? (fun x => decide (key x = id))
      = (xs.find? (fun x => decide (key x = id))).map g := by
  induction xs with
  | nil => rfl
  | cons x xs ih =>
    by_cases h : key x = id
    · simp [List.find?, h, hg]
    · simp only [List.map_cons, h, if_false, List.find?, decide_False]
      exact ih

theorem GetReservationByID_some {f : Faults} {db : DB} {id : Int} {r : Reservation}
    (h : GetReservationByID f db id = some r) :
    f.getReservationByID = false ∧
      db.reservations.find? (fun x => decide (x.ID = id)) = some r ∧ r.ID = id := by
  unfold GetReservationByID at h
  cases hf : f.getReservationByID with
  | true => simp [hf] at h
  | false =>
    simp only [hf] at h
    refine ⟨rfl, by simpa using h, ?_⟩
    have := List.find?_some (by simpa using h)
    simpa using this

theorem CompleteReservation_eq {f : Faults} {db : DB} {id : Int} {r : Reservation}
    (e : Int) (hf : f.completeReservation = false)
    (h : db.reservations.find? (fun x => decide (x.ID = id)) = some r) :
    CompleteReservation f db id e =
      some (r.markCompleted e,
            { db with reservations := db.reservations.map (fun x =>
                if x.ID = id then x.markCompleted e else x) }) := by
  unfold CompleteReservation
  have := find?_map_key Reservation.ID (fun x => x.markCompleted e)
    (fun _ => rfl) id db.reservations
  simp only [h, Option.map_some'] at this
  simp only [hf, Bool.false_eq_true, if_false, this]

theorem UpdateUserStats_eq {f : Faults} {db : DB} {id : Int} {u : User}
    (coins : Int) (co2 : ℚ) (xp : Int) (hf : f.updateUserStats = false)
    (h : db.users.find? (fun x => decide (x.ID = id)) = some u) :
    UpdateUserStats f db id coins co2 xp =
      some (u.addStats coins co2 xp,
            { db with users := db.users.map (fun x =>
                if x.ID = id then x.addStats coins co2 xp else x) }) := by
  unfold UpdateUserStats
  have := find?_map_key User.ID (fun x => x.addStats coins co2 xp)
    (fun _ => rfl) id db.users
  simp only [h, Option.map_some'] at this
  simp only [hf, Bool.false_eq_true, if_false, this]

theorem UpdateReservationStatus_eq {f : Faults} {db : DB} {id : Int} {r : Reservation}
    (status : String) (hf : f.updateReservationStatus = false)
    (h : db.reservations.find? (fun x => decide (x.ID = id)) = some r) :
    UpdateReservationStatus f db id status =
      some ({ r with Status := status },
            { db with reservations := db.reservations.map (fun x => if x.ID = id then
                { x with Status := status } else x) }) := by
  unfold UpdateReservationStatus
  simp only [hf]
  have := find?_map_key Reservation.ID (fun x => { x with Status := status })
    (fun _ => rfl) id db.reservations
  simp only [h, Option.map_some'] at this
  simp only [Bool.false_eq_true, if_false, this]

/-- A failing `Complete` leaves the persisted state as it was. -/
theorem Complete_error_keeps_db (tl : TimeLib) (f : Faults) (db : DB) (id : Int)
    (e : AppError) (db1 : DB) (h : Complete tl f db id = (.error e, db1)) : db1 = db := by
  unfold Complete at h
  split at h
  · simp only [Prod.mk.injEq] at h; exact h.2.symm
  · unfold completeSettle at h
    split at h
    · simp only [Prod.mk.injEq] at h; exact h.2.symm
    · rename_i tx htx
      have hb : tx.base = db := by
        unfold BeginTx at htx
        split at htx
        · simp at htx
        · simp only [Option.some.injEq] at htx; rw [← htx]
      split at h
      · simp only [Prod.mk.injEq, Tx.Rollback] at h; rw [← h.2, hb]
      · split at h
        · simp only [Prod.mk.injEq, Tx.Rollback] at h; rw [← h.2, hb]
        · split at h
          · simp only [Prod.mk.injEq, Tx.Rollback] at h; rw [← h.2, hb]
          · simp at h

/-- The result of `Complete` when the read, the two writes and the commit go through. -/
theorem Complete_eq_of_steps (tl : TimeLib) (f : Faults) (db : DB) (id : Int)
    (r : Reservation) (u : User)
    (hread : GetReservationByID f db id = some r) (hstatus : r.Status ≠ "COMPLETED")
    (huser : db.users.find? (fun x => decide (x.ID = r.UserID)) = some u)
    (hbegin : f.beginTx = false) (hres : f.completeReservation = false)
    (hstats : f.updateUserStats = false) (hcommit : f.commit = false) :
    Complete tl f db id =
      (.ok { Reservation := reservationToResponse tl (r.markCompleted r.EarnedCoins),
             User := { ID := u.ID, Coins := u.Coins + r.EarnedCoins,
                       Co2Saved := u.Co2Saved + (if r.IsGreen then 5 / 2 else 1 / 2),
                       XP := u.Xp + 100 } },
       { db with
           reservations := db.reservations.map (fun x =>
             if x.ID = id then x.markCompleted r.EarnedCoins else x),
           users := db.users.map (fun x =>
             if x.ID = r.UserID then
               x.addStats r.EarnedCoins (if r.IsGreen then 5 / 2 else 1 / 2) 100
             else x) }) := by
  obtain ⟨_, hfind, _⟩ := GetReservationByID_some hread
  unfold Complete completeCheck
  simp only [hread, hstatus, if_false]
  unfold completeSettle BeginTx
  simp only [hbegin, Bool.false_eq_true, if_false]
  rw [CompleteReservation_eq r.EarnedCoins hres hfind]
  have hm := find?_map_key User.ID
    (fun x => x.addStats r.EarnedCoins (if r.IsGreen then 5 / 2 else 1 / 2) 100)
    (fun _ => rfl) r.UserID db.users
  simp only [huser, Option.map_some'] at hm
  simp only [UpdateUserStats, hstats, Bool.false_eq_true, if_false, hm, Tx.Commit, hcommit]
  rfl

/-- A successful `Complete` has read a reservation that was not COMPLETED, found its
user, and met no fault in the transaction. -/
theorem Complete_ok_steps (tl : TimeLib) (f : Faults) (db : DB) (id : Int)
    (resp : CompleteResponse) (db1 : DB) (h : Complete tl f db id = (.ok resp, db1)) :
    ∃ r u, GetReservationByID f db id = some r ∧ r.Status ≠ "COMPLETED" ∧
      db.users.find? (fun x => decide (x.ID = r.UserID)) = some u ∧
      f.beginTx = false ∧ f.completeReservation = false ∧
      f.updateUserStats = false ∧ f.commit = false := by
  unfold Complete completeCheck at h
  cases hread : GetReservationByID f db id with
  | none => simp [hread] at h
  | some r =>
    simp only [hread] at h
    by_cases hst : r.Status = "COMPLETED"
    · simp [hst] at h
    · simp only [hst, if_false] at h
      cases hb : f.beginTx with
      | true => simp [completeSettle, BeginTx, hb] at h
      | false =>
        cases hc : f.completeReservation with
        | true => simp [completeSettle, BeginTx, hb, CompleteReservation, hc, Tx.Rollback] at h
        | false =>
          cases hs : f.updateUserStats with
          | true =>
            obtain ⟨_, hfind, _⟩ := GetReservationByID_some hread
            unfold completeSettle BeginTx at h
            simp only [hb, Bool.false_eq_true, if_false] at h
            rw [CompleteReservation_eq r.EarnedCoins hc hfind] at h
            simp [UpdateUserStats, hs, Tx.Rollback] at h
          | false =>
            cases hu : db.users.find? (fun x => decide (x.ID = r.UserID)) with
            | none =>
              obtain ⟨_, hfind, _⟩ := GetReservationByID_some hread
              unfold completeSettle BeginTx at h
              simp only [hb, Bool.false_eq_true, if_false] at h
              rw [CompleteReservation_eq r.EarnedCoins hc hfind] at h
              have hm := find?_map_key User.ID
                (fun x => x.addStats r.EarnedCoins (if r.IsGreen then 5 / 2 else 1 / 2) 100)
                (fun _ => rfl) r.UserID db.users
              simp only [hu, Option.map_none'] at hm
              simp only [UpdateUserStats, hs, Bool.false_eq_true, if_false, hm,
                Tx.Rollback] at h
              simp at h
            | some u =>
              cases hcm : f.commit with
              | true =>
                obtain ⟨_, hfind, _⟩ := GetReservationByID_some hread
                unfold completeSettle BeginTx at h
                simp only [hb, Bool.false_eq_true, if_false] at h
                rw [CompleteReservation_eq r.EarnedCoins hc hfind] at h
                have hm := find?_map_key User.ID
                  (fun x => x.addStats r.EarnedCoins (if r.IsGreen then 5 / 2 else 1 / 2) 100)
                  (fun _ => rfl) r.UserID db.users
                simp only [hu, Option.map_some'] at hm
                simp only [UpdateUserStats, hs, Bool.false_eq_true, if_false, hm, Tx.Commit,
                  hcm, Tx.Rollback] at h
                simp at h
              | false => exact ⟨r, u, rfl, hst, hu, rfl, rfl, rfl, rfl⟩

/-! ## Settlement: `Complete` and `UpdateStatus` -/

/-- C1: for every reservation whose status is not COMPLETED, when the read, the two
writes and the commit succeed, `Complete` returns a result; the persisted reservation is
COMPLETED with its stored `EarnedCoins` and `SavedCo2` 2.5 if green else 0.5, and the
owning user is credited the stored `EarnedCoins`, that same co2 delta and 100 xp. -/
theorem Complete_credits_stored_values (tl : TimeLib) (f : Faults) (db : DB) (id : Int)
    (r : Reservation) (u : User)
    (hread : GetReservationByID f db id = some r) (hstatus : r.Status ≠ "COMPLETED")
    (huser : db.users.find? (fun x => decide (x.ID = r.UserID)) = some u)
    (hbegin : f.beginTx = false) (hres : f.completeReservation = false)
    (hstats : f.updateUserStats = false) (hcommit : f.commit = false) :
    Complete tl f db id =
      (.ok { Reservation := reservationToResponse tl
               { r with Status := "COMPLETED", EarnedCoins := r.EarnedCoins,
                        SavedCo2 := if r.IsGreen then 5 / 2 else 1 / 2 },
             User := { ID := u.ID, Coins := u.Coins + r.EarnedCoins,
                       Co2Saved := u.Co2Saved + (if r.IsGreen then 5 / 2 else 1 / 2),
                       XP := u.Xp + 100 } },
       { db with
           reservations := db.reservations.map (fun x =>
             if x.ID = id then
               { x with Status := "COMPLETED", EarnedCoins := r.EarnedCoins,
                        SavedCo2 := if x.IsGreen then 5 / 2 else 1 / 2 }
             else x),
           users := db.users.map (fun x =>
             if x.ID = r.UserID then
               { x with Coins := x.Coins + r.EarnedCoins,
                        Co2Saved := x.Co2Saved + (if r.IsGreen then 5 / 2 else 1 / 2),
                        Xp := x.Xp + 100 }
             else x) }) :=
  Complete_eq_of_steps tl f db id r u hread hstatus huser hbegin hres hstats hcommit

/-- C1 at the green reservation of `dbPending`: 50 coins, 2.5 kg and 100 xp. -/
theorem Complete_credits_stored_values_witness :
    Complete tlUnix Faults.none dbPending 1 =
      (.ok { Reservation := reservationToResponse tlUnix
               { resPending with Status := "COMPLETED", EarnedCoins := resPending.EarnedCoins,
                                 SavedCo2 := if resPending.IsGreen then 5 / 2 else 1 / 2 },
             User := { ID := userAda.ID, Coins := userAda.Coins + resPending.EarnedCoins,
                       Co2Saved := userAda.Co2Saved +
                         (if resPending.IsGreen then 5 / 2 else 1 / 2),
                       XP := userAda.Xp + 100 } },
       { dbPending with
           reservations := dbPending.reservations.map (fun x =>
             if x.ID = 1 then
               { x with Status := "COMPLETED", EarnedCoins := resPending.EarnedCoins,
                        SavedCo2 := if x.IsGreen then 5 / 2 else 1 / 2 }
             else x),
           users := dbPending.users.map (fun x =>
             if x.ID = resPending.UserID then
               { x with Coins := x.Coins + resPending.EarnedCoins,
                        Co2Saved := x.Co2Saved +
                          (if resPending.IsGreen then 5 / 2 else 1 / 2),
                        Xp := x.Xp + 100 }
             else x) }) :=
  Complete_credits_stored_values tlUnix Faults.none dbPending 1 resPending userAda
    (by decide) (by decide) (by decide) rfl rfl rfl rfl

/-- C2: after a successful `Complete` of a reservation, a second `Complete` of the same
reservation (whose read goes through) returns ALREADY_COMPLETED and leaves the persisted
state as the first call left it, so the user has been credited once. -/
theorem Complete_twice_credits_once (tl : TimeLib) (f1 f2 : Faults) (db db1 : DB) (id : Int)
    (r : Reservation) (resp : CompleteResponse)
    (hread : GetReservationByID f1 db id = some r)
    (hfirst : Complete tl f1 db id = (.ok resp, db1))
    (hread2 : f2.getReservationByID = false) :
    Complete tl f2 db1 id = (.error ErrAlreadyCompleted, db1) ∧
      db1.users = db.users.map (fun x =>
        if x.ID = r.UserID then
          { x with Coins := x.Coins + r.EarnedCoins,
                   Co2Saved := x.Co2Saved + (if r.IsGreen then 5 / 2 else 1 / 2),
                   Xp := x.Xp + 100 }
        else x) := by
  obtain ⟨r1, u, hr1, hst, hu, hb, hc, hs, hcm⟩ := Complete_ok_steps tl f1 db id resp db1 hfirst
  have hrr : r1 = r := by rw [hread] at hr1; exact (Option.some.inj hr1).symm
  subst hrr
  have heq := Complete_eq_of_steps tl f1 db id r1 u hread hst hu hb hc hs hcm
  rw [hfirst] at heq
  have hdb : db1 = ({ db with
      reservations := db.reservations.map (fun x =>
        if x.ID = id then x.markCompleted r1.EarnedCoins else x),
      users := db.users.map (fun x =>
        if x.ID = r1.UserID then
          x.addStats r1.EarnedCoins (if r1.IsGreen then 5 / 2 else 1 / 2) 100
        else x) } : DB) := (Prod.mk.inj heq).2
  obtain ⟨_, hfind, _⟩ := GetReservationByID_some hread
  have hm := find?_map_key Reservation.ID (fun x => x.markCompleted r1.EarnedCoins)
    (fun _ => rfl) id db.reservations
  simp only [hfind, Option.map_some'] at hm
  refine ⟨?_, ?_⟩
  · have hget : GetReservationByID f2 db1 id = some (r1.markCompleted r1.EarnedCoins) := by
      unfold GetReservationByID
      simp only [hread2, Bool.false_eq_true, if_false, hdb, hm]
    unfold Complete completeCheck
    simp only [hget, Reservation.markCompleted, if_true]
  · rw [hdb]; rfl

/-- C2 at `dbPending`: the second completion of reservation 1 is refused. -/
theorem Complete_twice_credits_once_witness :
    Complete tlUnix Faults.none (Complete tlUnix Faults.none dbPending 1).2 1 =
        (.error ErrAlreadyCompleted, (Complete tlUnix Faults.none dbPending 1).2) ∧
      (Complete tlUnix Faults.none dbPending 1).2.users = dbPending.users.map (fun x =>
        if x.ID = resPending.UserID then
          { x with Coins := x.Coins + resPending.EarnedCoins,
                   Co2Saved := x.Co2Saved + (if resPending.IsGreen then 5 / 2 else 1 / 2),
                   Xp := x.Xp + 100 }
        else x) :=
  Complete_twice_credits_once tlUnix Faults.none Faults.none dbPending
    (Complete tlUnix Faults.none dbPending 1).2 1 resPending
    (match (Complete tlUnix Faults.none dbPending 1).1 with
     | .ok resp => resp
     | .error _ => ⟨reservationToResponse tlUnix resPending, ⟨0, 0, 0, 0⟩⟩)
    (by decide) (by rfl) rfl

/-- C4: `Complete` is atomic on failure. Once the reservation is read and is not COMPLETED,
if the transaction cannot begin, the reservation write fails, the user-stats write fails or
the commit fails, `Complete` returns the INTERNAL error and the persisted state is the
state before the call. -/
theorem Complete_failure_is_atomic (tl : TimeLib) (f : Faults) (db : DB) (id : Int)
    (r : Reservation)
    (hread : GetReservationByID f db id = some r) (hstatus : r.Status ≠ "COMPLETED")
    (hfail : f.beginTx = true ∨
      CompleteReservation f db id r.EarnedCoins = none ∨
      (∃ ur w1, CompleteReservation f db id r.EarnedCoins = some (ur, w1) ∧
        UpdateUserStats f w1 r.UserID r.EarnedCoins
          (if r.IsGreen then 5 / 2 else 1 / 2) 100 = none) ∨
      f.commit = true) :
    Complete tl f db id = (.error ErrInternal, db) := by
  unfold Complete completeCheck
  simp only [hread, hstatus, if_false]
  unfold completeSettle BeginTx
  cases hb : f.beginTx with
  | true => simp
  | false =>
    simp only [Bool.false_eq_true, if_false, Tx.Rollback]
    cases hc : CompleteReservation f db id r.EarnedCoins with
    | none => rfl
    | some p =>
      obtain ⟨ur, w1⟩ := p
      simp only []
      cases hs : UpdateUserStats f w1 r.UserID r.EarnedCoins
          (if r.IsGreen then 5 / 2 else 1 / 2) 100 with
      | none => rfl
      | some q =>
        obtain ⟨uu, w2⟩ := q
        simp only [Tx.Commit]
        cases hcm : f.commit with
        | true => simp
        | false =>
          exfalso
          rcases hfail with h | h | ⟨ur1, w11, h1, h2⟩ | h
          · rw [hb] at h; cases h
          · rw [hc] at h; cases h
          · rw [hc] at h1
            obtain ⟨-, rfl⟩ := Prod.mk.inj (Option.some.inj h1)
            rw [hs] at h2; cases h2
          · rw [hcm] at h; cases h

/-- C4 at `dbPending` with a failing commit: INTERNAL, nothing persisted. -/
theorem Complete_failure_is_atomic_witness :
    Complete tlUnix faultCommit dbPending 1 = (.error ErrInternal, dbPending) :=
  Complete_failure_is_atomic tlUnix faultCommit dbPending 1 resPending
    (by decide) (by decide) (Or.inr (Or.inr (Or.inr rfl)))

/-- C6, as stated, fails on a CANCELLED reservation: `Complete` settles it (status
COMPLETED, 50 coins and 100 xp credited) and `UpdateStatus` writes any status onto it. -/
theorem cancelled_is_not_terminal :
    (GetReservationByID Faults.none dbCancelled 1).map Reservation.Status
        = some "CANCELLED" ∧
      (Complete tlUnix Faults.none dbCancelled 1).2.reservations.map Reservation.Status
        = ["COMPLETED"] ∧
      (Complete tlUnix Faults.none dbCancelled 1).2.users.map User.Coins = [50] ∧
      dbCancelled.users.map User.Coins = [0] ∧
      (Complete tlUnix Faults.none dbCancelled 1).2.users.map User.Xp = [100] ∧
      (UpdateStatus Faults.none dbCancelled 1 ⟨"PENDING"⟩).1 = none ∧
      (UpdateStatus Faults.none dbCancelled 1 ⟨"PENDING"⟩).2.reservations.map
        Reservation.Status = ["PENDING"] := by
  decide

/-- C6 (amended): no transition is permitted out of COMPLETED. For every reservation
whose status is COMPLETED, `UpdateStatus` with any requested status and `Complete` both
return ALREADY_COMPLETED and leave the persisted state (status and user counters)
unchanged. -/
theorem completed_is_terminal (tl : TimeLib) (f : Faults) (db : DB) (id : Int)
    (r : Reservation) (req : UpdateStatusRequest)
    (hread : GetReservationByID f db id = some r) (hstatus : r.Status = "COMPLETED") :
    UpdateStatus f db id req = (some ErrAlreadyCompleted, db) ∧
      Complete tl f db id = (.error ErrAlreadyCompleted, db) := by
  constructor
  · unfold UpdateStatus
    simp only [hread, hstatus, if_true]
  · unfold Complete completeCheck
    simp only [hread, hstatus, if_true]

/-- C6 (amended) at `dbCompleted`: a request to cancel and a second completion are both
refused. -/
theorem completed_is_terminal_witness :
    UpdateStatus Faults.none dbCompleted 1 ⟨"CANCELLED"⟩ = (some ErrAlreadyCompleted, dbCompleted) ∧
      Complete tlUnix Faults.none dbCompleted 1 = (.error ErrAlreadyCompleted, dbCompleted) :=
  completed_is_terminal tlUnix Faults.none dbCompleted 1 resCompleted ⟨"CANCELLED"⟩
    rfl rfl

/-- C7: once the reservation is read, `UpdateStatus` returns ALREADY_COMPLETED and writes
nothing when its status is COMPLETED; for every other current status and every requested
status string it writes the requested status on the reservation and returns no error when
the write succeeds (INTERNAL, nothing written, when the write fails). -/
theorem UpdateStatus_guard_then_write (f : Faults) (db : DB) (id : Int)
    (r : Reservation) (req : UpdateStatusRequest)
    (hread : GetReservationByID f db id = some r) :
    UpdateStatus f db id req =
      if r.Status = "COMPLETED" then (some ErrAlreadyCompleted, db)
      else if f.updateReservationStatus = true then (some ErrInternal, db)
      else (none, { db with reservations := db.reservations.map (fun x =>
            if x.ID = id then { x with Status := req.Status } else x) }) := by
  obtain ⟨_, hfind, _⟩ := GetReservationByID_some hread
  unfold UpdateStatus
  simp only [hread]
  by_cases hst : r.Status = "COMPLETED"
  · simp only [hst, if_true]
  · simp only [hst, if_false]
    cases hw : f.updateReservationStatus with
    | true => simp [UpdateReservationStatus, hw]
    | false =>
      rw [UpdateReservationStatus_eq req.Status hw hfind]
      simp

/-- C7 at `dbPending`: the pending reservation takes the requested status. -/
theorem UpdateStatus_guard_then_write_witness :
    UpdateStatus Faults.none dbPending 1 ⟨"CANCELLED"⟩ =
      if resPending.Status = "COMPLETED" then (some ErrAlreadyCompleted, dbPending)
      else if Faults.none.updateReservationStatus = true then (some ErrInternal, dbPending)
      else (none, { dbPending with reservations := dbPending.reservations.map (fun x =>
            if x.ID = 1 then { x with Status := (⟨"CANCELLED"⟩ : UpdateStatusRequest).Status }
            else x) }) :=
  UpdateStatus_guard_then_write Faults.none dbPending 1 resPending ⟨"CANCELLED"⟩ (by decide)

/-! ## Steps of the state machine -/

/-- Looking a row up by identity commutes with an update that keeps the identities. -/
theorem find?_map_keepID (g : Reservation → Reservation) (hg : ∀ x, (g x).ID = x.ID)
    (i : Int) (xs : List Reservation) :
    (xs.map g).find? (fun x => decide (x.ID = i))
      = (xs.find? (fun x => decide (x.ID = i))).map g := by
  induction xs with
  | nil => rfl
  | cons x xs ih =>
    by_cases h : x.ID = i
    · simp [List.find?, h, hg]
    · simp only [List.map_cons, List.find?, hg, h, decide_False]
      exact ih

/-- What `Create` leaves persisted: the state as it was, or one more reservation. -/
theorem Create_db (tl : TimeLib) (f : Faults) (now : Int) (db : DB) (userID : Int)
    (req : CreateReservationRequest) :
    (Create tl f now db userID req).2 = db ∨
      ∃ row, (Create tl f now db userID req).2 =
        { db with reservations := db.reservations ++ [row],
                  nextReservationID := db.nextReservationID + 1 } := by
  unfold Create
  cases parseDate tl req.Date with
  | none => exact Or.inl rfl
  | some t =>
    simp only [CreateReservation]
    cases f.createReservation with
    | true => exact Or.inl rfl
    | false => exact Or.inr ⟨_, rfl⟩

/-- What `UpdateStatus` leaves persisted: the state as it was, or the requested status on
a reservation that was not COMPLETED. -/
theorem UpdateStatus_db (f : Faults) (db : DB) (id : Int) (req : UpdateStatusRequest) :
    (UpdateStatus f db id req).2 = db ∨
      ∃ r, db.reservations.find? (fun x => decide (x.ID = id)) = some r ∧
        r.Status ≠ "COMPLETED" ∧
        (UpdateStatus f db id req).2 =
          { db with reservations := db.reservations.map (fun x =>
              if x.ID = id then { x with Status := req.Status } else x) } := by
  unfold UpdateStatus
  cases hread : GetReservationByID f db id with
  | none => exact Or.inl rfl
  | some r =>
    obtain ⟨_, hfind, _⟩ := GetReservationByID_some hread
    simp only []
    by_cases hst : r.Status = "COMPLETED"
    · simp only [hst, if_true]; exact Or.inl trivial
    · simp only [hst, if_false]
      cases hw : f.updateReservationStatus with
      | true => simp [UpdateReservationStatus, hw]
      | false =>
        rw [UpdateReservationStatus_eq req.Status hw hfind]
        exact Or.inr ⟨r, hfind, hst, rfl⟩

/-- What the step of a `complete` request does: nothing, or the settlement of a
reservation that was not COMPLETED with one award entered in the ledger. -/
theorem step_complete (tl : TimeLib) (f : Faults) (id : Int) (w : World) :
    (Op.complete tl f id).step w = w ∨
      ∃ r u, w.db.reservations.find? (fun x => decide (x.ID = id)) = some r ∧ r.ID = id ∧
        r.Status ≠ "COMPLETED" ∧
        w.db.users.find? (fun x => decide (x.ID = r.UserID)) = some u ∧ u.ID = r.UserID ∧
        (Op.complete tl f id).step w =
          ⟨{ w.db with
              reservations := w.db.reservations.map (fun x =>
                if x.ID = id then x.markCompleted r.EarnedCoins else x),
              users := w.db.users.map (fun x =>
                if x.ID = r.UserID then
                  x.addStats r.EarnedCoins (if r.IsGreen then 5 / 2 else 1 / 2) 100
                else x) },
           ⟨id, r.UserID, r.EarnedCoins, if r.IsGreen then 5 / 2 else 1 / 2, 100⟩
             :: w.ledger⟩ := by
  unfold Op.step
  simp only []
  cases hC : Complete tl f w.db id with
  | mk res db1 =>
    cases res with
    | error e =>
      left
      have := Complete_error_keeps_db tl f w.db id e db1 hC
      simp only [this]
    | ok resp =>
      right
      obtain ⟨r, u, hread, hst, hu, hb, hc, hs, hcm⟩ := Complete_ok_steps tl f w.db id resp db1 hC
      obtain ⟨_, hfind, hid⟩ := GetReservationByID_some hread
      have huid : u.ID = r.UserID := by
        have := List.find?_some hu
        simpa using this
      have heq := Complete_eq_of_steps tl f w.db id r u hread hst hu hb hc hs hcm
      rw [hC] at heq
      obtain ⟨h1, h2⟩ := Prod.mk.inj heq
      have h1 := Except.ok.inj h1
      refine ⟨r, u, hfind, hid, hst, hu, huid, ?_⟩
      simp only [h2]
      congr 1
      simp only [creditOf, h1, reservationToResponse, Reservation.markCompleted, huid, hu]
      simp [hid]

theorem SettledOnce_init (db0 : DB) : SettledOnce db0 ⟨db0, []⟩ := by
  unfold SettledOnce
  refine ⟨List.nodup_nil, fun c hc => absurd hc (List.not_mem_nil c), ?_⟩
  simp only [creditsOf, List.filter_nil, List.map_nil, List.sum_nil, add_zero]
  exact List.forall₂_same.mpr (fun u _ => ⟨rfl, rfl, rfl, rfl⟩)

theorem SettledOnce_step (db0 : DB) (op : Op) (w : World) (h : SettledOnce db0 w) :
    SettledOnce db0 (op.step w) := by
  obtain ⟨hnd, hled, husers⟩ := h
  cases op with
  | create tl f now userID req =>
    rcases Create_db tl f now w.db userID req with hdb | ⟨row, hdb⟩
    · simp only [Op.step, hdb]; exact ⟨hnd, hled, husers⟩
    · simp only [Op.step, hdb]
      refine ⟨hnd, fun c hc => ?_, husers⟩
      obtain ⟨x, hx, hrest⟩ := hled c hc
      exact ⟨x, by rw [List.find?_append, hx]; rfl, hrest⟩
  | updateStatus f id req =>
    rcases UpdateStatus_db f w.db id req with hdb | ⟨r, hr, hst, hdb⟩
    · simp only [Op.step, hdb]; exact ⟨hnd, hled, husers⟩
    · simp only [Op.step, hdb]
      refine ⟨hnd, fun c hc => ?_, husers⟩
      obtain ⟨x, hx, hxst, hrest⟩ := hled c hc
      have hxid : x.ID = c.reservationID := by simpa using List.find?_some hx
      have hne : x.ID ≠ id := by
        intro hEq
        rw [← hxid, hEq, hr] at hx
        rw [Option.some.inj hx] at hst
        exact hst hxst
      refine ⟨x, ?_, hxst, hrest⟩
      rw [find?_map_keepID _ (fun y => by by_cases hy : y.ID = id <;> simp [hy]), hx]
      simp [hne]
  | complete tl f id =>
    rcases step_complete tl f id w with hw | ⟨r, u, hr, hrid, hst, hu, huid, hw⟩
    · rw [hw]; exact ⟨hnd, hled, husers⟩
    · rw [hw]
      have hfresh : ∀ c ∈ w.ledger, c.reservationID ≠ id := by
        intro c hc hEq
        obtain ⟨x, hx, hxst, _⟩ := hled c hc
        rw [hEq, hr] at hx
        rw [Option.some.inj hx] at hst
        exact hst hxst
      have hkeep : ∀ y : Reservation,
          (if y.ID = id then y.markCompleted r.EarnedCoins else y).ID = y.ID := by
        intro y; by_cases hy : y.ID = id <;> simp [hy, Reservation.markCompleted]
      refine ⟨?_, ?_, ?_⟩
      · simp only [List.map_cons, List.nodup_cons]
        refine ⟨?_, hnd⟩
        intro hmem
        obtain ⟨c, hc, hcid⟩ := List.mem_map.mp hmem
        exact hfresh c hc hcid
      · intro c hc
        rcases List.mem_cons.mp hc with hEq | hc
        · subst hEq
          refine ⟨r.markCompleted r.EarnedCoins, ?_, rfl, rfl, rfl, rfl, rfl⟩
          simp only []
          rw [find?_map_keepID _ hkeep, hr]
          simp [hrid]
        · obtain ⟨x, hx, hrest⟩ := hled c hc
          have hxid : x.ID = c.reservationID := by simpa using List.find?_some hx
          have hne : x.ID ≠ id := by rw [hxid]; exact hfresh c hc
          refine ⟨x, ?_, hrest⟩
          simp only []
          rw [find?_map_keepID _ hkeep, hx]
          simp [hne]
      · simp only []
        rw [List.forall₂_map_right_iff]
        refine husers.imp ?_
        intro u0 v ⟨hid, hcoins, hco2, hxp⟩
        by_cases hv : v.ID = r.UserID
        · have h0 : r.UserID = u0.ID := by rw [← hv, hid]
          simp only [hv, if_true, User.addStats, creditsOf, List.filter_cons, h0,
            decide_True, List.map_cons, List.sum_cons]
          simp only [creditsOf] at hcoins hco2 hxp
          refine ⟨trivial, ?_, ?_, ?_⟩
          · rw [hcoins]; ring
          · rw [hco2]; ring
          · rw [hxp]; ring
        · have h0 : ¬ r.UserID = u0.ID := by
            intro hEq; exact hv (by rw [hid, hEq])
          simp only [hv, if_false, creditsOf, List.filter_cons, h0, decide_False]
          exact ⟨hid, hcoins, hco2, hxp⟩
  | setCampaigns cs =>
    exact ⟨hnd, hled, husers⟩

theorem SettledOnce_run (db0 : DB) (ops : List Op) (w : World) (h : SettledOnce db0 w) :
    SettledOnce db0 (run ops w) := by
  induction ops generalizing w with
  | nil => exact h
  | cons op ops ih => exact ih (op.step w) (SettledOnce_step db0 op w h)

/-- The stored coins, user and green flag of a reservation survive every step. -/
theorem lookup_step (op : Op) (w : World) (i : Int) (x : Reservation)
    (hx : w.db.reservations.find? (fun y => decide (y.ID = i)) = some x) :
    ∃ x1, (op.step w).db.reservations.find? (fun y => decide (y.ID = i)) = some x1 ∧
      x1.EarnedCoins = x.EarnedCoins ∧ x1.UserID = x.UserID ∧ x1.IsGreen = x.IsGreen := by
  have hxid : x.ID = i := by simpa using List.find?_some hx
  cases op with
  | create tl f now userID req =>
    rcases Create_db tl f now w.db userID req with hdb | ⟨row, hdb⟩
    · simp only [Op.step, hdb]; exact ⟨x, hx, rfl, rfl, rfl⟩
    · simp only [Op.step, hdb]
      exact ⟨x, by rw [List.find?_append, hx]; rfl, rfl, rfl, rfl⟩
  | updateStatus f id req =>
    rcases UpdateStatus_db f w.db id req with hdb | ⟨r, _, _, hdb⟩
    · simp only [Op.step, hdb]; exact ⟨x, hx, rfl, rfl, rfl⟩
    · simp only [Op.step, hdb]
      rw [find?_map_keepID _ (fun y => by by_cases hy : y.ID = id <;> simp [hy]), hx]
      by_cases hy : x.ID = id
      · exact ⟨{ x with Status := req.Status },
          by simp only [Option.map_some', hy, if_true], rfl, rfl, rfl⟩
      · exact ⟨x, by simp only [Option.map_some', hy, if_false], rfl, rfl, rfl⟩
  | complete tl f id =>
    rcases step_complete tl f id w with hw | ⟨r, u, hr, _, _, _, _, hw⟩
    · rw [hw]; exact ⟨x, hx, rfl, rfl, rfl⟩
    · rw [hw]
      simp only []
      rw [find?_map_keepID _ (fun y => by
        by_cases hy : y.ID = id <;> simp [hy, Reservation.markCompleted]), hx]
      by_cases hy : x.ID = id
      · have hrx : r = x := by
          rw [← hxid, hy, hr] at hx
          exact Option.some.inj hx
        subst hrx
        exact ⟨r.markCompleted r.EarnedCoins,
          by simp only [Option.map_some', hy, if_true], rfl, rfl, rfl⟩
      · exact ⟨x, by simp only [Option.map_some', hy, if_false], rfl, rfl, rfl⟩
  | setCampaigns cs => exact ⟨x, hx, rfl, rfl, rfl⟩

/-- The stored coins, user and green flag of a reservation survive every run. -/
theorem lookup_run (ops : List Op) (w : World) (i : Int) (x : Reservation)
    (hx : w.db.reservations.find? (fun y => decide (y.ID = i)) = some x) :
    ∃ x1, (run ops w).db.reservations.find? (fun y => decide (y.ID = i)) = some x1 ∧
      x1.EarnedCoins = x.EarnedCoins ∧ x1.UserID = x.UserID ∧ x1.IsGreen = x.IsGreen := by
  induction ops generalizing w x with
  | nil => exact ⟨x, hx, rfl, rfl, rfl⟩
  | cons op ops ih =>
    obtain ⟨x1, h1, he, hu, hg⟩ := lookup_step op w i x hx
    obtain ⟨x2, h2, he2, hu2, hg2⟩ := ih (op.step w) x1 h1
    exact ⟨x2, h2, he2.trans he, hu2.trans hu, hg2.trans hg⟩

/-- The result of a `Create` whose date parses and whose insert goes through. -/
theorem Create_eq (tl : TimeLib) (f : Faults) (now : Int) (db : DB) (userID : Int)
    (req : CreateReservationRequest) (t : Int)
    (hdate : parseDate tl req.Date = some t) (hins : f.createReservation = false) :
    Create tl f now db userID req =
      (.ok (reservationToResponse tl
          ⟨db.nextReservationID, userID, req.StationID, some t, req.Hour, req.IsGreen,
           wrap32 ((if req.IsGreen then 50 else 10) +
             bonusOf (GetActiveCampaignsForStation f now db (some req.StationID))),
           0, reservationStatusDefault⟩),
       { db with
           reservations := db.reservations ++
             [⟨db.nextReservationID, userID, req.StationID, some t, req.Hour, req.IsGreen,
               wrap32 ((if req.IsGreen then 50 else 10) +
                 bonusOf (GetActiveCampaignsForStation f now db (some req.StationID))),
               0, reservationStatusDefault⟩],
           nextReservationID := db.nextReservationID + 1 }) := by
  have hE : earnedCoinsFor req.IsGreen
      (match GetActiveCampaignsForStation f now db (some req.StationID) with
        | some cs => cs
        | none => []) =
      wrap32 ((if req.IsGreen then 50 else 10) +
        bonusOf (GetActiveCampaignsForStation f now db (some req.StationID))) := by
    have hbase : ∀ b : Bool, wrap32 ((if b then 50 else 10) + 0) = (if b then 50 else 10) := by
      intro b; cases b <;> decide
    cases GetActiveCampaignsForStation f now db (some req.StationID) with
    | none => simp only [earnedCoinsFor, bonusOf, hbase]
    | some cs =>
      cases cs with
      | nil => simp only [earnedCoinsFor, bonusOf, hbase]
      | cons c cs =>
        by_cases hc : 0 < c.CoinReward
        · simp only [earnedCoinsFor, bonusOf, gt_iff_lt, hc, if_true]
        · simp only [earnedCoinsFor, bonusOf, gt_iff_lt, hc, if_false, hbase]
  unfold Create
  simp only [hdate, CreateReservation, hins, Bool.false_eq_true, if_false, hE]

/-- Without overflow the 32-bit sum is the sum. -/
theorem wrap32_of_isInt32 (x : Int) (h : isInt32 x) : wrap32 x = x := by
  unfold isInt32 at h
  unfold wrap32
  omega

/-- The write of `UpdateStatus` on a reservation that is not COMPLETED. -/
theorem UpdateStatus_writes (f : Faults) (db : DB) (id : Int) (r : Reservation)
    (req : UpdateStatusRequest) (hread : GetReservationByID f db id = some r)
    (hst : r.Status ≠ "COMPLETED") (hw : f.updateReservationStatus = false) :
    UpdateStatus f db id req =
      (none, { db with reservations := db.reservations.map (fun x =>
          if x.ID = id then { x with Status := req.Status } else x) }) := by
  obtain ⟨_, hfind, _⟩ := GetReservationByID_some hread
  unfold UpdateStatus
  simp only [hread, hst, if_false]
  rw [UpdateReservationStatus_eq req.Status hw hfind]

/-- A reservation that is COMPLETED is left as it is by every step, and no step enters an
award for it in the ledger. -/
theorem completed_stays_step (op : Op) (w : World) (i : Int) (x : Reservation)
    (hx : w.db.reservations.find? (fun y => decide (y.ID = i)) = some x)
    (hst : x.Status = "COMPLETED") :
    (op.step w).db.reservations.find? (fun y => decide (y.ID = i)) = some x ∧
      ∀ c ∈ (op.step w).ledger, c.reservationID = i → c ∈ w.ledger := by
  have hxid : x.ID = i := by simpa using List.find?_some hx
  cases op with
  | create tl f now userID req =>
    rcases Create_db tl f now w.db userID req with hdb | ⟨row, hdb⟩
    · simp only [Op.step, hdb]; exact ⟨hx, fun c hc _ => hc⟩
    · simp only [Op.step, hdb]
      exact ⟨by rw [List.find?_append, hx]; rfl, fun c hc _ => hc⟩
  | updateStatus f id req =>
    rcases UpdateStatus_db f w.db id req with hdb | ⟨r, hr, hrst, hdb⟩
    · simp only [Op.step, hdb]; exact ⟨hx, fun c hc _ => hc⟩
    · simp only [Op.step, hdb]
      have hne : x.ID ≠ id := by
        intro hEq
        rw [← hxid, hEq, hr] at hx
        rw [Option.some.inj hx] at hrst
        exact hrst hst
      refine ⟨?_, fun c hc _ => hc⟩
      rw [find?_map_keepID _ (fun y => by by_cases hy : y.ID = id <;> simp [hy]), hx]
      simp [hne]
  | complete tl f id =>
    rcases step_complete tl f id w with hw | ⟨r, u, hr, _, hrst, _, _, hw⟩
    · rw [hw]; exact ⟨hx, fun c hc _ => hc⟩
    · rw [hw]
      have hne : x.ID ≠ id := by
        intro hEq
        rw [← hxid, hEq, hr] at hx
        rw [Option.some.inj hx] at hrst
        exact hrst hst
      refine ⟨?_, ?_⟩
      · simp only []
        rw [find?_map_keepID _ (fun y => by
          by_cases hy : y.ID = id <;> simp [hy, Reservation.markCompleted]), hx]
        simp [hne]
      · intro c hc hcid
        rcases List.mem_cons.mp hc with hEq | hc
        · exfalso
          rw [hEq] at hcid
          exact hne (hxid.trans hcid.symm)
        · exact hc
  | setCampaigns cs => exact ⟨hx, fun c hc _ => hc⟩

/-- A reservation that is COMPLETED is left as it is by every run, and no run enters an
award for it in the ledger. -/
theorem completed_stays_run (ops : List Op) (w : World) (i : Int) (x : Reservation)
    (hx : w.db.reservations.find? (fun y => decide (y.ID = i)) = some x)
    (hst : x.Status = "COMPLETED") :
    (run ops w).db.reservations.find? (fun y => decide (y.ID = i)) = some x ∧
      ∀ c ∈ (run ops w).ledger, c.reservationID = i → c ∈ w.ledger := by
  induction ops generalizing w with
  | nil => exact ⟨hx, fun c hc _ => hc⟩
  | cons op ops ih =>
    obtain ⟨h1, h2⟩ := completed_stays_step op w i x hx hst
    obtain ⟨h3, h4⟩ := ih (op.step w) h1
    exact ⟨h3, fun c hc hci => h2 c (h4 c hc hci) hci⟩

/-! ## Settlement: claims on runs of the state machine -/

/-- C3: a reservation created by `Create` with earned coins `e` (on a state whose serial is
fresh) is credited exactly `e` coins, to the user who booked, by a later successful
`Complete`, whatever requests and campaign rewrites `ops` happen in between; and the same
`Complete` on a state that differs only in the campaign table gives the same result. -/
theorem Complete_credits_coins_fixed_at_creation (tl tl2 : TimeLib) (f f2 : Faults)
    (now : Int) (db0 db1 db3 : DB) (userID : Int) (req : CreateReservationRequest)
    (resp : ReservationResponse) (ops : List Op) (cr : CompleteResponse)
    (hfresh : ∀ x ∈ db0.reservations, x.ID ≠ db0.nextReservationID)
    (hcreate : Create tl f now db0 userID req = (.ok resp, db1))
    (hcomplete : Complete tl2 f2 (run ops ⟨db1, []⟩).db resp.ID = (.ok cr, db3)) :
    db3.users = (run ops ⟨db1, []⟩).db.users.map (fun x =>
        if x.ID = userID then
          { x with Coins := x.Coins + resp.EarnedCoins,
                   Co2Saved := x.Co2Saved + (if req.IsGreen then 5 / 2 else 1 / 2),
                   Xp := x.Xp + 100 }
        else x) ∧
      ∀ cs : List Campaign,
        Complete tl2 f2 { (run ops ⟨db1, []⟩).db with campaigns := cs } resp.ID =
          (.ok cr, { db3 with campaigns := cs }) := by
  cases hd : parseDate tl req.Date with
  | none => simp [Create, hd] at hcreate
  | some t =>
    cases hi : f.createReservation with
    | true => simp [Create, hd, CreateReservation, hi] at hcreate
    | false =>
      have h := Create_eq tl f now db0 userID req t hd hi
      rw [hcreate] at h
      obtain ⟨h1, h2⟩ := Prod.mk.inj h
      have h1 := Except.ok.inj h1
      have hnone : db0.reservations.find?
          (fun y => decide (y.ID = db0.nextReservationID)) = none := by
        rw [List.find?_eq_none]
        intro x hx
        simpa using hfresh x hx
      have hid : resp.ID = db0.nextReservationID := by rw [h1]; rfl
      have hfind : (World.mk db1 []).db.reservations.find?
          (fun y => decide (y.ID = resp.ID)) = some
            ⟨db0.nextReservationID, userID, req.StationID, some t, req.Hour, req.IsGreen,
             wrap32 ((if req.IsGreen then 50 else 10) +
               bonusOf (GetActiveCampaignsForStation f now db0 (some req.StationID))),
             0, reservationStatusDefault⟩ := by
        rw [h2, hid]
        simp only [List.find?_append, hnone]
        simp [List.find?]
      obtain ⟨x1, hx1, he, hu, hg⟩ := lookup_run ops ⟨db1, []⟩ resp.ID _ hfind
      obtain ⟨r, u, hread, hst, huser, hb, hc, hs, hcm⟩ :=
        Complete_ok_steps tl2 f2 _ resp.ID cr db3 hcomplete
      obtain ⟨hrf, hrfind, _⟩ := GetReservationByID_some hread
      have hrx : r = x1 := by rw [hx1] at hrfind; exact (Option.some.inj hrfind).symm
      subst hrx
      have hE : r.EarnedCoins = resp.EarnedCoins := by rw [he, h1]; rfl
      simp only [] at hu hg
      have heq := Complete_eq_of_steps tl2 f2 _ resp.ID r u hread hst huser hb hc hs hcm
      rw [hcomplete] at heq
      obtain ⟨hcr, hdb3⟩ := Prod.mk.inj heq
      constructor
      · rw [hdb3]
        simp only [hu, hE, hg, User.addStats]
      · intro cs
        have hread2 : GetReservationByID f2
            { (run ops ⟨db1, []⟩).db with campaigns := cs } resp.ID = some r := hread
        have heq2 := Complete_eq_of_steps tl2 f2
          { (run ops ⟨db1, []⟩).db with campaigns := cs } resp.ID r u hread2 hst huser
          hb hc hs hcm
        rw [heq2, hcr, hdb3]

/-- C3 at the booking of `dbSpring` (bonus 25, so 75 coins), settled after the campaign
table was emptied. -/
theorem Complete_credits_coins_fixed_at_creation_witness :
    (Complete tlUnix Faults.none
        (run [Op.setCampaigns []] ⟨dbSpringBooked, []⟩).db
        (reservationToResponse tlUnix resSpring).ID).2.users =
      (run [Op.setCampaigns []] ⟨dbSpringBooked, []⟩).db.users.map (fun x =>
        if x.ID = 7 then
          { x with Coins := x.Coins + (reservationToResponse tlUnix resSpring).EarnedCoins,
                   Co2Saved := x.Co2Saved + (if reqGreen.IsGreen then 5 / 2 else 1 / 2),
                   Xp := x.Xp + 100 }
        else x) ∧
      ∀ cs : List Campaign,
        Complete tlUnix Faults.none
            { (run [Op.setCampaigns []] ⟨dbSpringBooked, []⟩).db with campaigns := cs }
            (reservationToResponse tlUnix resSpring).ID =
          (.ok (match (Complete tlUnix Faults.none
                  (run [Op.setCampaigns []] ⟨dbSpringBooked, []⟩).db
                  (reservationToResponse tlUnix resSpring).ID).1 with
                | .ok c => c
                | .error _ => ⟨reservationToResponse tlUnix resSpring, ⟨0, 0, 0, 0⟩⟩),
           { (Complete tlUnix Faults.none
                (run [Op.setCampaigns []] ⟨dbSpringBooked, []⟩).db
                (reservationToResponse tlUnix resSpring).ID).2 with campaigns := cs }) :=
  Complete_credits_coins_fixed_at_creation tlUnix tlUnix Faults.none Faults.none 0
    dbSpring dbSpringBooked _ 7 reqGreen (reservationToResponse tlUnix resSpring)
    [Op.setCampaigns []] _ (by decide) (by rfl) (by rfl)

/-- C5, as stated, fails: `UpdateStatus` with the requested status COMPLETED puts the
pending reservation of `dbPending` into COMPLETED with no award in the ledger and no coin
credited, and `Complete` then refuses it, so it is never credited. -/
theorem UpdateStatus_completes_without_credit :
    (run [Op.updateStatus Faults.none 1 ⟨"COMPLETED"⟩] ⟨dbPending, []⟩).db.reservations.map
        Reservation.Status = ["COMPLETED"] ∧
      (run [Op.updateStatus Faults.none 1 ⟨"COMPLETED"⟩] ⟨dbPending, []⟩).ledger.length = 0 ∧
      (run [Op.updateStatus Faults.none 1 ⟨"COMPLETED"⟩] ⟨dbPending, []⟩).db.users.map
        User.Coins = [0] ∧
      (run [Op.updateStatus Faults.none 1 ⟨"COMPLETED"⟩, Op.complete tlUnix Faults.none 1]
        ⟨dbPending, []⟩).ledger.length = 0 ∧
      (run [Op.updateStatus Faults.none 1 ⟨"COMPLETED"⟩, Op.complete tlUnix Faults.none 1]
        ⟨dbPending, []⟩).db.users.map User.Coins = [0] := by
  decide

/-- C5 (amended): in every state reached from `db0` by handling `Create`, `UpdateStatus`
and `Complete` requests (and campaign rewrites) one after another, no reservation has been
awarded twice; every award made by `Complete` belongs to a reservation that is COMPLETED,
for exactly its stored `EarnedCoins`, to its user, with its co2 delta and 100 xp; and the
counters of every user are the initial ones plus exactly the awards made to this user.
`Complete` is not the only way into COMPLETED: in every such state `UpdateStatus` with the
requested status COMPLETED, on a reservation that is not COMPLETED (read and write
succeeding), leaves the counters of the users and the ledger as they are, and after it and
any further requests the reservation is COMPLETED and has no award. -/
theorem reachable_settled_once (db0 : DB) (ops : List Op) :
    ((run ops ⟨db0, []⟩).ledger.map Credit.reservationID).Nodup ∧
    (∀ c ∈ (run ops ⟨db0, []⟩).ledger, ∃ x,
        (run ops ⟨db0, []⟩).db.reservations.find?
          (fun x => decide (x.ID = c.reservationID)) = some x ∧
        x.Status = "COMPLETED" ∧ x.EarnedCoins = c.coins ∧ x.UserID = c.userID ∧
        c.co2 = (if x.IsGreen then 5 / 2 else 1 / 2) ∧ c.xp = 100) ∧
    List.Forall₂ (fun u0 u => u.ID = u0.ID ∧
        u.Coins = u0.Coins +
          ((creditsOf (run ops ⟨db0, []⟩).ledger u0.ID).map Credit.coins).sum ∧
        u.Co2Saved = u0.Co2Saved +
          ((creditsOf (run ops ⟨db0, []⟩).ledger u0.ID).map Credit.co2).sum ∧
        u.Xp = u0.Xp +
          ((creditsOf (run ops ⟨db0, []⟩).ledger u0.ID).map Credit.xp).sum)
      db0.users (run ops ⟨db0, []⟩).db.users ∧
    ∀ (f : Faults) (id : Int) (req : UpdateStatusRequest) (x : Reservation),
      GetReservationByID f (run ops ⟨db0, []⟩).db id = some x → x.Status ≠ "COMPLETED" →
      f.updateReservationStatus = false → req.Status = "COMPLETED" →
      ((Op.updateStatus f id req).step (run ops ⟨db0, []⟩)).db.users
          = (run ops ⟨db0, []⟩).db.users ∧
        ((Op.updateStatus f id req).step (run ops ⟨db0, []⟩)).ledger
          = (run ops ⟨db0, []⟩).ledger ∧
        ∀ ops2 : List Op,
          (run (Op.updateStatus f id req :: ops2) (run ops ⟨db0, []⟩)).db.reservations.find?
              (fun y => decide (y.ID = id)) = some { x with Status := "COMPLETED" } ∧
            ∀ c ∈ (run (Op.updateStatus f id req :: ops2) (run ops ⟨db0, []⟩)).ledger,
              c.reservationID ≠ id := by
  obtain ⟨hnd, hled, husers⟩ := SettledOnce_run db0 ops ⟨db0, []⟩ (SettledOnce_init db0)
  refine ⟨hnd, hled, husers, ?_⟩
  intro f id req x hread hst hw hreq
  obtain ⟨_, hfind, hid⟩ := GetReservationByID_some hread
  have hstep : (Op.updateStatus f id req).step (run ops ⟨db0, []⟩) =
      ⟨{ (run ops ⟨db0, []⟩).db with
          reservations := (run ops ⟨db0, []⟩).db.reservations.map (fun y =>
            if y.ID = id then { y with Status := req.Status } else y) },
        (run ops ⟨db0, []⟩).ledger⟩ := by
    simp only [Op.step, UpdateStatus_writes f _ id x req hread hst hw]
  refine ⟨by rw [hstep], by rw [hstep], ?_⟩
  intro ops2
  have hrun : run (Op.updateStatus f id req :: ops2) (run ops ⟨db0, []⟩)
      = run ops2 ((Op.updateStatus f id req).step (run ops ⟨db0, []⟩)) := rfl
  have hx1 : ((Op.updateStatus f id req).step (run ops ⟨db0, []⟩)).db.reservations.find?
      (fun y => decide (y.ID = id)) = some { x with Status := "COMPLETED" } := by
    rw [hstep]
    simp only []
    rw [find?_map_keepID _ (fun y => by by_cases hy : y.ID = id <;> simp [hy]), hfind]
    simp [hid, hreq]
  obtain ⟨h1, h2⟩ := completed_stays_run ops2 _ id _ hx1 rfl
  rw [hrun]
  refine ⟨h1, ?_⟩
  intro c hc hcid
  have hc0 : c ∈ (run ops ⟨db0, []⟩).ledger := by
    have := h2 c hc hcid
    rw [hstep] at this
    exact this
  obtain ⟨x', hx', hxst, _⟩ := hled c hc0
  rw [hcid, hfind] at hx'
  rw [Option.some.inj hx'] at hst
  exact hst hxst

/-- C5 (amended) at `dbPending`: the pending reservation 1, put into COMPLETED by
`UpdateStatus` and then sent to `Complete`, has no award. -/
theorem reachable_settled_once_witness :
    (run [Op.updateStatus Faults.none 1 ⟨"COMPLETED"⟩, Op.complete tlUnix Faults.none 1]
        (run [] ⟨dbPending, []⟩)).db.reservations.find? (fun y => decide (y.ID = 1))
        = some { resPending with Status := "COMPLETED" } ∧
      ∀ c ∈ (run [Op.updateStatus Faults.none 1 ⟨"COMPLETED"⟩,
          Op.complete tlUnix Faults.none 1] (run [] ⟨dbPending, []⟩)).ledger,
        c.reservationID ≠ 1 :=
  ((reachable_settled_once dbPending []).2.2.2 Faults.none 1 ⟨"COMPLETED"⟩ resPending
    (by decide) (by decide) rfl rfl).2.2 [Op.complete tlUnix Faults.none 1]

/-! ## Booking: `Create` -/

/-- C8, as stated, fails: with the active campaign `campaignJackpot` (coin reward
2147483647) a green booking is stored with -2147483599 earned coins, the `int32` sum
having wrapped, not with 50 + 2147483647. -/
theorem Create_bonus_overflows :
    (GetActiveCampaignsForStation Faults.none 0 dbJackpot (some reqGreen.StationID)).map
        (List.map Campaign.CoinReward) = some [2147483647] ∧
      (Create tlUnix Faults.none 0 dbJackpot 7 reqGreen).2.reservations.map
        Reservation.EarnedCoins = [-2147483599] ∧
      (-2147483599 : Int) ≠ 50 + 2147483647 := by
  decide

/-- C8 (amended): for every valid `Create` request whose insert goes through, the persisted
`EarnedCoins` is (50 if green else 10) plus the bonus in 32-bit signed arithmetic, where the
bonus is the coin reward of the first active campaign returned for the station when the
list is non-empty and the reward is positive and 0 otherwise (no campaign, failed lookup,
reward ≤ 0); the sum is exact when the bonus is at most 2147483597; with a green request and
no active campaign it is 50. -/
theorem Create_persists_earned_coins (tl : TimeLib) (f : Faults) (now : Int) (db : DB)
    (userID : Int) (req : CreateReservationRequest) (t : Int)
    (hdate : parseDate tl req.Date = some t) (hins : f.createReservation = false) :
    ∃ row : Reservation,
      Create tl f now db userID req =
        (.ok (reservationToResponse tl row),
         { db with reservations := db.reservations ++ [row],
                   nextReservationID := db.nextReservationID + 1 }) ∧
      row.EarnedCoins = wrap32 ((if req.IsGreen then 50 else 10) +
        bonusOf (GetActiveCampaignsForStation f now db (some req.StationID))) ∧
      (bonusOf (GetActiveCampaignsForStation f now db (some req.StationID)) ≤ 2147483597 →
        row.EarnedCoins = (if req.IsGreen then 50 else 10) +
          bonusOf (GetActiveCampaignsForStation f now db (some req.StationID))) ∧
      (req.IsGreen = true →
        GetActiveCampaignsForStation f now db (some req.StationID) = some [] →
        row.EarnedCoins = 50) := by
  have hnonneg : ∀ l, 0 ≤ bonusOf l := by
    intro l
    unfold bonusOf
    split
    · split <;> omega
    · exact le_refl 0
  refine ⟨_, Create_eq tl f now db userID req t hdate hins, rfl, ?_, ?_⟩
  · intro hb
    apply wrap32_of_isInt32
    have h0 := hnonneg (GetActiveCampaignsForStation f now db (some req.StationID))
    unfold isInt32
    cases req.IsGreen <;> simp <;> omega
  · intro hg hnone
    simp only [hg, hnone, bonusOf]
    decide

/-- C8 (amended) at the green booking of `dbSpring`: 50 + 25 coins. -/
theorem Create_persists_earned_coins_witness :
    ∃ row : Reservation,
      Create tlUnix Faults.none 0 dbSpring 7 reqGreen =
        (.ok (reservationToResponse tlUnix row),
         { dbSpring with reservations := dbSpring.reservations ++ [row],
                         nextReservationID := dbSpring.nextReservationID + 1 }) ∧
      row.EarnedCoins = wrap32 ((if reqGreen.IsGreen then 50 else 10) +
        bonusOf (GetActiveCampaignsForStation Faults.none 0 dbSpring
          (some reqGreen.StationID))) ∧
      (bonusOf (GetActiveCampaignsForStation Faults.none 0 dbSpring
          (some reqGreen.StationID)) ≤ 2147483597 →
        row.EarnedCoins = (if reqGreen.IsGreen then 50 else 10) +
          bonusOf (GetActiveCampaignsForStation Faults.none 0 dbSpring
            (some reqGreen.StationID))) ∧
      (reqGreen.IsGreen = true →
        GetActiveCampaignsForStation Faults.none 0 dbSpring (some reqGreen.StationID)
          = some [] →
        row.EarnedCoins = 50) :=
  Create_persists_earned_coins tlUnix Faults.none 0 dbSpring 7 reqGreen 0 rfl rfl

/-! ## Concurrent settlement -/

/-- C9: two `Complete` calls on the pending reservation of `dbPending`, both reading the
reservation before either transaction runs, both succeed, and the user is credited twice
(100 coins, 200 xp for a reservation worth 50 coins): the completed-check is a separate read
outside the transaction. -/
theorem Complete_race_credits_twice :
    (CompleteInterleaved tlUnix Faults.none Faults.none dbPending 1).1.1.isOk = true ∧
      (CompleteInterleaved tlUnix Faults.none Faults.none dbPending 1).1.2.isOk = true ∧
      (CompleteInterleaved tlUnix Faults.none Faults.none dbPending 1).2.users.map
        User.Coins = [100] ∧
      (CompleteInterleaved tlUnix Faults.none Faults.none dbPending 1).2.users.map
        User.Xp = [200] ∧
      dbPending.reservations.map Reservation.EarnedCoins = [50] := by
  decide

/-! ## Binary64 arithmetic -/

namespace float64

/-- Rounding to the nearest integer leaves an integer as it is. -/
theorem roundEven_intCast (z : Int) : roundEven (z : ℚ) = z := by
  unfold roundEven
  simp

/-- A value at distance less than one half from an integer rounds to it. -/
theorem roundEven_of_abs_lt (x : ℚ) (n : Int) (h : |x - (n : ℚ)| < 1 / 2) :
    roundEven x = n := by
  obtain ⟨h1, h2⟩ := abs_lt.mp h
  unfold roundEven
  by_cases hn : (n : ℚ) ≤ x
  · have hf : ⌊x⌋ = n := by
      rw [Int.floor_eq_iff]
      constructor <;> linarith
    rw [hf]
    have : x - (n : ℚ) < 1 / 2 := h2
    simp only [this, if_true]
  · have hf : ⌊x⌋ = n - 1 := by
      rw [Int.floor_eq_iff]
      push_cast
      constructor <;> linarith
    rw [hf]
    have h3 : ¬ (x - ((n - 1 : Int) : ℚ) < 1 / 2) := by
      push_cast
      linarith
    have h4 : 1 / 2 < x - ((n - 1 : Int) : ℚ) := by
      push_cast
      linarith
    simp only [h3, h4, if_true, if_false]
    omega

/-- A half-way value rounds to its even neighbour. -/
theorem roundEven_half (n : Int) :
    roundEven ((n : ℚ) + 1 / 2) = if n % 2 = 0 then n else n + 1 := by
  have hf : ⌊(n : ℚ) + 1 / 2⌋ = n := by
    rw [Int.floor_eq_iff]
    constructor <;> linarith
  unfold roundEven
  rw [hf]
  have h3 : ¬ ((n : ℚ) + 1 / 2 - (n : ℚ) < 1 / 2) := by
    have : (n : ℚ) + 1 / 2 - (n : ℚ) = 1 / 2 := by ring
    rw [this]
    exact lt_irrefl _
  have h4 : ¬ (1 / 2 < (n : ℚ) + 1 / 2 - (n : ℚ)) := by
    have : (n : ℚ) + 1 / 2 - (n : ℚ) = 1 / 2 := by ring
    rw [this]
    exact lt_irrefl _
  simp only [h3, h4, if_false]

/-- Rounding to the nearest integer does not cross an integer from below. -/
theorem roundEven_le_of_le (x : ℚ) (k : Int) (h : x ≤ (k : ℚ)) : roundEven x ≤ k := by
  have hfl : (⌊x⌋ : ℚ) ≤ x := Int.floor_le x
  have hfk : ⌊x⌋ ≤ k := by
    have : ((⌊x⌋ : Int) : ℚ) ≤ (k : ℚ) := le_trans hfl h
    exact_mod_cast this
  unfold roundEven
  split
  · exact hfk
  · rename_i h1
    have hlt : ⌊x⌋ < k := by
      have : ((⌊x⌋ : Int) : ℚ) < (k : ℚ) := by
        have : (⌊x⌋ : ℚ) + 1 / 2 ≤ x := by linarith [not_lt.mp h1]
        linarith
      exact_mod_cast this
    split
    · omega
    · split <;> omega

/-- Rounding to the nearest integer does not cross an integer from above. -/
theorem le_roundEven_of_le (x : ℚ) (k : Int) (h : (k : ℚ) ≤ x) : k ≤ roundEven x := by
  have hfk : k ≤ ⌊x⌋ := Int.le_floor.mpr h
  unfold roundEven
  split
  · exact hfk
  · split
    · omega
    · split <;> omega

/-- The spacing in a binade of the normal range. -/
theorem ulp_of_binade (q : ℚ) (e : Int) (he : -1022 ≤ e) (h1 : (2 : ℚ) ^ e ≤ |q|)
    (h2 : |q| < (2 : ℚ) ^ (e + 1)) : ulp q = (2 : ℚ) ^ (e - 52) := by
  have hpos : 0 < |q| := lt_of_lt_of_le (by positivity) h1
  have hlog : Int.log 2 |q| = e := by
    have ha : e ≤ Int.log 2 |q| := by
      apply (Int.zpow_le_iff_le_log (by norm_num) hpos).mp
      simpa using h1
    have hb : Int.log 2 |q| < e + 1 := by
      apply (Int.lt_zpow_iff_log_lt (by norm_num) hpos).mp
      simpa using h2
    omega
  unfold ulp
  rw [hlog, max_eq_left he]

/-- The binary64 value of a rational, from its binade and its rounded significand. -/
theorem ofRat_eq (q : ℚ) (e n : Int) (he : -1022 ≤ e) (h1 : (2 : ℚ) ^ e ≤ |q|)
    (h2 : |q| < (2 : ℚ) ^ (e + 1)) (hn : roundEven (q / (2 : ℚ) ^ (e - 52)) = n)
    (hfin : |(n : ℚ) * (2 : ℚ) ^ (e - 52)| < (2 : ℚ) ^ (1024 : Nat)) :
    ofRat q = fin ((n : ℚ) * (2 : ℚ) ^ (e - 52)) := by
  unfold ofRat
  simp only [ulp_of_binade q e he h1 h2, hn, not_le.mpr hfin, if_false]


/-- The spacing is positive. -/
theorem ulp_pos (q : ℚ) : 0 < ulp q := by
  unfold ulp
  positivity

/-- The exponent of the spacing is at most that of the binade of any bound. -/
theorem log_lt_of_lt (q : ℚ) (e : Int) (h0 : 0 < e) (h : |q| < (2 : ℚ) ^ e) :
    Int.log 2 |q| < e := by
  rcases (abs_nonneg q).eq_or_lt with hz | hpos
  · rw [← hz, Int.log_zero_right]
    exact h0
  · apply (Int.lt_zpow_iff_log_lt (by norm_num) hpos).mp
    simpa using h

/-- A rational that is a whole number of spacings, below 2^1024, is a binary64 value. -/
theorem ofRat_exact (q : ℚ) (k : Int) (hk : q / ulp q = (k : ℚ))
    (hfin : |q| < (2 : ℚ) ^ (1024 : Nat)) : ofRat q = fin q := by
  have hu := ulp_pos q
  have hr : ((roundEven (q / ulp q) : Int) : ℚ) * ulp q = q := by
    rw [hk, roundEven_intCast, ← hk]
    field_simp
  unfold ofRat
  simp only [hr, not_le.mpr hfin, if_false]

/-- An integer below 2^53 in magnitude is a binary64 value. -/
theorem ofRat_intCast (z : Int) (hz : |z| < 9007199254740992) : ofRat (z : ℚ) = fin (z : ℚ) := by
  have hzq : |(z : ℚ)| < (2 : ℚ) ^ (53 : Int) := by
    have : ((|z| : Int) : ℚ) < ((9007199254740992 : Int) : ℚ) := by exact_mod_cast hz
    rw [Int.cast_abs] at this
    calc |(z : ℚ)| < ((9007199254740992 : Int) : ℚ) := this
      _ = (2 : ℚ) ^ (53 : Int) := by norm_num
  have hlog : Int.log 2 |(z : ℚ)| < 53 := log_lt_of_lt _ 53 (by norm_num) hzq
  have hle : max (Int.log 2 |(z : ℚ)|) (-1022) - 52 ≤ 0 := by
    have : max (Int.log 2 |(z : ℚ)|) (-1022) ≤ 52 := max_le (by omega) (by norm_num)
    omega
  obtain ⟨j, hj⟩ : ∃ j : Nat, max (Int.log 2 |(z : ℚ)|) (-1022) - 52 = -(j : Int) :=
    ⟨(-(max (Int.log 2 |(z : ℚ)|) (-1022) - 52)).toNat, by omega⟩
  apply ofRat_exact (z : ℚ) (z * 2 ^ j)
  · unfold ulp
    rw [hj, zpow_neg, zpow_natCast]
    push_cast
    field_simp
  · calc |(z : ℚ)| < (2 : ℚ) ^ (53 : Int) := hzq
      _ ≤ (2 : ℚ) ^ (1024 : Nat) := by norm_num

/-- Zero is a binary64 value. -/
theorem ofRat_zero : ofRat 0 = fin 0 := by
  have := ofRat_intCast 0 (by norm_num)
  simpa using this

/-- Rounding to binary64 keeps a sign that is not negative: the result is a finite value
that is not negative, or +Inf. -/
theorem ofRat_nonneg (q : ℚ) (h : 0 ≤ q) :
    (∃ r, ofRat q = fin r ∧ 0 ≤ r) ∨ ofRat q = inf false := by
  have hu := ulp_pos q
  have hk : (0 : Int) ≤ roundEven (q / ulp q) :=
    le_roundEven_of_le _ 0 (by push_cast; positivity)
  have hr : (0 : ℚ) ≤ ((roundEven (q / ulp q) : Int) : ℚ) * ulp q :=
    mul_nonneg (by exact_mod_cast hk) (le_of_lt hu)
  unfold ofRat
  simp only []
  split
  · right
    have : ¬ q < 0 := not_lt.mpr h
    simp [this]
  · left
    exact ⟨_, rfl, hr⟩

/-- Rounding to binary64 a rational whose magnitude is at most the largest binary64
value, 2^1024 - 2^971, gives a finite value, of the same magnitude bound and not negative
when the rational is not negative. -/
theorem ofRat_fin_of_le_max (q : ℚ)
    (h : |q| ≤ (2 : ℚ) ^ (1024 : Nat) - (2 : ℚ) ^ (971 : Nat)) :
    ∃ r, ofRat q = fin r ∧ |r| ≤ (2 : ℚ) ^ (1024 : Nat) - (2 : ℚ) ^ (971 : Nat) ∧
      (0 ≤ q → 0 ≤ r) := by
  have hu := ulp_pos q
  have hlt : |q| < (2 : ℚ) ^ (1024 : Int) := by
    calc |q| ≤ (2 : ℚ) ^ (1024 : Nat) - (2 : ℚ) ^ (971 : Nat) := h
      _ < (2 : ℚ) ^ (1024 : Int) := by norm_num
  have hlog : Int.log 2 |q| < 1024 := log_lt_of_lt _ 1024 (by norm_num) hlt
  obtain ⟨j, hj⟩ : ∃ j : Nat, max (Int.log 2 |q|) (-1022) - 52 = 971 - (j : Int) :=
    ⟨(971 - (max (Int.log 2 |q|) (-1022) - 52)).toNat, by
      have : max (Int.log 2 |q|) (-1022) ≤ 1023 := max_le (by omega) (by norm_num)
      omega⟩
  have hulp : ulp q = (2 : ℚ) ^ (971 : Nat) / (2 : ℚ) ^ j := by
    unfold ulp
    rw [hj, zpow_sub₀ (by norm_num), zpow_natCast]
    norm_num
  have hconst : (2 : ℚ) ^ (1024 : Nat) - (2 : ℚ) ^ (971 : Nat)
      = 9007199254740991 * (2 : ℚ) ^ (971 : Nat) := by
    have : (2 : ℚ) ^ (1024 : Nat) = 9007199254740992 * (2 : ℚ) ^ (971 : Nat) := by
      rw [show (1024 : Nat) = 53 + 971 from rfl, pow_add]
      norm_num
    rw [this]
    ring
  have hmax : (2 : ℚ) ^ (1024 : Nat) - (2 : ℚ) ^ (971 : Nat)
      = (((9007199254740991 * 2 ^ j : Int)) : ℚ) * ulp q := by
    rw [hulp, hconst]
    push_cast
    field_simp
    ring
  obtain ⟨hq1, hq2⟩ := abs_le.mp h
  have hup : roundEven (q / ulp q) ≤ 9007199254740991 * 2 ^ j := by
    apply roundEven_le_of_le
    rw [div_le_iff₀ hu, ← hmax]
    exact hq2
  have hdown : -(9007199254740991 * 2 ^ j) ≤ roundEven (q / ulp q) := by
    apply le_roundEven_of_le
    rw [le_div_iff₀ hu]
    push_cast
    have : -(9007199254740991 * 2 ^ j : ℚ) * ulp q
        = -((2 : ℚ) ^ (1024 : Nat) - (2 : ℚ) ^ (971 : Nat)) := by
      rw [hmax]; push_cast; ring
    rw [this]
    exact hq1
  have hr : |((roundEven (q / ulp q) : Int) : ℚ) * ulp q|
      ≤ (2 : ℚ) ^ (1024 : Nat) - (2 : ℚ) ^ (971 : Nat) := by
    rw [hmax, abs_mul, abs_of_pos hu]
    apply mul_le_mul_of_nonneg_right _ (le_of_lt hu)
    rw [abs_le]
    constructor
    · exact_mod_cast hdown
    · exact_mod_cast hup
  have hnot : ¬ ((2 : ℚ) ^ (1024 : Nat) ≤ |((roundEven (q / ulp q) : Int) : ℚ) * ulp q|) := by
    intro hc
    have h1 : (2 : ℚ) ^ (1024 : Nat) ≤ (2 : ℚ) ^ (1024 : Nat) - (2 : ℚ) ^ (971 : Nat) :=
      le_trans hc hr
    have h2 : (0 : ℚ) < (2 : ℚ) ^ (971 : Nat) := pow_pos (by norm_num) 971
    linarith
  refine ⟨((roundEven (q / ulp q) : Int) : ℚ) * ulp q, ?_, hr, ?_⟩
  · unfold ofRat
    simp only [hnot, if_false]
  · intro h0
    have hk : (0 : Int) ≤ roundEven (q / ulp q) :=
      le_roundEven_of_le _ 0 (by rw [Int.cast_zero]; exact div_nonneg h0 hu.le)
    exact mul_nonneg (Int.cast_nonneg.mpr hk) hu.le

/-- The binary64 value of a rational, from its binade and the integer nearest to its
significand. -/
theorem ofRat_eq_of_lt (q r : ℚ) (e n : Int) (he : -1022 ≤ e) (h1 : (2 : ℚ) ^ e ≤ |q|)
    (h2 : |q| < (2 : ℚ) ^ (e + 1)) (hn : |q / (2 : ℚ) ^ (e - 52) - (n : ℚ)| < 1 / 2)
    (hr : (n : ℚ) * (2 : ℚ) ^ (e - 52) = r) (hfin : |r| < (2 : ℚ) ^ (1024 : Nat)) :
    ofRat q = fin r := by
  rw [← hr] at hfin ⊢
  exact ofRat_eq q e n he h1 h2 (roundEven_of_abs_lt _ n hn) hfin

/-- The binary64 value of a rational half-way between two neighbours, from its binade:
the neighbour with the even significand. -/
theorem ofRat_eq_of_half (q r : ℚ) (e n : Int) (he : -1022 ≤ e) (h1 : (2 : ℚ) ^ e ≤ |q|)
    (h2 : |q| < (2 : ℚ) ^ (e + 1)) (hn : q / (2 : ℚ) ^ (e - 52) = (n : ℚ) + 1 / 2)
    (hr : ((if n % 2 = 0 then n else n + 1 : Int) : ℚ) * (2 : ℚ) ^ (e - 52) = r)
    (hfin : |r| < (2 : ℚ) ^ (1024 : Nat)) :
    ofRat q = fin r := by
  rw [← hr] at hfin ⊢
  exact ofRat_eq q e _ he h1 h2 (by rw [hn, roundEven_half]) hfin

/-- Rounding to binary64 a positive rational of the normal range, at most the largest
binary64 value, gives a positive finite value. -/
theorem ofRat_pos (q : ℚ) (hlo : (2 : ℚ) ^ (-1022 : Int) ≤ q)
    (hhi : q ≤ (2 : ℚ) ^ (1024 : Nat) - (2 : ℚ) ^ (971 : Nat)) :
    ∃ r, ofRat q = fin r ∧ 0 < r := by
  have hq : 0 < q := lt_of_lt_of_le (by positivity) hlo
  have habs : |q| = q := abs_of_pos hq
  obtain ⟨r, hr, _, _⟩ := ofRat_fin_of_le_max q (by rw [habs]; exact hhi)
  have hu := ulp_pos q
  have hge : ulp q ≤ q := by
    unfold ulp
    rw [habs]
    rcases le_total (Int.log 2 q) (-1022) with hcase | hcase
    · rw [max_eq_right hcase]
      calc (2 : ℚ) ^ ((-1022 : Int) - 52) ≤ (2 : ℚ) ^ (-1022 : Int) :=
            zpow_le_zpow_right₀ (by norm_num) (by norm_num)
        _ ≤ q := hlo
    · rw [max_eq_left hcase]
      calc (2 : ℚ) ^ (Int.log 2 q - 52) ≤ (2 : ℚ) ^ (Int.log 2 q) :=
            zpow_le_zpow_right₀ (by norm_num) (by omega)
        _ ≤ q := by
          have := Int.zpow_log_le_self (b := 2) (by norm_num) hq
          simpa using this
  have hk : (1 : Int) ≤ roundEven (q / ulp q) := by
    apply le_roundEven_of_le
    rw [Int.cast_one, le_div_iff₀ hu, one_mul]
    exact hge
  have hval : ofRat q = fin (((roundEven (q / ulp q) : Int) : ℚ) * ulp q) := by
    have h0 := hr
    unfold ofRat at h0 ⊢
    simp only [] at h0 ⊢
    split at h0
    · exact absurd h0 (by simp)
    · rename_i hno
      rw [if_neg hno]
  refine ⟨_, hval, ?_⟩
  exact mul_pos (by exact_mod_cast hk) hu

/-- A binary64 value that is not negative: finite and not negative, or +Inf. -/
theorem zero_le_iff (x : float64) :
    le (fin 0) x = true ↔ (∃ a, x = fin a ∧ 0 ≤ a) ∨ x = inf false := by
  cases x with
  | fin a => simp [le]
  | inf b => cases b <;> simp [le]
  | nan => simp [le]

/-- The product of two finite values that are not negative is not negative. -/
theorem mul_nonneg_fin (a b : ℚ) (ha : 0 ≤ a) (hb : 0 ≤ b) :
    le (fin 0) (mul (fin a) (fin b)) = true := by
  rw [zero_le_iff]
  exact ofRat_nonneg (a * b) (mul_nonneg ha hb)

/-- The product of a value that is not negative and a positive finite value is not
negative. -/
theorem mul_pos_nonneg (x : float64) (c : ℚ) (hx : le (fin 0) x = true) (hc : 0 < c) :
    le (fin 0) (mul x (fin c)) = true := by
  rcases (zero_le_iff x).mp hx with ⟨a, rfl, ha⟩ | rfl
  · exact mul_nonneg_fin a c ha hc.le
  · have h1 : ¬ c = 0 := ne_of_gt hc
    have h2 : ¬ c < 0 := not_lt.mpr hc.le
    simp [mul, le, h1, h2]

/-- The quotient of a value that is not negative by a positive finite value is not
negative. -/
theorem div_pos_nonneg (x : float64) (c : ℚ) (hx : le (fin 0) x = true) (hc : 0 < c) :
    le (fin 0) (div x (fin c)) = true := by
  have h1 : ¬ c = 0 := ne_of_gt hc
  have h2 : ¬ c < 0 := not_lt.mpr hc.le
  rcases (zero_le_iff x).mp hx with ⟨a, rfl, ha⟩ | rfl
  · rw [zero_le_iff]
    simp only [div, h1, if_false]
    exact ofRat_nonneg (a / c) (div_nonneg ha hc.le)
  · simp [div, le, h2]

end float64

namespace float64

/-- The product of two finite values. -/
theorem mul_fin (a b : ℚ) : mul (fin a) (fin b) = ofRat (a * b) := rfl

/-- The sum of two finite values. -/
theorem add_fin (a b : ℚ) : add (fin a) (fin b) = ofRat (a + b) := rfl

/-- The difference of two finite values. -/
theorem sub_fin (a b : ℚ) : sub (fin a) (fin b) = ofRat (a + -b) := rfl

/-- The quotient of two finite values, the divisor not zero. -/
theorem div_fin (a b : ℚ) (hb : b ≠ 0) : div (fin a) (fin b) = ofRat (a / b) := by
  simp only [div, hb, if_false]

/-- The largest binary64 value is at least 1. -/
theorem one_le_max : (1 : ℚ) ≤ (2 : ℚ) ^ (1024 : Nat) - (2 : ℚ) ^ (971 : Nat) := by
  have h1 : (2 : ℚ) ^ (1024 : Nat) = 9007199254740992 * (2 : ℚ) ^ (971 : Nat) := by
    rw [show (1024 : Nat) = 53 + 971 from rfl, pow_add]
    norm_num
  have h2 : (1 : ℚ) ≤ (2 : ℚ) ^ (971 : Nat) := one_le_pow₀ (by norm_num)
  rw [h1]
  linarith

/-- The smallest normal binary64 value is below 1/128. -/
theorem min_normal_le : (2 : ℚ) ^ (-1022 : Int) ≤ 1 / 128 := by
  calc (2 : ℚ) ^ (-1022 : Int) ≤ (2 : ℚ) ^ (-7 : Int) :=
        zpow_le_zpow_right₀ (by norm_num) (by norm_num)
    _ = 1 / 128 := by norm_num

end float64

/-! ## Rounding to the nearest integer: `math.Round` -/

/-- `Round` of an integer is that integer. -/
theorem Round_intCast (z : Int) : Round (z : ℚ) = (z : ℚ) := by
  unfold Round
  by_cases h : (0 : ℚ) ≤ (z : ℚ)
  · simp only [h, if_true]
    have : ⌊(z : ℚ) + 1 / 2⌋ = z := by
      rw [Int.floor_eq_iff]
      constructor <;> linarith
    show ((⌊(z : ℚ) + 1 / 2⌋ : Int) : ℚ) = z
    rw [this]
  · simp only [h, if_false]
    have : ⌊-(z : ℚ) + 1 / 2⌋ = -z := by
      rw [Int.floor_eq_iff]
      push_cast
      constructor <;> linarith
    show -((⌊-(z : ℚ) + 1 / 2⌋ : Int) : ℚ) = z
    rw [this]
    push_cast
    ring

/-- `Round` of a value that is not negative is not negative. -/
theorem Round_nonneg (x : ℚ) (h : 0 ≤ x) : 0 ≤ Round x := by
  unfold Round
  simp only [h, if_true]
  have : (0 : Int) ≤ (x + 1 / 2).floor := Rat.le_floor.mpr (by push_cast; linarith)
  exact_mod_cast this

/-- `Round` of a value that is not negative, from the bounds of the nearest integer. -/
theorem Round_eq_of (x : ℚ) (z : Int) (h0 : 0 ≤ x) (h1 : (z : ℚ) ≤ x + 1 / 2)
    (h2 : x + 1 / 2 < (z : ℚ) + 1) : Round x = (z : ℚ) := by
  unfold Round
  simp only [h0, if_true]
  have : ⌊x + 1 / 2⌋ = z := by
    rw [Int.floor_eq_iff]; exact ⟨h1, h2⟩
  show ((⌊x + 1 / 2⌋ : Int) : ℚ) = z
  rw [this]

/-- `math.Round` of a binary64 value that is not negative is not negative. -/
theorem float64_Round_nonneg (x : float64) (hx : float64.le (float64.fin 0) x = true) :
    float64.le (float64.fin 0) (float64.Round x) = true := by
  rcases (float64.zero_le_iff x).mp hx with ⟨a, rfl, ha⟩ | rfl
  · simp [float64.Round, float64.le, Round_nonneg a ha]
  · simp [float64.Round, float64.le]

/-! ## Discount strings: `parseDiscountRate` -/

/-- The cleaned form of "%N", N below 100, is not one of the words for the infinities
and NaN, and reads as the decimal literal of mantissa N and exponent 0. -/
theorem cleaned_percent (N : Nat) (hN : N < 100) :
    special (TrimSpace (ReplaceAll ("%" ++ toString N).toList (Char.ofNat 37) [])) = none ∧
      readFloat (TrimSpace (ReplaceAll ("%" ++ toString N).toList (Char.ofNat 37) []))
        = some ⟨false, false, N, 0⟩ := by
  interval_cases N <;> decide

/-- The value `ParseFloat` gives for a decimal literal of a mantissa below 2^53 and
exponent 0. -/
theorem ParseFloat_natural (s : List Char) (n : Nat) (hs : special s = none)
    (hr : readFloat s = some ⟨false, false, n, 0⟩) (hn : n < 9007199254740992) :
    ParseFloat s = some (float64.fin (n : ℚ)) := by
  have hv : float64.ofRat ((n : ℚ) * (10 : ℚ) ^ (0 : Int)) = float64.fin (n : ℚ) := by
    have := float64.ofRat_intCast (n : Int) (by
      rw [abs_of_nonneg (Int.natCast_nonneg n)]
      exact_mod_cast hn)
    rw [zpow_zero, mul_one]
    simpa using this
  unfold ParseFloat
  simp only [hs, hr, floatLiteral.value, Bool.false_eq_true, if_false, hv]

/-- The rate of the discount string "%N", N below 100, is N / 100 in binary64. -/
theorem parseDiscountRate_percent (N : Nat) (hN : N < 100) :
    parseDiscountRate ("%" ++ toString N)
      = float64.div (float64.fin (N : ℚ)) (float64.fin 100) := by
  obtain ⟨h1, h2⟩ := cleaned_percent N hN
  unfold parseDiscountRate
  simp only []
  rw [ParseFloat_natural _ N h1 h2 (by omega)]

/-- The price of a slot: the green factor, then the campaign factor when the rate is
positive, then the rounding to cents, each operation in binary64. -/
theorem timeSlot_price (tl : TimeLib) (f : Faults) (db : DB) (clock : Clock)
    (station : Station) (stationID : Int) (ac : Option Campaign) (r : float64) (d : Int)
    (hour : Int) :
    (timeSlot tl f db clock station stationID ac r d hour).Price =
      float64.div (float64.Round (float64.mul
        (if float64.lt (float64.fin 0) r = true then
          float64.mul
            (if isGreenHour hour = true then float64.mul station.Price (float64.ofRat (4 / 5))
             else station.Price)
            (float64.sub (float64.fin 1) r)
         else
          (if isGreenHour hour = true then float64.mul station.Price (float64.ofRat (4 / 5))
           else station.Price))
        (float64.fin 100))) (float64.fin 100) := rfl

/-! ## Slots of `GetStation` -/

/-- For an existing station `GetStation` answers, and its slots are the loop body at the
hours 0..23 with the active campaign and its rate. -/
theorem GetStation_slots (tl : TimeLib) (f : Faults) (db : DB) (clock : Clock)
    (stationID : Int) (station : Station)
    (hst : GetStationByID f db stationID = some station) :
    ∃ resp, GetStation tl f db clock stationID = .ok resp ∧
      resp.Slots = (List.range 24).map (fun (hour : Nat) =>
        timeSlot tl f db clock station stationID
          (activeCampaignOf f clock.now db stationID)
          (campaignRateOf (activeCampaignOf f clock.now db stationID))
          ((clock.weekday + 6) % 7) (hour : Int)) := by
  unfold GetStation
  simp only [hst]
  exact ⟨_, rfl, rfl⟩

/-- The slot at an index below 24 of the list of slots. -/
theorem slots_getElem? (g : Nat → TimeSlot) (i : Nat) (hi : i < 24) :
    ((List.range 24).map g)[i]? = some (g i) := by
  simp [List.getElem?_map, List.getElem?_range hi]

/-- A slot of the list of slots is the loop body at some hour below 24. -/
theorem slots_mem (g : Nat → TimeSlot) (slot : TimeSlot)
    (h : slot ∈ (List.range 24).map g) : ∃ i, i < 24 ∧ slot = g i := by
  obtain ⟨i, hi, rfl⟩ := List.mem_map.mp h
  exact ⟨i, List.mem_range.mp hi, rfl⟩

/-- C11: for every existing station `GetStation` returns exactly 24 slots ordered by hour:
the slot at index `i` has `Hour = i` for every `i` in 0..23. -/
theorem GetStation_24_slots_by_hour (tl : TimeLib) (f : Faults) (db : DB) (clock : Clock)
    (stationID : Int) (station : Station)
    (hst : GetStationByID f db stationID = some station) :
    ∃ resp, GetStation tl f db clock stationID = .ok resp ∧
      resp.Slots.length = 24 ∧
      ∀ i : Nat, i < 24 → resp.Slots[i]?.map TimeSlot.Hour = some (i : Int) := by
  obtain ⟨resp, hok, hslots⟩ := GetStation_slots tl f db clock stationID station hst
  refine ⟨resp, hok, ?_, ?_⟩
  · rw [hslots]; simp
  · intro i hi
    rw [hslots, slots_getElem? _ i hi]
    rfl

/-- C11 at `dbHarbor`. -/
theorem GetStation_24_slots_by_hour_witness :
    ∃ resp, GetStation tlUnix Faults.none dbHarbor clockMonday 3 = .ok resp ∧
      resp.Slots.length = 24 ∧
      ∀ i : Nat, i < 24 → resp.Slots[i]?.map TimeSlot.Hour = some (i : Int) :=
  GetStation_24_slots_by_hour tlUnix Faults.none dbHarbor clockMonday 3 stationHarbor
    (by decide)

/-- C14: `loadStatus` returns RED when load > 65, YELLOW when 45 < load ≤ 65 and GREEN when
load ≤ 45; 0 and 45 give GREEN, 46 and 65 give YELLOW, 66 and 100 give RED. -/
theorem loadStatus_thresholds :
    (∀ load : Int, 65 < load → loadStatus load = "RED") ∧
    (∀ load : Int, 45 < load → load ≤ 65 → loadStatus load = "YELLOW") ∧
    (∀ load : Int, load ≤ 45 → loadStatus load = "GREEN") ∧
    loadStatus 0 = "GREEN" ∧ loadStatus 45 = "GREEN" ∧
    loadStatus 46 = "YELLOW" ∧ loadStatus 65 = "YELLOW" ∧
    loadStatus 66 = "RED" ∧ loadStatus 100 = "RED" := by
  refine ⟨?_, ?_, ?_, by decide, by decide, by decide, by decide, by decide, by decide⟩
  · intro load h
    unfold loadStatus
    simp only [gt_iff_lt, h, if_true]
  · intro load h1 h2
    unfold loadStatus
    simp only [gt_iff_lt, not_lt.mpr h2, if_false, h1, if_true]
  · intro load h
    have h1 : ¬ 65 < load := by omega
    have h2 : ¬ 45 < load := by omega
    unfold loadStatus
    simp only [gt_iff_lt, h1, h2, if_false]

/-- C15, as stated, fails: at density 43 the operator dashboard shows YELLOW where
`loadStatus` gives GREEN, and at density 66 it shows YELLOW where `loadStatus` gives RED. -/
theorem densityStatus_differs_from_loadStatus :
    densityStatus 43 = "YELLOW" ∧ loadStatus 43 = "GREEN" ∧
      densityStatus 66 = "YELLOW" ∧ loadStatus 66 = "RED" := by
  decide

/-- C15 (amended): the status shown on the operator dashboard is GREEN below 43, YELLOW
from 43 to 68 and RED from 69 on; it equals `loadStatus` for every density except 43, 44,
45 (YELLOW against GREEN) and 66, 67, 68 (YELLOW against RED). -/
theorem densityStatus_thresholds (d : Int) :
    densityStatus d = (if d < 43 then "GREEN" else if d < 69 then "YELLOW" else "RED") ∧
      (densityStatus d = loadStatus d ↔ ¬ ((43 ≤ d ∧ d ≤ 45) ∨ (66 ≤ d ∧ d ≤ 68))) := by
  refine ⟨rfl, ?_⟩
  unfold densityStatus loadStatus
  by_cases h1 : d < 43
  · have h2 : ¬ d > 65 := by omega
    have h3 : ¬ d > 45 := by omega
    simp only [h1, h2, h3, if_true, if_false, true_iff]
    omega
  · by_cases h2 : d < 69
    · by_cases h3 : d > 65
      · simp only [h1, h2, h3, if_true, if_false]
        constructor
        · intro h; exact absurd h (by decide)
        · intro h; exfalso; apply h; right; omega
      · by_cases h4 : d > 45
        · simp only [h1, h2, h3, h4, if_true, if_false, true_iff]
          omega
        · simp only [h1, h2, h3, h4, if_true, if_false]
          constructor
          · intro h; exact absurd h (by decide)
          · intro h; exfalso; apply h; left; omega
    · have h3 : d > 65 := by omega
      simp only [h1, h2, h3, if_true, if_false, true_iff]
      omega

/-- The campaign `GetStation` applies is the head of a successful non-empty lookup. -/
theorem activeCampaignOf_cons (f : Faults) (now : Int) (db : DB) (stationID : Int)
    (c : Campaign) (cs : List Campaign)
    (h : GetActiveCampaignsForStation f now db (some stationID) = some (c :: cs)) :
    activeCampaignOf f now db stationID = some c := by
  unfold activeCampaignOf
  rw [h]
  rfl

/-- The campaign `GetStation` applies comes from a successful non-empty lookup. -/
theorem activeCampaignOf_some (f : Faults) (now : Int) (db : DB) (stationID : Int)
    (c : Campaign) (h : activeCampaignOf f now db stationID = some c) :
    ∃ cs, GetActiveCampaignsForStation f now db (some stationID) = some (c :: cs) := by
  unfold activeCampaignOf at h
  cases hl : GetActiveCampaignsForStation f now db (some stationID) with
  | none => rw [hl] at h; cases h
  | some l =>
    rw [hl] at h
    cases l with
    | nil => cases h
    | cons d ds =>
      simp only [List.head?_cons, Option.some.injEq] at h
      exact ⟨ds, by rw [h]⟩

/-- C16: among the hours 0..23 `isGreenHour` holds for exactly the 8 hours 23, 0, 1, 2, 3,
4, 5, 6 and for no other, and for every existing station each slot returned by
`GetStation` has `IsGreen` equal to `isGreenHour` of its hour. -/
theorem isGreenHour_window (tl : TimeLib) (f : Faults) (db : DB) (clock : Clock)
    (stationID : Int) (station : Station)
    (hst : GetStationByID f db stationID = some station) :
    (∀ h : Int, 0 ≤ h → h ≤ 23 →
      (isGreenHour h = true ↔
        h = 23 ∨ h = 0 ∨ h = 1 ∨ h = 2 ∨ h = 3 ∨ h = 4 ∨ h = 5 ∨ h = 6)) ∧
    ((List.range 24).filter (fun (h : Nat) => isGreenHour (h : Int)))
      = [0, 1, 2, 3, 4, 5, 6, 23] ∧
    ∃ resp, GetStation tl f db clock stationID = .ok resp ∧
      ∀ slot ∈ resp.Slots, slot.IsGreen = isGreenHour slot.Hour := by
  refine ⟨?_, by decide, ?_⟩
  · intro h h0 h23
    unfold isGreenHour greenStart greenEnd
    simp only [Bool.or_eq_true, decide_eq_true_eq]
    omega
  · obtain ⟨resp, hok, hslots⟩ := GetStation_slots tl f db clock stationID station hst
    refine ⟨resp, hok, ?_⟩
    intro slot hslot
    rw [hslots] at hslot
    obtain ⟨i, _, rfl⟩ := slots_mem _ slot hslot
    rfl

/-- C16 at `dbHarbor`. -/
theorem isGreenHour_window_witness :
    (∀ h : Int, 0 ≤ h → h ≤ 23 →
      (isGreenHour h = true ↔
        h = 23 ∨ h = 0 ∨ h = 1 ∨ h = 2 ∨ h = 3 ∨ h = 4 ∨ h = 5 ∨ h = 6)) ∧
    ((List.range 24).filter (fun (h : Nat) => isGreenHour (h : Int)))
      = [0, 1, 2, 3, 4, 5, 6, 23] ∧
    ∃ resp, GetStation tlUnix Faults.none dbHarbor clockMonday 3 = .ok resp ∧
      ∀ slot ∈ resp.Slots, slot.IsGreen = isGreenHour slot.Hour :=
  isGreenHour_window tlUnix Faults.none dbHarbor clockMonday 3 stationHarbor (by decide)

/-- C17: for every slot returned by `GetStation` the status is GREEN exactly when the slot
is a green hour and RED otherwise, never YELLOW; and two calls on any two existing
stations, whatever their forecasts, densities, campaigns and clocks, return the same
statuses hour by hour, so the status does not depend on the load. -/
theorem slot_status_is_green_flag (tl : TimeLib) (f1 f2 : Faults) (db1 db2 : DB)
    (clock1 clock2 : Clock) (id1 id2 : Int) (st1 st2 : Station)
    (h1 : GetStationByID f1 db1 id1 = some st1)
    (h2 : GetStationByID f2 db2 id2 = some st2) :
    ∃ r1 r2, GetStation tl f1 db1 clock1 id1 = .ok r1 ∧
      GetStation tl f2 db2 clock2 id2 = .ok r2 ∧
      (∀ slot ∈ r1.Slots,
        slot.Status = (if isGreenHour slot.Hour then "GREEN" else "RED") ∧
        (slot.Status = "GREEN" ↔ isGreenHour slot.Hour = true) ∧
        (slot.Status = "RED" ↔ isGreenHour slot.Hour = false) ∧
        slot.Status ≠ "YELLOW") ∧
      r1.Slots.map TimeSlot.Status = r2.Slots.map TimeSlot.Status := by
  obtain ⟨r1, hok1, hs1⟩ := GetStation_slots tl f1 db1 clock1 id1 st1 h1
  obtain ⟨r2, hok2, hs2⟩ := GetStation_slots tl f2 db2 clock2 id2 st2 h2
  refine ⟨r1, r2, hok1, hok2, ?_, ?_⟩
  · intro slot hslot
    rw [hs1] at hslot
    obtain ⟨i, _, rfl⟩ := slots_mem _ slot hslot
    have hst : (timeSlot tl f1 db1 clock1 st1 id1 (activeCampaignOf f1 clock1.now db1 id1)
        (campaignRateOf (activeCampaignOf f1 clock1.now db1 id1))
        ((clock1.weekday + 6) % 7) (i : Int)).Status
        = (if isGreenHour (i : Int) then "GREEN" else "RED") := rfl
    have hh : (timeSlot tl f1 db1 clock1 st1 id1 (activeCampaignOf f1 clock1.now db1 id1)
        (campaignRateOf (activeCampaignOf f1 clock1.now db1 id1))
        ((clock1.weekday + 6) % 7) (i : Int)).Hour = (i : Int) := rfl
    rw [hst, hh]
    cases isGreenHour (i : Int) <;> decide
  · rw [hs1, hs2]
    simp only [List.map_map]
    rfl

/-- C17 at `dbHarbor` (one forecast entry) against `dbOver` (no forecast). -/
theorem slot_status_is_green_flag_witness :
    ∃ r1 r2, GetStation tlUnix Faults.none dbHarbor clockMonday 3 = .ok r1 ∧
      GetStation tlUnix Faults.none dbOver clockMonday 3 = .ok r2 ∧
      (∀ slot ∈ r1.Slots,
        slot.Status = (if isGreenHour slot.Hour then "GREEN" else "RED") ∧
        (slot.Status = "GREEN" ↔ isGreenHour slot.Hour = true) ∧
        (slot.Status = "RED" ↔ isGreenHour slot.Hour = false) ∧
        slot.Status ≠ "YELLOW") ∧
      r1.Slots.map TimeSlot.Status = r2.Slots.map TimeSlot.Status :=
  slot_status_is_green_flag tlUnix Faults.none Faults.none dbHarbor dbOver clockMonday
    clockMonday 3 3 stationHarbor stationHarbor (by decide) (by decide)

/-- The coins of a slot: 10, or 50 in a green hour, plus the positive coin reward of the
active campaign in `int32` arithmetic. -/
theorem timeSlot_coins (tl : TimeLib) (f : Faults) (db : DB) (clock : Clock)
    (station : Station) (stationID : Int) (ac : Option Campaign) (r : float64) (d : Int)
    (hour : Int) :
    (timeSlot tl f db clock station stationID ac r d hour).Coins =
      match ac with
      | some c =>
        if c.CoinReward > 0 then wrap32 ((if isGreenHour hour then 50 else 10) + c.CoinReward)
        else (if isGreenHour hour then 50 else 10)
      | none => (if isGreenHour hour then 50 else 10) := by
  unfold timeSlot
  cases ac <;> rfl

/-- C13, as stated, fails: with the active campaign `campaignJackpot` (coin reward
2147483647, a 32-bit value) the slot of hour 12 of `GetStation` has -2147483639 coins and
the green slot of hour 0 has -2147483599 coins, both below 10. -/
theorem slot_coins_overflow :
    ∃ resp, GetStation tlUnix Faults.none dbHarborJackpot clockMonday 3 = .ok resp ∧
      resp.Slots[12]?.map TimeSlot.Coins = some (-2147483639) ∧
      resp.Slots[0]?.map TimeSlot.Coins = some (-2147483599) ∧
      (GetActiveCampaignsForStation Faults.none clockMonday.now dbHarborJackpot
        (some 3)).map (List.map Campaign.CoinReward) = some [2147483647] := by
  obtain ⟨resp, hok, hslots⟩ := GetStation_slots tlUnix Faults.none dbHarborJackpot
    clockMonday 3 stationHarbor (by decide)
  refine ⟨resp, hok, ?_, ?_, by decide⟩
  · rw [hslots, slots_getElem? _ 12 (by decide)]
    simp only [Option.map_some', timeSlot_coins]
    decide
  · rw [hslots, slots_getElem? _ 0 (by decide)]
    simp only [Option.map_some', timeSlot_coins]
    decide

/-- C13 (amended): for every existing station and every active campaign whose coin reward
is at most 2147483597 (so that the 32-bit sum does not overflow; zero and negative
rewards are not added), or none, each of the 24 slots returned by `GetStation` has a coin
reward of at least 10. -/
theorem slot_coins_at_least_10 (tl : TimeLib) (f : Faults) (db : DB) (clock : Clock)
    (stationID : Int) (station : Station)
    (hst : GetStationByID f db stationID = some station)
    (hreward : ∀ c cs, GetActiveCampaignsForStation f clock.now db (some stationID)
      = some (c :: cs) → c.CoinReward ≤ 2147483597) :
    ∃ resp, GetStation tl f db clock stationID = .ok resp ∧
      resp.Slots.length = 24 ∧ ∀ slot ∈ resp.Slots, 10 ≤ slot.Coins := by
  obtain ⟨resp, hok, hslots⟩ := GetStation_slots tl f db clock stationID station hst
  refine ⟨resp, hok, by rw [hslots]; simp, ?_⟩
  intro slot hslot
  rw [hslots] at hslot
  obtain ⟨i, _, rfl⟩ := slots_mem _ slot hslot
  rw [timeSlot_coins]
  cases hac : activeCampaignOf f clock.now db stationID with
  | none =>
    simp only []
    cases isGreenHour (i : Int) <;> decide
  | some c =>
    obtain ⟨cs, hl⟩ := activeCampaignOf_some f clock.now db stationID c hac
    have hc := hreward c cs hl
    simp only []
    by_cases hpos : c.CoinReward > 0
    · simp only [hpos, if_true]
      unfold wrap32
      cases isGreenHour (i : Int) <;> simp <;> omega
    · simp only [hpos, if_false]
      cases isGreenHour (i : Int) <;> decide

/-- C13 (amended) at `dbHarbor`: 25 bonus coins. -/
theorem slot_coins_at_least_10_witness :
    ∃ resp, GetStation tlUnix Faults.none dbHarbor clockMonday 3 = .ok resp ∧
      resp.Slots.length = 24 ∧ ∀ slot ∈ resp.Slots, 10 ≤ slot.Coins :=
  slot_coins_at_least_10 tlUnix Faults.none dbHarbor clockMonday 3 stationHarbor
    (by decide)
    (fun c cs h => by
      have h1 : some [campaignSpring] = some (c :: cs) := h
      have h2 : c = campaignSpring := by
        injection h1 with h1
        injection h1 with h1 _
        exact h1.symm
      rw [h2]
      decide)

/-! ## Slot pricing: `GetStation` -/

/-- The binary64 value of the constant 0.8. -/
theorem float64_four_fifths :
    float64.ofRat (4 / 5) = float64.fin (3602879701896397 / 4503599627370496) :=
  float64.ofRat_eq_of_lt _ _ (-1) (7205759403792794) (by norm_num) (by norm_num [abs_of_pos])
          (by norm_num [abs_of_pos]) (by norm_num [abs_lt]) (by norm_num) (by norm_num [abs_of_pos, abs_of_neg])

/-- C10, as stated, fails: for the station `stationQuay` (base price 9.5) with the campaign
`campaignFifteen` (discount "%15") the slot of hour 12, not a green hour, has the price
8.07 (the binary64 value nearest to 8.07), while base × 1 × (1 − 15/100) = 8.075 rounded
to 2 decimals is 8.08: the binary64 product 9.5 × (1 − 0.15) × 100 is below 807.5. -/
theorem slot_price_one_cent_below :
    ∃ resp, GetStation tlUnix Faults.none dbQuay clockMonday 4 = .ok resp ∧
      resp.Slots[12]?.map TimeSlot.Price = some (float64.ofRat (807 / 100)) ∧
      float64.ofRat (807 / 100) = float64.fin (1135751531027497 / 140737488355328) ∧
      float64.ofRat (808 / 100) = float64.fin (4548635623644201 / 562949953421312) ∧
      stationQuay.Price = float64.fin (19 / 2) ∧
      isGreenHour 12 = false ∧
      Round ((19 / 2 : ℚ) * 1 * (1 - 15 / 100) * 100) / 100 = 808 / 100 ∧
      (GetActiveCampaignsForStation Faults.none clockMonday.now dbQuay (some 4)).map
        (List.map Campaign.Discount) = some ["%15"] := by
  obtain ⟨resp, hok, hslots⟩ := GetStation_slots tlUnix Faults.none dbQuay
    clockMonday 4 stationQuay (by rfl)
  have h807 : float64.ofRat (807 / 100) = float64.fin (1135751531027497 / 140737488355328) :=
    float64.ofRat_eq_of_lt _ _ (3) (4543006124109988) (by norm_num) (by norm_num [abs_of_pos])
          (by norm_num [abs_of_pos]) (by norm_num [abs_lt]) (by norm_num) (by norm_num [abs_of_pos, abs_of_neg])
  have h808 : float64.ofRat (808 / 100) = float64.fin (4548635623644201 / 562949953421312) :=
    float64.ofRat_eq_of_lt _ _ (3) (4548635623644201) (by norm_num) (by norm_num [abs_of_pos])
          (by norm_num [abs_of_pos]) (by norm_num [abs_lt]) (by norm_num) (by norm_num [abs_of_pos, abs_of_neg])
  refine ⟨resp, hok, ?_, h807, h808, rfl, by decide, ?_, by decide⟩
  · rw [hslots, slots_getElem? _ 12 (by decide)]
    have hac : activeCampaignOf Faults.none clockMonday.now dbQuay 4
        = some campaignFifteen := by decide
    have hrate : campaignRateOf (some campaignFifteen)
        = float64.fin (5404319552844595 / 36028797018963968) := by
      have hd : campaignFifteen.Discount = "%" ++ toString 15 := by decide
      show parseDiscountRate campaignFifteen.Discount = _
      rw [hd, parseDiscountRate_percent 15 (by decide), float64.div_fin _ _ (by norm_num)]
      exact float64.ofRat_eq_of_lt _ _ (-3) (5404319552844595) (by norm_num) (by norm_num [abs_of_pos])
          (by norm_num [abs_of_pos]) (by norm_num [abs_lt]) (by norm_num) (by norm_num [abs_of_pos, abs_of_neg])
    rw [hac, hrate]
    simp only [Option.map_some']
    rw [timeSlot_price]
    have hg : isGreenHour ((12 : Nat) : Int) = false := by decide
    have hp : stationQuay.Price = float64.fin (19 / 2) := rfl
    have hlt : float64.lt (float64.fin 0)
        (float64.fin (5404319552844595 / 36028797018963968)) = true := by
      simp [float64.lt]
    have e2 : float64.sub (float64.fin 1) (float64.fin (5404319552844595 / 36028797018963968))
        = float64.fin (7656119366529843 / 9007199254740992) := by
      rw [float64.sub_fin]
      exact float64.ofRat_eq_of_lt _ _ (-1) (7656119366529843) (by norm_num) (by norm_num [abs_of_pos])
          (by norm_num [abs_of_pos]) (by norm_num [abs_lt]) (by norm_num) (by norm_num [abs_of_pos, abs_of_neg])
    have e3 : float64.mul (float64.fin (19 / 2)) (float64.fin (7656119366529843 / 9007199254740992))
        = float64.fin (2272910436938547 / 281474976710656) := by
      rw [float64.mul_fin]
      exact float64.ofRat_eq_of_lt _ _ (3) (4545820873877094) (by norm_num) (by norm_num [abs_of_pos])
          (by norm_num [abs_of_pos]) (by norm_num [abs_lt]) (by norm_num) (by norm_num [abs_of_pos, abs_of_neg])
    have e4 : float64.mul (float64.fin (2272910436938547 / 281474976710656)) (float64.fin 100)
        = float64.fin (7102845115432959 / 8796093022208) := by
      rw [float64.mul_fin]
      exact float64.ofRat_eq_of_lt _ _ (9) (7102845115432959) (by norm_num) (by norm_num [abs_of_pos])
          (by norm_num [abs_of_pos]) (by norm_num [abs_lt]) (by norm_num) (by norm_num [abs_of_pos, abs_of_neg])
    have e5 : float64.Round (float64.fin (7102845115432959 / 8796093022208))
        = float64.fin 807 := by
      show float64.fin (Round (7102845115432959 / 8796093022208)) = float64.fin 807
      rw [Round_eq_of (7102845115432959 / 8796093022208) 807 (by norm_num) (by norm_num) (by norm_num)]
      norm_num
    have e6 : float64.div (float64.fin 807) (float64.fin 100) = float64.ofRat (807 / 100) :=
      float64.div_fin _ _ (by norm_num)
    rw [hg, hp, hlt]
    simp only [if_true, Bool.false_eq_true, if_false]
    rw [e2, e3, e4, e5, e6]
  · have hx : (19 / 2 : ℚ) * 1 * (1 - 15 / 100) * 100 = 1615 / 2 := by norm_num
    rw [hx, Round_eq_of (1615 / 2) 808 (by norm_num) (by norm_num) (by norm_num)]
    norm_num

/-- C10 (amended): for every station base price, every hour `h` in 0..23 and every first
active campaign whose discount string is "%N" with N below 100, or no campaign at all (then
N = 0), `GetStation` returns a response whose slot `h` has the price computed in binary64,
every operation rounded to the nearest value: the base price, times 0.8 in a green hour,
times 1 − N/100 when N is not 0 (the rate N/100 being the binary64 quotient), times 100,
rounded to the nearest integer and divided by 100. The green and the campaign discount
compose multiplicatively; with N = 0 or without a campaign no campaign factor is applied. -/
theorem GetStation_price_composes (tl : TimeLib) (f : Faults) (db : DB) (clock : Clock)
    (stationID : Int) (station : Station) (h N : Nat)
    (hst : GetStationByID f db stationID = some station) (hh : h < 24) (hN : N < 100)
    (hcamp : (∃ c cs, GetActiveCampaignsForStation f clock.now db (some stationID)
                = some (c :: cs) ∧ c.Discount = "%" ++ toString N) ∨
      ((GetActiveCampaignsForStation f clock.now db (some stationID) = none ∨
        GetActiveCampaignsForStation f clock.now db (some stationID) = some []) ∧ N = 0)) :
    ∃ resp, GetStation tl f db clock stationID = .ok resp ∧
      resp.Slots[h]?.map TimeSlot.Price = some
        (float64.div (float64.Round (float64.mul
          (if N = 0 then
            (if isGreenHour (h : Int) = true then
              float64.mul station.Price (float64.ofRat (4 / 5))
             else station.Price)
           else
            float64.mul
              (if isGreenHour (h : Int) = true then
                float64.mul station.Price (float64.ofRat (4 / 5))
               else station.Price)
              (float64.sub (float64.fin 1)
                (float64.div (float64.fin (N : ℚ)) (float64.fin 100))))
          (float64.fin 100))) (float64.fin 100)) := by
  obtain ⟨resp, hok, hslots⟩ := GetStation_slots tl f db clock stationID station hst
  refine ⟨resp, hok, ?_⟩
  rw [hslots, slots_getElem? _ h hh]
  simp only [Option.map_some']
  rw [timeSlot_price]
  have hzero : float64.lt (float64.fin 0) (float64.fin 0) = false := by
    simp [float64.lt]
  rcases hcamp with ⟨c, cs, hc, hd⟩ | ⟨hc, hz⟩
  · have hac := activeCampaignOf_cons f clock.now db stationID c cs hc
    have hr : campaignRateOf (some c)
        = float64.div (float64.fin (N : ℚ)) (float64.fin 100) := by
      show parseDiscountRate c.Discount = _
      rw [hd, parseDiscountRate_percent N hN]
    rw [hac, hr]
    by_cases hN0 : N = 0
    · subst hN0
      have h0 : float64.div (float64.fin ((0 : Nat) : ℚ)) (float64.fin 100)
          = float64.fin 0 := by
        rw [float64.div_fin _ _ (by norm_num)]
        simp [float64.ofRat_zero]
      rw [h0, hzero]
      simp only [Bool.false_eq_true, if_false, if_true]
    · have hN1 : (1 : ℚ) ≤ (N : ℚ) := by exact_mod_cast Nat.one_le_iff_ne_zero.mpr hN0
      have hN2 : (N : ℚ) ≤ 100 := by exact_mod_cast (le_of_lt hN)
      obtain ⟨r, hr1, hr2⟩ := float64.ofRat_pos ((N : ℚ) / 100)
        (le_trans float64.min_normal_le (by
          rw [div_le_div_iff₀ (by norm_num) (by norm_num)]
          linarith))
        (le_trans (by
          rw [div_le_one (by norm_num)]
          exact hN2) float64.one_le_max)
      have hlt : float64.lt (float64.fin 0)
          (float64.div (float64.fin (N : ℚ)) (float64.fin 100)) = true := by
        rw [float64.div_fin _ _ (by norm_num), hr1]
        simp [float64.lt, hr2]
      rw [hlt]
      simp only [if_true, hN0, if_false]
  · subst hz
    have hac : activeCampaignOf f clock.now db stationID = none := by
      unfold activeCampaignOf
      rcases hc with hc | hc <;> rw [hc] <;> rfl
    rw [hac]
    have hr : campaignRateOf none = float64.fin 0 := rfl
    rw [hr, hzero]
    simp only [Bool.false_eq_true, if_false, if_true]

/-- C10 (amended) at `dbHarbor`: base 10, green hour 0, campaign "%20". -/
theorem GetStation_price_composes_witness :
    ∃ resp, GetStation tlUnix Faults.none dbHarbor clockMonday 3 = .ok resp ∧
      resp.Slots[0]?.map TimeSlot.Price = some
        (float64.div (float64.Round (float64.mul
          (if 20 = 0 then
            (if isGreenHour ((0 : Nat) : Int) = true then
              float64.mul stationHarbor.Price (float64.ofRat (4 / 5))
             else stationHarbor.Price)
           else
            float64.mul
              (if isGreenHour ((0 : Nat) : Int) = true then
                float64.mul stationHarbor.Price (float64.ofRat (4 / 5))
               else stationHarbor.Price)
              (float64.sub (float64.fin 1)
                (float64.div (float64.fin ((20 : Nat) : ℚ)) (float64.fin 100))))
          (float64.fin 100))) (float64.fin 100)) :=
  GetStation_price_composes tlUnix Faults.none dbHarbor clockMonday 3 stationHarbor 0 20
    (by decide) (by decide) (by decide)
    (Or.inl ⟨campaignSpring, [], by decide, by decide⟩)

/-! ## Slot prices for arbitrary discount strings -/

/-- A rational up to 2^53 - 1 is at most the largest binary64 value. -/
theorem float64_le_max (x : ℚ) (h : x ≤ 9007199254740991) :
    x ≤ (2 : ℚ) ^ (1024 : Nat) - (2 : ℚ) ^ (971 : Nat) := by
  have h1 : (2 : ℚ) ^ (1024 : Nat) = 9007199254740992 * (2 : ℚ) ^ (971 : Nat) := by
    rw [show (1024 : Nat) = 53 + 971 from rfl, pow_add]
    norm_num
  have h2 : (1 : ℚ) ≤ (2 : ℚ) ^ (971 : Nat) := one_le_pow₀ (by norm_num)
  rw [h1]
  nlinarith

/-- The rate of the discount string "%150" is 1.5. -/
theorem parseDiscountRate_150 : parseDiscountRate "%150" = float64.fin (3 / 2) := by
  have h := ParseFloat_natural
    (TrimSpace (ReplaceAll ("%150" : String).toList (Char.ofNat 37) [])) 150
    (by decide) (by decide) (by norm_num)
  unfold parseDiscountRate
  simp only []
  rw [h]
  show float64.div (float64.fin ((150 : Nat) : ℚ)) (float64.fin 100) = _
  rw [float64.div_fin _ _ (by norm_num)]
  exact float64.ofRat_eq_of_lt _ _ 0 6755399441055744 (by norm_num)
    (by norm_num [abs_of_pos]) (by norm_num [abs_of_pos]) (by norm_num [abs_lt])
    (by norm_num) (by norm_num [abs_of_pos])

/-- The rate of the hexadecimal discount string "%0x10p0" is 16 / 100 in binary64. -/
theorem parseDiscountRate_hex :
    parseDiscountRate "%0x10p0" = float64.ofRat (16 / 100) := by
  have hs : special (TrimSpace (ReplaceAll ("%0x10p0" : String).toList (Char.ofNat 37) []))
      = none := by decide
  have hr : readFloat (TrimSpace (ReplaceAll ("%0x10p0" : String).toList (Char.ofNat 37) []))
      = some ⟨false, true, 16, 0⟩ := by decide
  have hv : float64.ofRat (((16 : Nat) : ℚ) * (2 : ℚ) ^ (0 : Int)) = float64.fin 16 := by
    have := float64.ofRat_intCast 16 (by norm_num)
    rw [zpow_zero, mul_one]
    simpa using this
  unfold parseDiscountRate ParseFloat
  simp only [hs, hr, floatLiteral.value, if_true, Bool.false_eq_true, if_false, hv]
  exact float64.div_fin _ _ (by norm_num)

/-- The rate of the discount string "%1_0", with a digit separator, is 10 / 100 in
binary64. -/
theorem parseDiscountRate_underscore :
    parseDiscountRate "%1_0" = float64.ofRat (10 / 100) := by
  have h := ParseFloat_natural
    (TrimSpace (ReplaceAll ("%1_0" : String).toList (Char.ofNat 37) [])) 10
    (by decide) (by decide) (by norm_num)
  unfold parseDiscountRate
  simp only []
  rw [h]
  show float64.div (float64.fin ((10 : Nat) : ℚ)) (float64.fin 100) = _
  rw [float64.div_fin _ _ (by norm_num)]
  norm_num

/-- The rate of the discount string "%Infinity" is +Inf. -/
theorem parseDiscountRate_infinity :
    parseDiscountRate "%Infinity" = float64.inf false := by
  have hs : special (TrimSpace (ReplaceAll ("%Infinity" : String).toList (Char.ofNat 37) []))
      = some (float64.inf false, 8) := by decide
  have hl : (TrimSpace (ReplaceAll ("%Infinity" : String).toList (Char.ofNat 37) [])).length
      = 8 := by decide
  unfold parseDiscountRate ParseFloat
  simp only [hs, hl, if_true]
  rfl

/-- C12, as stated, fails: with base price 10 and the active campaign `campaignOver`
(discount "%150") the slot of hour 12 returned by `GetStation` has price -5. -/
theorem slot_price_negative :
    ∃ resp, GetStation tlUnix Faults.none dbOver clockMonday 3 = .ok resp ∧
      resp.Slots[12]?.map TimeSlot.Price = some (float64.fin (-5)) ∧
      float64.le (float64.fin 0) (float64.fin (-5)) = false ∧
      stationHarbor.Price = float64.fin 10 ∧
      (GetActiveCampaignsForStation Faults.none clockMonday.now dbOver
        (some 3)).map (List.map Campaign.Discount) = some ["%150"] := by
  obtain ⟨resp, hok, hslots⟩ := GetStation_slots tlUnix Faults.none dbOver
    clockMonday 3 stationHarbor (by decide)
  refine ⟨resp, hok, ?_, by simp [float64.le], rfl, by decide⟩
  rw [hslots, slots_getElem? _ 12 (by decide)]
  have hac : activeCampaignOf Faults.none clockMonday.now dbOver 3 = some campaignOver := by
    decide
  have hrate : campaignRateOf (some campaignOver) = float64.fin (3 / 2) :=
    parseDiscountRate_150
  rw [hac, hrate]
  simp only [Option.map_some']
  rw [timeSlot_price]
  have hg : isGreenHour ((12 : Nat) : Int) = false := by decide
  have hp : stationHarbor.Price = float64.fin 10 := rfl
  have hlt : float64.lt (float64.fin 0) (float64.fin (3 / 2)) = true := by
    simp [float64.lt]
  have e2 : float64.sub (float64.fin 1) (float64.fin (3 / 2)) = float64.fin (-1 / 2) := by
    rw [float64.sub_fin]
    exact float64.ofRat_eq_of_lt _ _ (-1) (-4503599627370496) (by norm_num)
      (by norm_num [abs_of_neg]) (by norm_num [abs_of_neg]) (by norm_num [abs_lt])
      (by norm_num) (by norm_num [abs_of_neg])
  have e3 : float64.mul (float64.fin 10) (float64.fin (-1 / 2)) = float64.fin (-5) := by
    rw [float64.mul_fin]
    have := float64.ofRat_intCast (-5) (by norm_num)
    have hx : (10 : ℚ) * (-1 / 2) = ((-5 : Int) : ℚ) := by norm_num
    rw [hx, this]
    norm_num
  have e4 : float64.mul (float64.fin (-5)) (float64.fin 100) = float64.fin (-500) := by
    rw [float64.mul_fin]
    have := float64.ofRat_intCast (-500) (by norm_num)
    have hx : (-5 : ℚ) * 100 = ((-500 : Int) : ℚ) := by norm_num
    rw [hx, this]
    norm_num
  have e5 : float64.Round (float64.fin (-500)) = float64.fin (-500) := by
    show float64.fin (Round (-500)) = float64.fin (-500)
    have hx : (-500 : ℚ) = ((-500 : Int) : ℚ) := by norm_num
    rw [hx, Round_intCast]
  have e6 : float64.div (float64.fin (-500)) (float64.fin 100) = float64.fin (-5) := by
    rw [float64.div_fin _ _ (by norm_num)]
    have := float64.ofRat_intCast (-5) (by norm_num)
    have hx : (-500 : ℚ) / 100 = ((-5 : Int) : ℚ) := by norm_num
    rw [hx, this]
    norm_num
  rw [hg, hp, hlt]
  simp only [if_true, Bool.false_eq_true, if_false]
  rw [e2, e3, e4, e5, e6]

/-- C12 (amended): for every existing station with a finite non-negative base price and
every active campaign whose discount rate is not above 1 (the discount string does not
parse, or parses to at most 100 percent, or to NaN), or none, each of the 24 slots returned
by `GetStation` has price ≥ 0. -/
theorem slot_price_nonneg (tl : TimeLib) (f : Faults) (db : DB) (clock : Clock)
    (stationID : Int) (station : Station) (p : ℚ)
    (hst : GetStationByID f db stationID = some station)
    (hprice : station.Price = float64.fin p) (hp0 : 0 ≤ p)
    (hpmax : p ≤ (2 : ℚ) ^ (1024 : Nat) - (2 : ℚ) ^ (971 : Nat))
    (hrate : ∀ c cs, GetActiveCampaignsForStation f clock.now db (some stationID)
      = some (c :: cs) → float64.lt (float64.fin 1) (parseDiscountRate c.Discount) = false) :
    ∃ resp, GetStation tl f db clock stationID = .ok resp ∧
      resp.Slots.length = 24 ∧
      ∀ slot ∈ resp.Slots, float64.le (float64.fin 0) slot.Price = true := by
  obtain ⟨resp, hok, hslots⟩ := GetStation_slots tl f db clock stationID station hst
  refine ⟨resp, hok, by rw [hslots]; simp, ?_⟩
  intro slot hslot
  rw [hslots] at hslot
  obtain ⟨i, _, rfl⟩ := slots_mem _ slot hslot
  have hr : float64.lt (float64.fin 1)
      (campaignRateOf (activeCampaignOf f clock.now db stationID)) = false := by
    cases hac : activeCampaignOf f clock.now db stationID with
    | none => simp [campaignRateOf, float64.lt]
    | some c =>
      obtain ⟨cs, hl⟩ := activeCampaignOf_some f clock.now db stationID c hac
      exact hrate c cs hl
  generalize campaignRateOf (activeCampaignOf f clock.now db stationID) = r at hr
  rw [timeSlot_price, hprice]
  obtain ⟨p1, hp1, hp1nn⟩ : ∃ p1, (if isGreenHour (i : Int) = true then
      float64.mul (float64.fin p) (float64.ofRat (4 / 5)) else float64.fin p)
        = float64.fin p1 ∧ 0 ≤ p1 := by
    cases isGreenHour (i : Int)
    · exact ⟨p, by simp, hp0⟩
    · simp only [if_true]
      rw [float64_four_fifths, float64.mul_fin]
      have hle : p * (3602879701896397 / 4503599627370496) ≤ p := by nlinarith
      have hnn : 0 ≤ p * (3602879701896397 / 4503599627370496) := by positivity
      obtain ⟨q, hq, _, hq0⟩ := float64.ofRat_fin_of_le_max
        (p * (3602879701896397 / 4503599627370496))
        (by rw [abs_of_nonneg hnn]; exact le_trans hle hpmax)
      exact ⟨q, hq, hq0 hnn⟩
  rw [hp1]
  apply float64.div_pos_nonneg _ 100 _ (by norm_num)
  apply float64_Round_nonneg
  apply float64.mul_pos_nonneg _ 100 _ (by norm_num)
  by_cases hpos : float64.lt (float64.fin 0) r = true
  · simp only [hpos, if_true]
    cases r with
    | fin ρ =>
      have h1 : 0 < ρ := by simpa [float64.lt] using hpos
      have h2 : ρ ≤ 1 := by simpa [float64.lt] using hr
      rw [float64.sub_fin]
      have hnn : 0 ≤ 1 + -ρ := by linarith
      obtain ⟨x0, hx0, _, hx0nn⟩ := float64.ofRat_fin_of_le_max (1 + -ρ)
        (by rw [abs_of_nonneg hnn]; exact le_trans (by linarith) float64.one_le_max)
      rw [hx0]
      exact float64.mul_nonneg_fin p1 x0 hp1nn (hx0nn hnn)
    | inf b =>
      cases b
      · simp [float64.lt] at hr
      · simp [float64.lt] at hpos
    | nan => simp [float64.lt] at hpos
  · simp only [hpos, if_false]
    simp [float64.le, hp1nn]

/-- C12 (amended) at `dbHarbor`: base price 10, rate 0.2. -/
theorem slot_price_nonneg_witness :
    ∃ resp, GetStation tlUnix Faults.none dbHarbor clockMonday 3 = .ok resp ∧
      resp.Slots.length = 24 ∧
      ∀ slot ∈ resp.Slots, float64.le (float64.fin 0) slot.Price = true :=
  slot_price_nonneg tlUnix Faults.none dbHarbor clockMonday 3 stationHarbor 10
    (by decide) rfl (by norm_num) (float64_le_max 10 (by norm_num))
    (fun c cs h => by
      have h1 : some [campaignSpring] = some (c :: cs) := h
      have h2 : c = campaignSpring := by
        injection h1 with h1
        injection h1 with h1 _
        exact h1.symm
      rw [h2]
      have h3 : campaignSpring.Discount = "%" ++ toString 20 := by decide
      rw [h3, parseDiscountRate_percent 20 (by decide), float64.div_fin _ _ (by norm_num)]
      have h4 : float64.ofRat (((20 : Nat) : ℚ) / 100)
          = float64.fin (3602879701896397 / 18014398509481984) :=
        float64.ofRat_eq_of_lt _ _ (-3) (7205759403792794) (by norm_num) (by norm_num [abs_of_pos])
          (by norm_num [abs_of_pos]) (by norm_num [abs_lt]) (by norm_num) (by norm_num [abs_of_pos, abs_of_neg])
      rw [h4]
      simp [float64.lt]
      norm_num)

/-! ## Promotional labels and campaign selection -/

/-- Without a campaign row the lookup of `GetStation` applies no campaign. -/
theorem activeCampaignOf_no_campaigns (f : Faults) (now : Int) (db : DB) (stationID : Int) :
    activeCampaignOf f now { db with campaigns := [] } stationID = none := by
  unfold activeCampaignOf GetActiveCampaignsForStation
  cases f.getActiveCampaignsForStation <;> rfl

/-- C18: for every existing station whose first active campaign has a discount string that
does not parse as a number after removing '%' and trimming spaces, and a positive coin
reward, `parseDiscountRate` returns 0, every slot price returned by `GetStation` equals the
price returned without any campaign, and the coin reward is still added to the coins of
every slot (in `int32` arithmetic, exactly when the reward is at most 2147483597). -/
theorem label_discount_keeps_price (tl : TimeLib) (f : Faults) (db : DB) (clock : Clock)
    (stationID : Int) (station : Station) (c : Campaign) (cs : List Campaign)
    (hst : GetStationByID f db stationID = some station)
    (hc : GetActiveCampaignsForStation f clock.now db (some stationID) = some (c :: cs))
    (hlabel : ParseFloat (TrimSpace (ReplaceAll c.Discount.toList (Char.ofNat 37) []))
      = none)
    (hpos : 0 < c.CoinReward) :
    parseDiscountRate c.Discount = float64.fin 0 ∧
    ∃ resp resp0, GetStation tl f db clock stationID = .ok resp ∧
      GetStation tl f { db with campaigns := [] } clock stationID = .ok resp0 ∧
      resp.Slots.map TimeSlot.Price = resp0.Slots.map TimeSlot.Price ∧
      (∀ i : Nat, i < 24 → resp.Slots[i]?.map TimeSlot.Coins =
        some (wrap32 ((if isGreenHour (i : Int) then 50 else 10) + c.CoinReward))) ∧
      (c.CoinReward ≤ 2147483597 →
        ∀ i : Nat, i < 24 → resp.Slots[i]?.map TimeSlot.Coins =
          some ((if isGreenHour (i : Int) then 50 else 10) + c.CoinReward)) := by
  have hzero : parseDiscountRate c.Discount = float64.fin 0 := by
    unfold parseDiscountRate
    simp only [hlabel]
  have hac := activeCampaignOf_cons f clock.now db stationID c cs hc
  have hst0 : GetStationByID f { db with campaigns := [] } stationID = some station := hst
  obtain ⟨resp, hok, hslots⟩ := GetStation_slots tl f db clock stationID station hst
  obtain ⟨resp0, hok0, hslots0⟩ :=
    GetStation_slots tl f { db with campaigns := [] } clock stationID station hst0
  have hcoins : ∀ i : Nat, i < 24 → resp.Slots[i]?.map TimeSlot.Coins =
      some (wrap32 ((if isGreenHour (i : Int) then 50 else 10) + c.CoinReward)) := by
    intro i hi
    rw [hslots, slots_getElem? _ i hi, hac]
    simp only [Option.map_some', timeSlot_coins, gt_iff_lt, hpos, if_true]
  refine ⟨hzero, resp, resp0, hok, hok0, ?_, hcoins, ?_⟩
  · rw [hslots, hslots0, hac, activeCampaignOf_no_campaigns]
    simp only [List.map_map]
    apply List.map_congr_left
    intro i _
    simp only [Function.comp, campaignRateOf, hzero]
    rw [timeSlot_price, timeSlot_price]
  · intro hsmall i hi
    rw [hcoins i hi]
    congr 1
    unfold wrap32
    cases isGreenHour (i : Int) <;> simp <;> omega

/-- C18 at `dbHarborEco`: the label "2x Coin" with 200 bonus coins. -/
theorem label_discount_keeps_price_witness :
    parseDiscountRate campaignEco.Discount = float64.fin 0 ∧
    ∃ resp resp0, GetStation tlUnix Faults.none dbHarborEco clockMonday 3 = .ok resp ∧
      GetStation tlUnix Faults.none { dbHarborEco with campaigns := [] } clockMonday 3
        = .ok resp0 ∧
      resp.Slots.map TimeSlot.Price = resp0.Slots.map TimeSlot.Price ∧
      (∀ i : Nat, i < 24 → resp.Slots[i]?.map TimeSlot.Coins =
        some (wrap32 ((if isGreenHour (i : Int) then 50 else 10) +
          campaignEco.CoinReward))) ∧
      (campaignEco.CoinReward ≤ 2147483597 →
        ∀ i : Nat, i < 24 → resp.Slots[i]?.map TimeSlot.Coins =
          some ((if isGreenHour (i : Int) then 50 else 10) + campaignEco.CoinReward)) :=
  label_discount_keeps_price tlUnix Faults.none dbHarborEco clockMonday 3 stationHarbor
    campaignEco [campaignSpring] (by decide) (by decide) (by decide) (by decide)

/-- An element of the list after an insertion is the inserted one or was in the list. -/
theorem mem_insertByRecency (x c : Campaign) (l : List Campaign)
    (h : x ∈ insertByRecency c l) : x = c ∨ x ∈ l := by
  induction l with
  | nil =>
    simp only [insertByRecency, List.mem_singleton] at h
    exact Or.inl h
  | cons d ds ih =>
    unfold insertByRecency at h
    split at h
    · rcases List.mem_cons.mp h with h | h
      · exact Or.inl h
      · exact Or.inr h
    · rcases List.mem_cons.mp h with h | h
      · exact Or.inr (by rw [h]; exact List.mem_cons_self _ _)
      · rcases ih h with h | h
        · exact Or.inl h
        · exact Or.inr (List.mem_cons_of_mem _ h)

/-- Ordering by recency adds no campaign. -/
theorem mem_sortByRecency (x : Campaign) (l : List Campaign)
    (h : x ∈ sortByRecency l) : x ∈ l := by
  induction l with
  | nil => exact h
  | cons c cs ih =>
    rcases mem_insertByRecency x c _ h with h | h
    · rw [h]; exact List.mem_cons_self _ _
    · exact List.mem_cons_of_mem _ (ih h)

/-- The first campaign of a lookup is returned alone when it is the only campaign row. -/
theorem lookup_first_alone (f : Faults) (now : Int) (db : DB) (stationID : Int)
    (c : Campaign) (cs : List Campaign)
    (h : GetActiveCampaignsForStation f now db (some stationID) = some (c :: cs)) :
    GetActiveCampaignsForStation f now { db with campaigns := [c] } (some stationID)
      = some [c] := by
  unfold GetActiveCampaignsForStation at h ⊢
  cases hf : f.getActiveCampaignsForStation with
  | true => simp [hf] at h
  | false =>
    simp only [hf, Bool.false_eq_true, if_false, Option.some.injEq] at h ⊢
    have hmem : c ∈ sortByRecency (db.campaigns.filter (fun c =>
        decide (c.Status = "ACTIVE") &&
        (decide (c.StationID = none) || decide (c.StationID = some stationID)) &&
        (match c.EndDate with
         | none => true
         | some e => decide (now < e)))) := by
      rw [h]; exact List.mem_cons_self _ _
    have hp := (List.mem_filter.mp (mem_sortByRecency c _ hmem)).2
    rw [List.filter_cons, hp]
    rfl

/-- C19: only the first campaign of a non-empty lookup applies. The response of
`GetStation` (all slots with price, coins and applied campaign) and the response of
`Create` (with its earned coins) are the same as on the state whose only campaign row is
that first campaign, and the earned coins computed from the list are those computed from
its first element alone. -/
theorem only_first_campaign_applies (tl : TimeLib) (f : Faults) (db : DB) (clock : Clock)
    (stationID userID : Int) (req : CreateReservationRequest)
    (c : Campaign) (cs : List Campaign)
    (hreq : req.StationID = stationID)
    (hc : GetActiveCampaignsForStation f clock.now db (some stationID) = some (c :: cs)) :
    GetStation tl f { db with campaigns := [c] } clock stationID
        = GetStation tl f db clock stationID ∧
      (Create tl f clock.now { db with campaigns := [c] } userID req).1
        = (Create tl f clock.now db userID req).1 ∧
      earnedCoinsFor req.IsGreen (c :: cs) = earnedCoinsFor req.IsGreen [c] := by
  have h1 := lookup_first_alone f clock.now db stationID c cs hc
  refine ⟨?_, ?_, rfl⟩
  · unfold GetStation
    have hs : GetStationByID f { db with campaigns := [c] } stationID
        = GetStationByID f db stationID := rfl
    rw [hs]
    cases GetStationByID f db stationID with
    | none => rfl
    | some station =>
      simp only [h1, hc, List.head?_cons]
      rfl
  · subst hreq
    unfold Create
    cases parseDate tl req.Date with
    | none => rfl
    | some t =>
      simp only [h1, hc, CreateReservation]
      cases f.createReservation <;> rfl

/-- C19 at `dbHarborEco`, whose lookup returns `campaignEco` before `campaignSpring`. -/
theorem only_first_campaign_applies_witness :
    GetStation tlUnix Faults.none { dbHarborEco with campaigns := [campaignEco] }
        clockMonday 3
        = GetStation tlUnix Faults.none dbHarborEco clockMonday 3 ∧
      (Create tlUnix Faults.none clockMonday.now
          { dbHarborEco with campaigns := [campaignEco] } 7 reqGreen).1
        = (Create tlUnix Faults.none clockMonday.now dbHarborEco 7 reqGreen).1 ∧
      earnedCoinsFor reqGreen.IsGreen (campaignEco :: [campaignSpring])
        = earnedCoinsFor reqGreen.IsGreen [campaignEco] :=
  only_first_campaign_applies tlUnix Faults.none dbHarborEco clockMonday 3 7 reqGreen
    campaignEco [campaignSpring] (by decide) (by decide)

/-! ## Forecast regression: `linearReg` -/

/-- The accumulator of a summing loop is the sum of the summands. -/
theorem foldl_add_eq_sum {α : Type} (g : α → ℚ) (l : List α) (x : ℚ) :
    l.foldl (fun acc p => acc + g p) x = x + (l.map g).sum := by
  induction l generalizing x with
  | nil => simp
  | cons p ps ih =>
    simp only [List.foldl_cons, List.map_cons, List.sum_cons]
    rw [ih]
    ring

namespace float64

/-- An integer-valued rational below 2^53 in magnitude is a binary64 value. -/
theorem ofRat_of_int (q : ℚ) (z : Int) (hq : q = (z : ℚ)) (hz : |z| < 9007199254740992) :
    ofRat q = fin (z : ℚ) := by
  rw [hq]
  exact ofRat_intCast z hz

/-- The conversion of a natural number below 2^53 is exact. -/
theorem ofNat_eq (n : Nat) (hn : n < 9007199254740992) : ofNat n = fin ((n : Int) : ℚ) := by
  unfold ofNat
  apply ofRat_of_int
  · push_cast; rfl
  · rw [abs_of_nonneg (Int.natCast_nonneg n)]
    exact_mod_cast hn

/-- The sum of two integers is exact when it is below 2^53. -/
theorem add_int (x y : Int) (h : |x + y| < 9007199254740992) :
    add (fin (x : ℚ)) (fin (y : ℚ)) = fin ((x + y : Int) : ℚ) := by
  rw [add_fin]
  exact ofRat_of_int _ _ (by push_cast; rfl) h

/-- The difference of two integers is exact when it is below 2^53. -/
theorem sub_int (x y : Int) (h : |x - y| < 9007199254740992) :
    sub (fin (x : ℚ)) (fin (y : ℚ)) = fin ((x - y : Int) : ℚ) := by
  rw [sub_fin]
  exact ofRat_of_int _ _ (by push_cast; ring) h

/-- The product of two integers is exact when it is below 2^53. -/
theorem mul_int (x y : Int) (h : |x * y| < 9007199254740992) :
    mul (fin (x : ℚ)) (fin (y : ℚ)) = fin ((x * y : Int) : ℚ) := by
  rw [mul_fin]
  exact ofRat_of_int _ _ (by push_cast; rfl) h

/-- The quotient of two integers is exact when it is an integer below 2^53. -/
theorem div_int (x y z : Int) (hy : y ≠ 0) (hx : x = z * y) (h : |z| < 9007199254740992) :
    div (fin (x : ℚ)) (fin (y : ℚ)) = fin (z : ℚ) := by
  have hy' : (y : ℚ) ≠ 0 := by exact_mod_cast hy
  rw [div_fin _ _ hy']
  apply ofRat_of_int _ _ _ h
  rw [hx]
  push_cast
  field_simp

/-- A sum of integers accumulated in binary64 is exact as long as the partial sums stay
below 2^53. -/
theorem foldl_add_int {α : Type} (g : α → float64) (z : α → Int) (M : Int) (l : List α)
    (acc : Int) (hg : ∀ x ∈ l, g x = fin ((z x : Int) : ℚ)) (hM : ∀ x ∈ l, |z x| ≤ M)
    (hacc : |acc| + (l.length : Int) * M < 9007199254740992) :
    l.foldl (fun s x => add s (g x)) (fin (acc : ℚ))
        = fin ((acc + (l.map z).sum : Int) : ℚ) ∧
      |acc + (l.map z).sum| ≤ |acc| + (l.length : Int) * M := by
  induction l generalizing acc with
  | nil => simp
  | cons x xs ih =>
    have hx := hM x (List.mem_cons_self _ _)
    have hM0 : 0 ≤ M := le_trans (abs_nonneg _) hx
    have hlen : ((x :: xs).length : Int) = (xs.length : Int) + 1 := by simp
    rw [hlen] at hacc ⊢
    have hstep : |acc + z x| ≤ |acc| + M := le_trans (abs_add _ _) (by linarith)
    have hxs : 0 ≤ (xs.length : Int) * M := mul_nonneg (Int.natCast_nonneg _) hM0
    have h1 : |acc + z x| < 9007199254740992 := by nlinarith
    obtain ⟨ih1, ih2⟩ := ih (acc + z x) (fun y hy => hg y (List.mem_cons_of_mem _ hy))
      (fun y hy => hM y (List.mem_cons_of_mem _ hy)) (by nlinarith)
    simp only [List.foldl_cons, List.map_cons, List.sum_cons]
    rw [hg x (List.mem_cons_self _ _), add_int acc (z x) h1, ih1]
    constructor
    · rw [add_assoc]
    · rw [← add_assoc]
      nlinarith

end float64


/-- The sums of the positions 0..n-1 and of their squares, in integers. -/
theorem int_range_sums (n : Nat) :
    2 * ((List.range n).map (fun (i : Nat) => (i : Int))).sum = (n : Int) * ((n : Int) - 1) ∧
    6 * ((List.range n).map (fun (i : Nat) => (i : Int) * (i : Int))).sum
      = ((n : Int) - 1) * (n : Int) * (2 * (n : Int) - 1) := by
  induction n with
  | zero => simp
  | succ k ih =>
    obtain ⟨h1, h2⟩ := ih
    simp only [List.range_succ, List.map_append, List.map_cons, List.map_nil,
      List.sum_append, List.sum_cons, List.sum_nil, add_zero]
    push_cast
    constructor
    · linear_combination h1
    · linear_combination h2

/-- The sums of the loads of an integer line and of the products position × load. -/
theorem int_line_sums (a c : Int) (n : Nat) :
    ((List.range n).map (fun (i : Nat) => a * (i : Int) + c)).sum
      = a * ((List.range n).map (fun (i : Nat) => (i : Int))).sum + c * (n : Int) ∧
    ((List.range n).map (fun (i : Nat) => (i : Int) * (a * (i : Int) + c))).sum
      = a * ((List.range n).map (fun (i : Nat) => (i : Int) * (i : Int))).sum
        + c * ((List.range n).map (fun (i : Nat) => (i : Int))).sum := by
  induction n with
  | zero => simp
  | succ k ih =>
    obtain ⟨h1, h2⟩ := ih
    simp only [List.range_succ, List.map_append, List.map_cons, List.map_nil,
      List.sum_append, List.sum_cons, List.sum_nil, add_zero]
    push_cast
    constructor
    · linear_combination h1
    · linear_combination h2

/-- A bound on a product of integers. -/
theorem abs_mul_le_of (x y X Y : Int) (hx : |x| ≤ X) (hy : |y| ≤ Y) : |x * y| ≤ X * Y := by
  rw [abs_mul]
  exact mul_le_mul hx hy (abs_nonneg _) (le_trans (abs_nonneg _) hx)

/-- `linearReg64` on the points of a line with integer slope and intercept of magnitude at
most 1000, at 2 to 1000 positions: every sum and product is an integer below 2^53, exact
in binary64, and the slope and the intercept are returned. -/
theorem linearReg64_on_int_line (a c : Int) (n : Nat) (hn : 2 ≤ n) (hn1 : n ≤ 1000)
    (ha : |a| ≤ 1000) (hc : |c| ≤ 1000) :
    linearReg64 ((List.range n).map (fun (i : Nat) =>
        (float64.fin (((i : Int)) : ℚ), float64.fin ((a * (i : Int) + c : Int) : ℚ))))
      = (float64.fin (a : ℚ), float64.fin (c : ℚ)) := by
  have hnI : (n : Int) ≤ 1000 := by exact_mod_cast hn1
  have hn2 : (2 : Int) ≤ (n : Int) := by exact_mod_cast hn
  have hnabs : |(n : Int)| ≤ 1000 := by rw [abs_of_nonneg (by omega)]; exact hnI
  have hi : ∀ i ∈ List.range n, |((i : Nat) : Int)| ≤ 1000 := by
    intro i hi
    have := List.mem_range.mp hi
    rw [abs_of_nonneg (Int.natCast_nonneg i)]
    omega
  have hy : ∀ i ∈ List.range n, |a * ((i : Nat) : Int) + c| ≤ 1001000 := by
    intro i hi'
    have h1 := abs_mul_le_of a i 1000 1000 ha (hi i hi')
    have h2 := abs_add (a * (i : Int)) c
    linarith
  have hxy : ∀ i ∈ List.range n, |((i : Nat) : Int) * (a * (i : Int) + c)| ≤ 1001000000 := by
    intro i hi'
    have := abs_mul_le_of (i : Int) (a * (i : Int) + c) 1000 1001000 (hi i hi') (hy i hi')
    linarith
  have hxx : ∀ i ∈ List.range n, |((i : Nat) : Int) * (i : Int)| ≤ 1000000 := by
    intro i hi'
    have := abs_mul_le_of (i : Int) (i : Int) 1000 1000 (hi i hi') (hi i hi')
    linarith
  have hlen : ((List.range n).length : Int) = (n : Int) := by simp
  obtain ⟨sX, bX⟩ := float64.foldl_add_int (fun (i : Nat) => float64.fin (((i : Int)) : ℚ))
    (fun (i : Nat) => (i : Int)) 1000 (List.range n) 0 (fun _ _ => rfl) hi
    (by rw [hlen]; simp only [abs_zero]; nlinarith)
  obtain ⟨sY, bY⟩ := float64.foldl_add_int
    (fun (i : Nat) => float64.fin ((a * (i : Int) + c : Int) : ℚ))
    (fun (i : Nat) => a * (i : Int) + c) 1001000 (List.range n) 0 (fun _ _ => rfl) hy
    (by rw [hlen]; simp only [abs_zero]; nlinarith)
  obtain ⟨sXY, bXY⟩ := float64.foldl_add_int
    (fun (i : Nat) => float64.mul (float64.fin (((i : Int)) : ℚ))
      (float64.fin ((a * (i : Int) + c : Int) : ℚ)))
    (fun (i : Nat) => (i : Int) * (a * (i : Int) + c)) 1001000000 (List.range n) 0
    (fun i hi' => float64.mul_int _ _ (lt_of_le_of_lt (hxy i hi') (by norm_num))) hxy
    (by rw [hlen]; simp only [abs_zero]; nlinarith)
  obtain ⟨sXX, bXX⟩ := float64.foldl_add_int
    (fun (i : Nat) => float64.mul (float64.fin (((i : Int)) : ℚ))
      (float64.fin (((i : Int)) : ℚ)))
    (fun (i : Nat) => (i : Int) * (i : Int)) 1000000 (List.range n) 0
    (fun i hi' => float64.mul_int _ _ (lt_of_le_of_lt (hxx i hi') (by norm_num))) hxx
    (by rw [hlen]; simp only [abs_zero]; nlinarith)
  rw [hlen] at bX bY bXY bXX
  simp only [abs_zero, zero_add] at sX sY sXY sXX bX bY bXY bXX
  obtain ⟨hS1, hS2⟩ := int_range_sums n
  obtain ⟨hL1, hL2⟩ := int_line_sums a c n
  generalize hSX : ((List.range n).map (fun (i : Nat) => (i : Int))).sum = SX at *
  generalize hSXX : ((List.range n).map (fun (i : Nat) => (i : Int) * (i : Int))).sum = SXX at *
  generalize hSY : ((List.range n).map (fun (i : Nat) => a * (i : Int) + c)).sum = SY at *
  generalize hSXY : ((List.range n).map (fun (i : Nat) => (i : Int) * (a * (i : Int) + c))).sum
    = SXY at *
  have bX' : |SX| ≤ 1000000 := by nlinarith
  have bY' : |SY| ≤ 1001000000 := by nlinarith
  have bXY' : |SXY| ≤ 1001000000000 := by nlinarith
  have bXX' : |SXX| ≤ 1000000000 := by nlinarith
  have hD : 12 * ((n : Int) * SXX - SX * SX)
      = (n : Int) * (n : Int) * ((n : Int) - 1) * ((n : Int) + 1) := by
    linear_combination (2 * (n : Int)) * hS2 - (3 * (2 * SX + (n : Int) * ((n : Int) - 1))) * hS1
  have hDpos : 0 < (n : Int) * SXX - SX * SX := by
    have : 0 < (n : Int) * (n : Int) * ((n : Int) - 1) * ((n : Int) + 1) := by
      apply mul_pos (mul_pos (mul_pos _ _) _) _ <;> omega
    omega
  have hnum : (n : Int) * SXY - SX * SY = a * ((n : Int) * SXX - SX * SX) := by
    rw [hL1, hL2]; ring
  have hint : SY - a * SX = c * (n : Int) := by rw [hL1]; ring
  have b1 := abs_mul_le_of (n : Int) SXX 1000 1000000000 hnabs bXX'
  have b2 := abs_mul_le_of SX SX 1000000 1000000 bX' bX'
  have b3 := abs_mul_le_of (n : Int) SXY 1000 1001000000000 hnabs bXY'
  have b4 := abs_mul_le_of SX SY 1000000 1001000000 bX' bY'
  have b5 := abs_mul_le_of a SX 1000 1000000 ha bX'
  have b6 := abs_sub ((n : Int) * SXX) (SX * SX)
  have b7 := abs_sub ((n : Int) * SXY) (SX * SY)
  have b8 := abs_sub SY (a * SX)
  have hnF : float64.ofNat n = float64.fin (((n : Int)) : ℚ) :=
    float64.ofNat_eq n (by omega)
  have hne : float64.eq (float64.fin (((n : Int)) : ℚ)) (float64.fin 0) = false := by
    have : ((n : Int) : ℚ) ≠ 0 := by
      have : (n : Int) ≠ 0 := by omega
      exact_mod_cast this
    exact decide_eq_false this
  have hz : float64.fin (0 : ℚ) = float64.fin (((0 : Int)) : ℚ) := by simp
  unfold linearReg64
  simp only [List.length_map, List.length_range, List.foldl_map, hnF, hne, hz]
  simp only [Int.cast_zero] at sX sY sXY sXX
  simp only [Int.cast_zero]
  rw [sX, sY, sXY, sXX]
  have e1 := float64.mul_int (n : Int) SXX (by linarith)
  have e2 := float64.mul_int SX SX (by linarith)
  have e3 := float64.sub_int ((n : Int) * SXX) (SX * SX) (by
    have := abs_sub ((n : Int) * SXX) (SX * SX); linarith)
  have e4 := float64.mul_int (n : Int) SXY (by linarith)
  have e5 := float64.mul_int SX SY (by linarith)
  have e6 := float64.sub_int ((n : Int) * SXY) (SX * SY) (by
    have := abs_sub ((n : Int) * SXY) (SX * SY); linarith)
  have e7 := float64.div_int ((n : Int) * SXY - SX * SY) ((n : Int) * SXX - SX * SX) a
    (by omega) hnum (by linarith)
  have e8 := float64.mul_int a SX (by linarith)
  have e9 := float64.sub_int SY (a * SX) (by
    have := abs_sub SY (a * SX); linarith)
  have e10 := float64.div_int (SY - a * SX) (n : Int) c (by omega) hint (by linarith)
  have hdne : float64.eq (float64.fin ((((n : Int) * SXX - SX * SX : Int)) : ℚ))
      (float64.fin 0) = false := by
    have : ((((n : Int) * SXX - SX * SX : Int)) : ℚ) ≠ 0 := by
      have : (n : Int) * SXX - SX * SX ≠ 0 := by omega
      exact_mod_cast this
    exact decide_eq_false this
  rw [e1, e2, e3, hdne]
  simp only [Bool.false_eq_true, if_false]
  rw [e4, e5, e6, e7, e8, e9, e10]
  simp only [hne, Bool.false_eq_true, if_false]


/-- The regression data of a bucket whose loads lie on an integer line. -/
theorem regressionPoints64_on_line (loads : List float64) (a c : Int)
    (hn1 : loads.length ≤ 1000)
    (hline : ∀ (i : Nat) (hi : i < loads.length),
      loads[i] = float64.fin ((a * (i : Int) + c : Int) : ℚ)) :
    regressionPoints64 loads = (List.range loads.length).map (fun (i : Nat) =>
      (float64.fin (((i : Int)) : ℚ), float64.fin ((a * (i : Int) + c : Int) : ℚ))) := by
  unfold regressionPoints64
  apply List.ext_getElem
  · simp
  · intro i h1 h2
    have hi : i < loads.length := by simpa using h1
    simp only [List.getElem_map, List.getElem_enum, List.getElem_range]
    rw [hline i hi, float64.ofNat_eq i (by omega)]

/-- The regression of a bucket of 2 to 1000 loads on a line with integer slope and
intercept of magnitude at most 1000, and its prediction for the next position. -/
theorem regression64_on_line (loads : List float64) (a c : Int)
    (hn : 2 ≤ loads.length) (hn1 : loads.length ≤ 1000) (ha : |a| ≤ 1000) (hc : |c| ≤ 1000)
    (hline : ∀ (i : Nat) (hi : i < loads.length),
      loads[i] = float64.fin ((a * (i : Int) + c : Int) : ℚ)) :
    linearReg64 (regressionPoints64 loads) = (float64.fin (a : ℚ), float64.fin (c : ℚ)) ∧
      predictNext64 loads = float64.fin ((a * (loads.length : Int) + c : Int) : ℚ) := by
  have hreg : linearReg64 (regressionPoints64 loads)
      = (float64.fin (a : ℚ), float64.fin (c : ℚ)) := by
    rw [regressionPoints64_on_line loads a c hn1 hline]
    exact linearReg64_on_int_line a c loads.length hn hn1 ha hc
  refine ⟨hreg, ?_⟩
  have hnI : (loads.length : Int) ≤ 1000 := by exact_mod_cast hn1
  have hnabs : |(loads.length : Int)| ≤ 1000 := by
    rw [abs_of_nonneg (Int.natCast_nonneg _)]; exact hnI
  have b1 := abs_mul_le_of a (loads.length : Int) 1000 1000 ha hnabs
  have b2 := abs_add (a * (loads.length : Int)) c
  unfold predictNext64
  rw [hreg, float64.ofNat_eq loads.length (by omega)]
  simp only []
  rw [float64.mul_int a (loads.length : Int) (by linarith),
    float64.add_int (a * (loads.length : Int)) c (by linarith)]

/-- C20, as stated, fails: the loads 0.1 and 0.2 (the binary64 values nearest to them) lie
exactly on the line y = a·i + c with a = c = 0.1, and `linearReg64` returns the slope
0.09999999999999998 and the intercept 0.10000000000000003, neither of which is 0.1: the
sum 0.1 + 0.2 is rounded. -/
theorem regression_misses_line :
    float64.ofRat (1 / 10) = float64.fin (3602879701896397 / 36028797018963968) ∧
    float64.ofRat (2 / 10) = float64.fin (3602879701896397 / 18014398509481984) ∧
    ((3602879701896397 / 36028797018963968) : ℚ) = (3602879701896397 / 36028797018963968) * 0 + (3602879701896397 / 36028797018963968) ∧
    ((3602879701896397 / 18014398509481984) : ℚ) = (3602879701896397 / 36028797018963968) * 1 + (3602879701896397 / 36028797018963968) ∧
    linearReg64 (regressionPoints64
        [float64.fin (3602879701896397 / 36028797018963968), float64.fin (3602879701896397 / 18014398509481984)])
      = (float64.fin (900719925474099 / 9007199254740992), float64.fin (1801439850948199 / 18014398509481984)) ∧
    ((900719925474099 / 9007199254740992) : ℚ) ≠ (3602879701896397 / 36028797018963968) ∧
    ((1801439850948199 / 18014398509481984) : ℚ) ≠ (3602879701896397 / 36028797018963968) := by
  have hpts : regressionPoints64
      [float64.fin (3602879701896397 / 36028797018963968), float64.fin (3602879701896397 / 18014398509481984)]
      = [(float64.fin 0, float64.fin (3602879701896397 / 36028797018963968)),
         (float64.fin 1, float64.fin (3602879701896397 / 18014398509481984))] := by
    have h0 : float64.ofNat 0 = float64.fin 0 := by
      have := float64.ofNat_eq 0 (by norm_num)
      simpa using this
    have h1 : float64.ofNat 1 = float64.fin 1 := by
      have := float64.ofNat_eq 1 (by norm_num)
      simpa using this
    simp only [regressionPoints64, List.enum, List.enumFrom, List.map, zero_add, h0, h1]
  have hn : float64.ofNat 2 = float64.fin 2 := by
    have := float64.ofNat_eq 2 (by norm_num)
    simpa using this
  have hne : float64.eq (float64.fin 2) (float64.fin 0) = false := by
    simp [float64.eq]
  have hde : float64.eq (float64.fin 1) (float64.fin 0) = false := by
    simp [float64.eq]
  have o1 : float64.add (float64.fin 0) (float64.fin 0)
      = float64.fin 0 := by
    rw [float64.add_fin]
    norm_num [float64.ofRat_zero]
  have o2 : float64.add (float64.fin 0) (float64.fin 1)
      = float64.fin 1 := by
    rw [float64.add_fin]
    exact float64.ofRat_eq_of_lt _ _ (0) (4503599627370496) (by norm_num) (by norm_num [abs_of_pos])
        (by norm_num [abs_of_pos]) (by norm_num [abs_lt]) (by norm_num)
        (by norm_num [abs_of_pos, abs_of_neg])
  have o3 : float64.add (float64.fin 0) (float64.fin (3602879701896397 / 36028797018963968))
      = float64.fin (3602879701896397 / 36028797018963968) := by
    rw [float64.add_fin]
    exact float64.ofRat_eq_of_lt _ _ (-4) (7205759403792794) (by norm_num) (by norm_num [abs_of_pos])
        (by norm_num [abs_of_pos]) (by norm_num [abs_lt]) (by norm_num)
        (by norm_num [abs_of_pos, abs_of_neg])
  have o4 : float64.add (float64.fin (3602879701896397 / 36028797018963968)) (float64.fin (3602879701896397 / 18014398509481984))
      = float64.fin (1351079888211149 / 4503599627370496) := by
    rw [float64.add_fin]
    exact float64.ofRat_eq_of_half _ _ (-2) (5404319552844595) (by norm_num) (by norm_num [abs_of_pos])
        (by norm_num [abs_of_pos]) (by norm_num) (by norm_num)
        (by norm_num [abs_of_pos, abs_of_neg])
  have o5 : float64.mul (float64.fin 0) (float64.fin (3602879701896397 / 36028797018963968))
      = float64.fin 0 := by
    rw [float64.mul_fin]
    norm_num [float64.ofRat_zero]
  have o6 : float64.mul (float64.fin 1) (float64.fin (3602879701896397 / 18014398509481984))
      = float64.fin (3602879701896397 / 18014398509481984) := by
    rw [float64.mul_fin]
    exact float64.ofRat_eq_of_lt _ _ (-3) (7205759403792794) (by norm_num) (by norm_num [abs_of_pos])
        (by norm_num [abs_of_pos]) (by norm_num [abs_lt]) (by norm_num)
        (by norm_num [abs_of_pos, abs_of_neg])
  have o7 : float64.add (float64.fin 0) (float64.fin (3602879701896397 / 18014398509481984))
      = float64.fin (3602879701896397 / 18014398509481984) := by
    rw [float64.add_fin]
    exact float64.ofRat_eq_of_lt _ _ (-3) (7205759403792794) (by norm_num) (by norm_num [abs_of_pos])
        (by norm_num [abs_of_pos]) (by norm_num [abs_lt]) (by norm_num)
        (by norm_num [abs_of_pos, abs_of_neg])
  have o8 : float64.mul (float64.fin 0) (float64.fin 0)
      = float64.fin 0 := by
    rw [float64.mul_fin]
    norm_num [float64.ofRat_zero]
  have o9 : float64.mul (float64.fin 1) (float64.fin 1)
      = float64.fin 1 := by
    rw [float64.mul_fin]
    exact float64.ofRat_eq_of_lt _ _ (0) (4503599627370496) (by norm_num) (by norm_num [abs_of_pos])
        (by norm_num [abs_of_pos]) (by norm_num [abs_lt]) (by norm_num)
        (by norm_num [abs_of_pos, abs_of_neg])
  have o10 : float64.mul (float64.fin 2) (float64.fin 1)
      = float64.fin 2 := by
    rw [float64.mul_fin]
    exact float64.ofRat_eq_of_lt _ _ (1) (4503599627370496) (by norm_num) (by norm_num [abs_of_pos])
        (by norm_num [abs_of_pos]) (by norm_num [abs_lt]) (by norm_num)
        (by norm_num [abs_of_pos, abs_of_neg])
  have o11 : float64.sub (float64.fin 2) (float64.fin 1)
      = float64.fin 1 := by
    rw [float64.sub_fin]
    exact float64.ofRat_eq_of_lt _ _ (0) (4503599627370496) (by norm_num) (by norm_num [abs_of_pos])
        (by norm_num [abs_of_pos]) (by norm_num [abs_lt]) (by norm_num)
        (by norm_num [abs_of_pos, abs_of_neg])
  have o12 : float64.mul (float64.fin 2) (float64.fin (3602879701896397 / 18014398509481984))
      = float64.fin (3602879701896397 / 9007199254740992) := by
    rw [float64.mul_fin]
    exact float64.ofRat_eq_of_lt _ _ (-2) (7205759403792794) (by norm_num) (by norm_num [abs_of_pos])
        (by norm_num [abs_of_pos]) (by norm_num [abs_lt]) (by norm_num)
        (by norm_num [abs_of_pos, abs_of_neg])
  have o13 : float64.mul (float64.fin 1) (float64.fin (1351079888211149 / 4503599627370496))
      = float64.fin (1351079888211149 / 4503599627370496) := by
    rw [float64.mul_fin]
    exact float64.ofRat_eq_of_lt _ _ (-2) (5404319552844596) (by norm_num) (by norm_num [abs_of_pos])
        (by norm_num [abs_of_pos]) (by norm_num [abs_lt]) (by norm_num)
        (by norm_num [abs_of_pos, abs_of_neg])
  have o14 : float64.sub (float64.fin (3602879701896397 / 9007199254740992)) (float64.fin (1351079888211149 / 4503599627370496))
      = float64.fin (900719925474099 / 9007199254740992) := by
    rw [float64.sub_fin]
    exact float64.ofRat_eq_of_lt _ _ (-4) (7205759403792792) (by norm_num) (by norm_num [abs_of_pos])
        (by norm_num [abs_of_pos]) (by norm_num [abs_lt]) (by norm_num)
        (by norm_num [abs_of_pos, abs_of_neg])
  have o15 : float64.div (float64.fin (900719925474099 / 9007199254740992)) (float64.fin 1)
      = float64.fin (900719925474099 / 9007199254740992) := by
    rw [float64.div_fin _ _ (by norm_num)]
    exact float64.ofRat_eq_of_lt _ _ (-4) (7205759403792792) (by norm_num) (by norm_num [abs_of_pos])
        (by norm_num [abs_of_pos]) (by norm_num [abs_lt]) (by norm_num)
        (by norm_num [abs_of_pos, abs_of_neg])
  have o16 : float64.mul (float64.fin (900719925474099 / 9007199254740992)) (float64.fin 1)
      = float64.fin (900719925474099 / 9007199254740992) := by
    rw [float64.mul_fin]
    exact float64.ofRat_eq_of_lt _ _ (-4) (7205759403792792) (by norm_num) (by norm_num [abs_of_pos])
        (by norm_num [abs_of_pos]) (by norm_num [abs_lt]) (by norm_num)
        (by norm_num [abs_of_pos, abs_of_neg])
  have o17 : float64.sub (float64.fin (1351079888211149 / 4503599627370496)) (float64.fin (900719925474099 / 9007199254740992))
      = float64.fin (1801439850948199 / 9007199254740992) := by
    rw [float64.sub_fin]
    exact float64.ofRat_eq_of_lt _ _ (-3) (7205759403792796) (by norm_num) (by norm_num [abs_of_pos])
        (by norm_num [abs_of_pos]) (by norm_num [abs_lt]) (by norm_num)
        (by norm_num [abs_of_pos, abs_of_neg])
  have o18 : float64.div (float64.fin (1801439850948199 / 9007199254740992)) (float64.fin 2)
      = float64.fin (1801439850948199 / 18014398509481984) := by
    rw [float64.div_fin _ _ (by norm_num)]
    exact float64.ofRat_eq_of_lt _ _ (-4) (7205759403792796) (by norm_num) (by norm_num [abs_of_pos])
        (by norm_num [abs_of_pos]) (by norm_num [abs_lt]) (by norm_num)
        (by norm_num [abs_of_pos, abs_of_neg])
  refine ⟨?_, ?_, by norm_num, by norm_num, ?_, by norm_num, by norm_num⟩
  · exact float64.ofRat_eq_of_lt _ _ (-4) (7205759403792794) (by norm_num) (by norm_num [abs_of_pos])
        (by norm_num [abs_of_pos]) (by norm_num [abs_lt]) (by norm_num)
        (by norm_num [abs_of_pos, abs_of_neg])
  · exact float64.ofRat_eq_of_lt _ _ (-3) (7205759403792794) (by norm_num) (by norm_num [abs_of_pos])
        (by norm_num [abs_of_pos]) (by norm_num [abs_lt]) (by norm_num)
        (by norm_num [abs_of_pos, abs_of_neg])
  · rw [hpts]
    unfold linearReg64
    simp only [List.length_cons, List.length_nil, zero_add, Nat.reduceAdd, List.foldl_cons,
      List.foldl_nil, hn, hne, Bool.false_eq_true, if_false]
    simp only [o1, o2, o3, o4, o5, o6, o7, o8, o9, o10, o11, o12, o13, o14, o15, o16, o17, o18, hde, Bool.false_eq_true, if_false]

/-- C20 (amended): for every bucket of 2 to 1000 samples whose loads lie exactly on a line
y = a·i + c in the 0-indexed position i, with integers a and c of magnitude at most 1000
(every sum and product is then an integer below 2^53, exact in binary64), `linearReg64`
returns slope a and intercept c and the unclamped prediction at x = n is a·n + c; in
particular the loads 10, 20, 30 give slope 10, intercept 10 and the prediction 40 at
x = 3. -/
theorem regression_recovers_line (loads : List float64) (a c : Int)
    (hn : 2 ≤ loads.length) (hn1 : loads.length ≤ 1000) (ha : |a| ≤ 1000) (hc : |c| ≤ 1000)
    (hline : ∀ (i : Nat) (hi : i < loads.length),
      loads[i] = float64.fin ((a * (i : Int) + c : Int) : ℚ)) :
    (linearReg64 (regressionPoints64 loads) = (float64.fin (a : ℚ), float64.fin (c : ℚ)) ∧
      predictNext64 loads = float64.fin ((a * (loads.length : Int) + c : Int) : ℚ)) ∧
    linearReg64 (regressionPoints64 [float64.fin 10, float64.fin 20, float64.fin 30])
      = (float64.fin 10, float64.fin 10) ∧
    predictNext64 [float64.fin 10, float64.fin 20, float64.fin 30] = float64.fin 40 := by
  have hspec := regression64_on_line [float64.fin 10, float64.fin 20, float64.fin 30] 10 10
    (by decide) (by decide) (by decide) (by decide)
    (fun i hi => by
      have h3 : i < 3 := hi
      interval_cases i <;> norm_num)
  refine ⟨regression64_on_line loads a c hn hn1 ha hc hline, ?_, ?_⟩
  · rw [hspec.1]
    norm_num
  · rw [hspec.2]
    norm_num

/-- C20 (amended) at the bucket of the spec: the loads 10, 20, 30. -/
theorem regression_recovers_line_witness :
    (linearReg64 (regressionPoints64 [float64.fin 10, float64.fin 20, float64.fin 30])
        = (float64.fin ((10 : Int) : ℚ), float64.fin ((10 : Int) : ℚ)) ∧
      predictNext64 [float64.fin 10, float64.fin 20, float64.fin 30]
        = float64.fin ((10 * (([float64.fin 10, float64.fin 20, float64.fin 30] :
            List float64).length : Int) + 10 : Int) : ℚ)) ∧
    linearReg64 (regressionPoints64 [float64.fin 10, float64.fin 20, float64.fin 30])
      = (float64.fin 10, float64.fin 10) ∧
    predictNext64 [float64.fin 10, float64.fin 20, float64.fin 30] = float64.fin 40 :=
  regression_recovers_line [float64.fin 10, float64.fin 20, float64.fin 30] 10 10
    (by decide) (by decide) (by decide) (by decide)
    (fun i hi => by
      have h3 : i < 3 := hi
      interval_cases i <;> norm_num)

/-! ## Booking against pricing -/

/-- The bonus of a lookup is never negative. -/
theorem bonusOf_nonneg (l : Option (List Campaign)) : 0 ≤ bonusOf l := by
  unfold bonusOf
  split
  · split <;> omega
  · exact le_refl 0

/-- The coins of a slot are the 32-bit sum of the base reward and the bonus of the
lookup. -/
theorem timeSlot_coins_bonus (tl : TimeLib) (f : Faults) (db : DB) (clock : Clock)
    (station : Station) (stationID : Int) (r : float64) (d : Int) (hour : Int) :
    (timeSlot tl f db clock station stationID (activeCampaignOf f clock.now db stationID)
        r d hour).Coins =
      wrap32 ((if isGreenHour hour then 50 else 10) +
        bonusOf (GetActiveCampaignsForStation f clock.now db (some stationID))) := by
  have hbase : ∀ b : Bool, wrap32 ((if b then 50 else 10) + 0) = (if b then 50 else 10) := by
    intro b; cases b <;> decide
  rw [timeSlot_coins]
  unfold activeCampaignOf
  cases GetActiveCampaignsForStation f clock.now db (some stationID) with
  | none => simp only [List.head?_nil, bonusOf, hbase]
  | some cs =>
    cases cs with
    | nil => simp only [List.head?_nil, bonusOf, hbase]
    | cons c cs =>
      by_cases hc : 0 < c.CoinReward
      · simp only [List.head?_cons, bonusOf, gt_iff_lt, hc, if_true]
      · simp only [List.head?_cons, bonusOf, gt_iff_lt, hc, if_false, hbase]

/-- C29: pricing and booking agree on the reward. For every existing station, every
outcome of the campaign lookup and every hour `h` in 0..23, the coins of slot `h` returned
by `GetStation` equal the earned coins that `Create` stores for a valid request on the same
station with `IsGreen = isGreenHour h` under the same lookup. -/
theorem slot_coins_equal_earned_coins (tl : TimeLib) (f : Faults) (db : DB) (clock : Clock)
    (stationID userID : Int) (station : Station) (req : CreateReservationRequest)
    (t : Int) (h : Nat)
    (hst : GetStationByID f db stationID = some station) (hh : h < 24)
    (hreq : req.StationID = stationID) (hgreen : req.IsGreen = isGreenHour (h : Int))
    (hdate : parseDate tl req.Date = some t) (hins : f.createReservation = false) :
    ∃ resp row, GetStation tl f db clock stationID = .ok resp ∧
      Create tl f clock.now db userID req =
        (.ok (reservationToResponse tl row),
         { db with reservations := db.reservations ++ [row],
                   nextReservationID := db.nextReservationID + 1 }) ∧
      resp.Slots[h]?.map TimeSlot.Coins = some row.EarnedCoins := by
  obtain ⟨resp, hok, hslots⟩ := GetStation_slots tl f db clock stationID station hst
  refine ⟨resp, _, hok, Create_eq tl f clock.now db userID req t hdate hins, ?_⟩
  rw [hslots, slots_getElem? _ h hh]
  simp only [Option.map_some', timeSlot_coins_bonus, hreq, hgreen]

/-- C29 at `dbHarbor`: the green slot of hour 0 and a green booking, 75 coins each. -/
theorem slot_coins_equal_earned_coins_witness :
    ∃ resp row, GetStation tlUnix Faults.none dbHarbor clockMonday 3 = .ok resp ∧
      Create tlUnix Faults.none clockMonday.now dbHarbor 7 reqGreen =
        (.ok (reservationToResponse tlUnix row),
         { dbHarbor with reservations := dbHarbor.reservations ++ [row],
                         nextReservationID := dbHarbor.nextReservationID + 1 }) ∧
      resp.Slots[0]?.map TimeSlot.Coins = some row.EarnedCoins :=
  slot_coins_equal_earned_coins tlUnix Faults.none dbHarbor clockMonday 3 7 stationHarbor
    reqGreen 0 0 (by decide) (by decide) (by decide) (by decide) rfl rfl

/-- C30: `Create` takes the green flag from the request and never checks it against the
hour. Two valid requests on the same station and state that differ only in the hour label
and the date are stored with equal earned coins, each under its own hour label; and the
request `reqNoonGreen`, flagged green for "12:00" (not a green hour), is stored with the
green base reward of 50. -/
theorem Create_ignores_hour (tl : TimeLib) (f : Faults) (now : Int) (db : DB)
    (userID : Int) (req1 req2 : CreateReservationRequest) (t1 t2 : Int)
    (hstation : req1.StationID = req2.StationID) (hflag : req1.IsGreen = req2.IsGreen)
    (hdate1 : parseDate tl req1.Date = some t1) (hdate2 : parseDate tl req2.Date = some t2)
    (hins : f.createReservation = false) :
    (∃ row1 row2,
      Create tl f now db userID req1 =
        (.ok (reservationToResponse tl row1),
         { db with reservations := db.reservations ++ [row1],
                   nextReservationID := db.nextReservationID + 1 }) ∧
      Create tl f now db userID req2 =
        (.ok (reservationToResponse tl row2),
         { db with reservations := db.reservations ++ [row2],
                   nextReservationID := db.nextReservationID + 1 }) ∧
      row1.EarnedCoins = row2.EarnedCoins ∧
      row1.Hour = req1.Hour ∧ row2.Hour = req2.Hour ∧
      row1.IsGreen = req1.IsGreen ∧ row2.IsGreen = req2.IsGreen) ∧
    isGreenHour 12 = false ∧
    (Create tlUnix Faults.none 0 dbEmpty 7 reqNoonGreen).2.reservations.map
      Reservation.Hour = ["12:00"] ∧
    (Create tlUnix Faults.none 0 dbEmpty 7 reqNoonGreen).2.reservations.map
      Reservation.EarnedCoins = [50] := by
  refine ⟨⟨_, _, Create_eq tl f now db userID req1 t1 hdate1 hins,
    Create_eq tl f now db userID req2 t2 hdate2 hins, ?_, rfl, rfl, rfl, rfl⟩,
    by decide, by decide, by decide⟩
  simp only [hstation, hflag]

/-- C30 at `dbEmpty`: the green booking of 23:00 and the green booking of noon. -/
theorem Create_ignores_hour_witness :
    (∃ row1 row2,
      Create tlUnix Faults.none 0 dbEmpty 7 reqGreen =
        (.ok (reservationToResponse tlUnix row1),
         { dbEmpty with reservations := dbEmpty.reservations ++ [row1],
                        nextReservationID := dbEmpty.nextReservationID + 1 }) ∧
      Create tlUnix Faults.none 0 dbEmpty 7 reqNoonGreen =
        (.ok (reservationToResponse tlUnix row2),
         { dbEmpty with reservations := dbEmpty.reservations ++ [row2],
                        nextReservationID := dbEmpty.nextReservationID + 1 }) ∧
      row1.EarnedCoins = row2.EarnedCoins ∧
      row1.Hour = reqGreen.Hour ∧ row2.Hour = reqNoonGreen.Hour ∧
      row1.IsGreen = reqGreen.IsGreen ∧ row2.IsGreen = reqNoonGreen.IsGreen) ∧
    isGreenHour 12 = false ∧
    (Create tlUnix Faults.none 0 dbEmpty 7 reqNoonGreen).2.reservations.map
      Reservation.Hour = ["12:00"] ∧
    (Create tlUnix Faults.none 0 dbEmpty 7 reqNoonGreen).2.reservations.map
      Reservation.EarnedCoins = [50] :=
  Create_ignores_hour tlUnix Faults.none 0 dbEmpty 7 reqGreen reqNoonGreen 0 0
    (by decide) (by decide) rfl rfl rfl

/-! ## Monotonic counters -/

/-- The settlement of a reservation made by `Create`, after any run of requests: the
user who booked is credited the earned coins returned by `Create`, which are the 32-bit
sum of the base reward and the bonus of the lookup at creation. -/
theorem created_then_settled (tl tl2 : TimeLib) (f f2 : Faults)
    (now : Int) (db0 db1 db3 : DB) (userID : Int) (req : CreateReservationRequest)
    (resp : ReservationResponse) (ops : List Op) (cr : CompleteResponse)
    (hfresh : ∀ x ∈ db0.reservations, x.ID ≠ db0.nextReservationID)
    (hcreate : Create tl f now db0 userID req = (.ok resp, db1))
    (hcomplete : Complete tl2 f2 (run ops ⟨db1, []⟩).db resp.ID = (.ok cr, db3)) :
    db3.users = (run ops ⟨db1, []⟩).db.users.map (fun x =>
        if x.ID = userID then
          x.addStats resp.EarnedCoins (if req.IsGreen then 5 / 2 else 1 / 2) 100
        else x) ∧
      resp.EarnedCoins = wrap32 ((if req.IsGreen then 50 else 10) +
        bonusOf (GetActiveCampaignsForStation f now db0 (some req.StationID))) := by
  cases hd : parseDate tl req.Date with
  | none => simp [Create, hd] at hcreate
  | some t =>
    cases hi : f.createReservation with
    | true => simp [Create, hd, CreateReservation, hi] at hcreate
    | false =>
      have h := Create_eq tl f now db0 userID req t hd hi
      rw [hcreate] at h
      obtain ⟨h1, h2⟩ := Prod.mk.inj h
      have h1 := Except.ok.inj h1
      have hnone : db0.reservations.find?
          (fun y => decide (y.ID = db0.nextReservationID)) = none := by
        rw [List.find?_eq_none]
        intro x hx
        simpa using hfresh x hx
      have hid : resp.ID = db0.nextReservationID := by rw [h1]; rfl
      have hfind : (World.mk db1 []).db.reservations.find?
          (fun y => decide (y.ID = resp.ID)) = some
            ⟨db0.nextReservationID, userID, req.StationID, some t, req.Hour, req.IsGreen,
             wrap32 ((if req.IsGreen then 50 else 10) +
               bonusOf (GetActiveCampaignsForStation f now db0 (some req.StationID))),
             0, reservationStatusDefault⟩ := by
        rw [h2, hid]
        simp only [List.find?_append, hnone]
        simp [List.find?]
      obtain ⟨x1, hx1, he, hu, hg⟩ := lookup_run ops ⟨db1, []⟩ resp.ID _ hfind
      obtain ⟨r, u, hread, hst, huser, hb, hc, hs, hcm⟩ :=
        Complete_ok_steps tl2 f2 _ resp.ID cr db3 hcomplete
      obtain ⟨hrf, hrfind, _⟩ := GetReservationByID_some hread
      have hrx : r = x1 := by rw [hx1] at hrfind; exact (Option.some.inj hrfind).symm
      subst hrx
      have hE : r.EarnedCoins = resp.EarnedCoins := by rw [he, h1]; rfl
      simp only [] at hu hg
      have heq := Complete_eq_of_steps tl2 f2 _ resp.ID r u hread hst huser hb hc hs hcm
      rw [hcomplete] at heq
      obtain ⟨hcr, hdb3⟩ := Prod.mk.inj heq
      constructor
      · rw [hdb3]
        simp only [hu, hE, hg]
      · rw [h1]; rfl

/-- C25, as stated, fails: with the active campaign `campaignJackpot` (coin reward
2147483647, a 32-bit value) a green booking made by `Create` earns -2147483599 coins, and
the successful `Complete` of it takes the user from 0 coins to -2147483599 coins. -/
theorem settlement_decreases_coins :
    (run [Op.create tlUnix Faults.none 0 7 reqGreen] ⟨dbJackpot, []⟩).db.reservations.map
        Reservation.EarnedCoins = [-2147483599] ∧
      (run [Op.create tlUnix Faults.none 0 7 reqGreen] ⟨dbJackpot, []⟩).db.users.map
        User.Coins = [0] ∧
      (run [Op.create tlUnix Faults.none 0 7 reqGreen, Op.complete tlUnix Faults.none 1]
        ⟨dbJackpot, []⟩).ledger.length = 1 ∧
      (run [Op.create tlUnix Faults.none 0 7 reqGreen, Op.complete tlUnix Faults.none 1]
        ⟨dbJackpot, []⟩).db.users.map User.Coins = [-2147483599] := by
  decide

/-- The bonus of a lookup whose first campaign has a 32-bit reward is a 32-bit value. -/
theorem bonusOf_int32 (l : Option (List Campaign))
    (h : ∀ c cs, l = some (c :: cs) → isInt32 c.CoinReward) :
    bonusOf l ≤ 2147483647 := by
  unfold bonusOf
  split
  · rename_i c cs
    have := (h c cs rfl).2
    split <;> omega
  · decide

/-- C25 (amended): for every reservation created through `Create` (campaign rewards
representable in 32 bits) a successful `Complete`, after any run of requests, credits the
user who booked with exactly the stored earned coins. When the sum of the base reward (50
green, 10 otherwise) and the bonus fits 32 bits, that is at most 2147483647, the earned
coins are this sum, at least 10, and the coins, co2 and xp of every user are greater than
or equal to their values before the call. When the sum exceeds 2147483647 it wraps: the
earned coins are the sum minus 4294967296, a negative delta. -/
theorem settlement_is_monotonic (tl tl2 : TimeLib) (f f2 : Faults)
    (now : Int) (db0 db1 db3 : DB) (userID : Int) (req : CreateReservationRequest)
    (resp : ReservationResponse) (ops : List Op) (cr : CompleteResponse)
    (hfresh : ∀ x ∈ db0.reservations, x.ID ≠ db0.nextReservationID)
    (hint32 : ∀ c cs, GetActiveCampaignsForStation f now db0 (some req.StationID)
      = some (c :: cs) → isInt32 c.CoinReward)
    (hcreate : Create tl f now db0 userID req = (.ok resp, db1))
    (hcomplete : Complete tl2 f2 (run ops ⟨db1, []⟩).db resp.ID = (.ok cr, db3)) :
    db3.users = (run ops ⟨db1, []⟩).db.users.map (fun x =>
        if x.ID = userID then
          x.addStats resp.EarnedCoins (if req.IsGreen then 5 / 2 else 1 / 2) 100
        else x) ∧
      ((if req.IsGreen then 50 else 10) +
          bonusOf (GetActiveCampaignsForStation f now db0 (some req.StationID)) ≤ 2147483647 →
        resp.EarnedCoins = (if req.IsGreen then 50 else 10) +
          bonusOf (GetActiveCampaignsForStation f now db0 (some req.StationID)) ∧
        10 ≤ resp.EarnedCoins ∧
        List.Forall₂ (fun u v => v.ID = u.ID ∧ u.Coins ≤ v.Coins ∧
          u.Co2Saved ≤ v.Co2Saved ∧ u.Xp ≤ v.Xp) (run ops ⟨db1, []⟩).db.users db3.users) ∧
      (2147483647 < (if req.IsGreen then 50 else 10) +
          bonusOf (GetActiveCampaignsForStation f now db0 (some req.StationID)) →
        resp.EarnedCoins = (if req.IsGreen then 50 else 10) +
          bonusOf (GetActiveCampaignsForStation f now db0 (some req.StationID))
            - 4294967296 ∧
        resp.EarnedCoins < 0) := by
  obtain ⟨husers, hearned⟩ := created_then_settled tl tl2 f f2 now db0 db1 db3 userID req
    resp ops cr hfresh hcreate hcomplete
  have h0 := bonusOf_nonneg (GetActiveCampaignsForStation f now db0 (some req.StationID))
  have h1 := bonusOf_int32 (GetActiveCampaignsForStation f now db0 (some req.StationID)) hint32
  refine ⟨husers, ?_, ?_⟩
  · intro hfit
    have hsum : resp.EarnedCoins = (if req.IsGreen then 50 else 10) +
        bonusOf (GetActiveCampaignsForStation f now db0 (some req.StationID)) := by
      rw [hearned]
      unfold wrap32
      cases hg : req.IsGreen <;> simp only [hg] at hfit ⊢ <;> simp at hfit ⊢ <;> omega
    have h10 : 10 ≤ resp.EarnedCoins := by
      rw [hsum]
      cases req.IsGreen <;> simp <;> omega
    refine ⟨hsum, h10, ?_⟩
    rw [husers, List.forall₂_map_right_iff]
    apply List.forall₂_same.mpr
    intro u _
    by_cases hu : u.ID = userID
    · simp only [hu, if_true, User.addStats]
      refine ⟨trivial, by omega, ?_, by omega⟩
      cases req.IsGreen <;> norm_num
    · simp only [hu, if_false]
      exact ⟨trivial, le_refl _, le_refl _, le_refl _⟩
  · intro hover
    have hsum : resp.EarnedCoins = (if req.IsGreen then 50 else 10) +
        bonusOf (GetActiveCampaignsForStation f now db0 (some req.StationID))
          - 4294967296 := by
      rw [hearned]
      unfold wrap32
      cases hg : req.IsGreen <;> simp only [hg] at hover ⊢ <;> simp at hover ⊢ <;> omega
    refine ⟨hsum, ?_⟩
    rw [hsum]
    cases req.IsGreen <;> simp <;> omega

/-- C25 (amended) at the booking of `dbSpring` (bonus 25). -/
theorem settlement_is_monotonic_witness :
    (Complete tlUnix Faults.none (run [Op.setCampaigns []] ⟨dbSpringBooked, []⟩).db
          (reservationToResponse tlUnix resSpring).ID).2.users
        = (run [Op.setCampaigns []] ⟨dbSpringBooked, []⟩).db.users.map (fun x =>
          if x.ID = 7 then
            x.addStats (reservationToResponse tlUnix resSpring).EarnedCoins
              (if reqGreen.IsGreen then 5 / 2 else 1 / 2) 100
          else x) ∧
      ((if reqGreen.IsGreen then 50 else 10) +
          bonusOf (GetActiveCampaignsForStation Faults.none 0 dbSpring
            (some reqGreen.StationID)) ≤ 2147483647 →
        (reservationToResponse tlUnix resSpring).EarnedCoins =
          (if reqGreen.IsGreen then 50 else 10) +
            bonusOf (GetActiveCampaignsForStation Faults.none 0 dbSpring
              (some reqGreen.StationID)) ∧
        10 ≤ (reservationToResponse tlUnix resSpring).EarnedCoins ∧
        List.Forall₂ (fun u v => v.ID = u.ID ∧ u.Coins ≤ v.Coins ∧
          u.Co2Saved ≤ v.Co2Saved ∧ u.Xp ≤ v.Xp)
          (run [Op.setCampaigns []] ⟨dbSpringBooked, []⟩).db.users
          (Complete tlUnix Faults.none (run [Op.setCampaigns []] ⟨dbSpringBooked, []⟩).db
            (reservationToResponse tlUnix resSpring).ID).2.users) ∧
      (2147483647 < (if reqGreen.IsGreen then 50 else 10) +
          bonusOf (GetActiveCampaignsForStation Faults.none 0 dbSpring
            (some reqGreen.StationID)) →
        (reservationToResponse tlUnix resSpring).EarnedCoins =
          (if reqGreen.IsGreen then 50 else 10) +
            bonusOf (GetActiveCampaignsForStation Faults.none 0 dbSpring
              (some reqGreen.StationID)) - 4294967296 ∧
        (reservationToResponse tlUnix resSpring).EarnedCoins < 0) :=
  settlement_is_monotonic tlUnix tlUnix Faults.none Faults.none 0
    dbSpring dbSpringBooked _ 7 reqGreen (reservationToResponse tlUnix resSpring)
    [Op.setCampaigns []]
    (match (Complete tlUnix Faults.none (run [Op.setCampaigns []] ⟨dbSpringBooked, []⟩).db
        (reservationToResponse tlUnix resSpring).ID).1 with
      | .ok c => c
      | .error _ => ⟨reservationToResponse tlUnix resSpring, ⟨0, 0, 0, 0⟩⟩)
    (by decide)
    (fun c cs h => by
      have h1 : some [campaignSpring] = some (c :: cs) := h
      have h2 : c = campaignSpring := by
        injection h1 with h1
        injection h1 with h1 _
        exact h1.symm
      rw [h2]
      decide)
    (by rfl) (by rfl)

/-! ## Lists built by two nested loops -/

/-- The number of entries produced by two nested loops. -/
theorem grid_length {α : Type} (g : Nat → Nat → α) (m n : Nat) :
    ((List.range m).flatMap (fun i => (List.range n).map (g i))).length = n * m := by
  induction m with
  | zero => simp
  | succ k ih =>
    rw [List.range_succ, List.flatMap_append, List.length_append, ih]
    simp [Nat.mul_succ]

/-- The entry produced by the inner loop at `j` within the outer loop at `i`. -/
theorem grid_getElem? {α : Type} (g : Nat → Nat → α) (m n i j : Nat)
    (hi : i < m) (hj : j < n) :
    ((List.range m).flatMap (fun i => (List.range n).map (g i)))[n * i + j]?
      = some (g i j) := by
  induction m with
  | zero => exact absurd hi (Nat.not_lt_zero i)
  | succ k ih =>
    rw [List.range_succ, List.flatMap_append]
    rcases Nat.lt_succ_iff_lt_or_eq.mp hi with hlt | heq
    · have hlen : n * i + j <
          ((List.range k).flatMap (fun i => (List.range n).map (g i))).length := by
        rw [grid_length]
        calc n * i + j < n * i + n := by omega
          _ = n * (i + 1) := by ring
          _ ≤ n * k := Nat.mul_le_mul_left n hlt
      rw [List.getElem?_append_left hlen]
      exact ih hlt
    · subst heq
      have hlen : ((List.range i).flatMap (fun i => (List.range n).map (g i))).length
          ≤ n * i + j := by
        rw [grid_length]; omega
      rw [List.getElem?_append_right hlen, grid_length]
      simp [List.getElem?_map, List.getElem?_range hj]

/-- An entry produced by two nested loops comes from some pair of indices. -/
theorem grid_mem {α : Type} (g : Nat → Nat → α) (m n : Nat) (x : α)
    (h : x ∈ (List.range m).flatMap (fun i => (List.range n).map (g i))) :
    ∃ i j, i < m ∧ j < n ∧ x = g i j := by
  obtain ⟨i, hi, hx⟩ := List.mem_flatMap.mp h
  obtain ⟨j, hj, rfl⟩ := List.mem_map.mp hx
  exact ⟨i, j, List.mem_range.mp hi, List.mem_range.mp hj, rfl⟩

/-- The indices below `n` equal to `h` are `h` alone. -/
theorem filter_range_eq (n h : Nat) (hh : h < n) :
    (List.range n).filter (fun j => decide (j = h)) = [h] := by
  induction n with
  | zero => exact absurd hh (Nat.not_lt_zero h)
  | succ k ih =>
    rw [List.range_succ, List.filter_append]
    rcases Nat.lt_succ_iff_lt_or_eq.mp hh with hlt | heq
    · rw [ih hlt]
      have : ¬ k = h := by omega
      simp [this]
    · subst heq
      have hnone : (List.range h).filter (fun j => decide (j = h)) = [] := by
        rw [List.filter_eq_nil_iff]
        intro a ha
        have := List.mem_range.mp ha
        simp only [decide_eq_true_eq]
        omega
      rw [hnone]
      simp

/-- Filtering the entries of two nested loops by a test on the outer index and on the
inner index being `h`. -/
theorem grid_filter {α : Type} (g : Nat → Nat → α) (p : α → Bool) (a : Nat → Bool)
    (m n h : Nat) (hh : h < n)
    (hp : ∀ i j, p (g i j) = (a i && decide (j = h))) :
    ((List.range m).flatMap (fun i => (List.range n).map (g i))).filter p
      = ((List.range m).filter a).map (fun i => g i h) := by
  have hrow : ∀ i, ((List.range n).map (g i)).filter p = if a i then [g i h] else [] := by
    intro i
    rw [List.filter_map]
    have hfun : (p ∘ g i) = fun j => (a i && decide (j = h)) := by
      funext j; exact hp i j
    rw [hfun]
    cases a i
    · simp
    · simp only [Bool.true_and, if_true]
      rw [filter_range_eq n h hh]
      rfl
  induction m with
  | zero => rfl
  | succ k ih =>
    rw [List.range_succ, List.flatMap_append, List.filter_append, ih, List.filter_append,
      List.map_append]
    congr 1
    simp only [List.flatMap_cons, List.flatMap_nil, List.append_nil]
    rw [hrow k]
    cases hk : a k <;> simp [List.filter_cons, hk]

/-! ## Weekly forecast: `linearRegressionToWeekly` -/

/-- The entry of `linearRegressionToWeekly` at index 24·d + h is the forecast of the
bucket of day `d` and hour `h`. -/
theorem weekly_entry (nanInt : Int) (ovfInt : ℚ → Int) (mockData : List mockDataPoint)
    (d h : Nat) (hd : d < 7) (hh : h < 24) :
    (linearRegressionToWeekly nanInt ovfInt mockData)[24 * d + h]?
      = some (bucketForecast nanInt ovfInt (bucketOf mockData (d : Int) (h : Int))
          (d : Int) (h : Int)) :=
  grid_getElem? (fun (dayOfWeek hour : Nat) =>
    bucketForecast nanInt ovfInt (bucketOf mockData (dayOfWeek : Int) (hour : Int))
      (dayOfWeek : Int) (hour : Int)) 7 24 d h hd hh

/-- A bucket forecast carries the day and the hour of its bucket. -/
theorem bucketForecast_key (nanInt : Int) (ovfInt : ℚ → Int) (samples : List mockDataPoint)
    (d h : Int) :
    (bucketForecast nanInt ovfInt samples d h).dayOfWeek = d ∧
      (bucketForecast nanInt ovfInt samples d h).hour = h := by
  unfold bucketForecast
  split <;> exact ⟨rfl, rfl⟩

/-- The truncation of an integer is that integer. -/
theorem truncate_intCast (z : Int) : truncate (z : ℚ) = z := by
  unfold truncate
  by_cases h : (0 : ℚ) ≤ (z : ℚ)
  · simp only [h, if_true]
    show ⌊(z : ℚ)⌋ = z
    exact Int.floor_intCast z
  · simp only [h, if_false]
    have : (-(z : ℚ)).floor = -z := by
      have h1 : (-(z : ℚ)) = ((-z : Int) : ℚ) := by push_cast; rfl
      rw [h1]
      show ⌊((-z : Int) : ℚ)⌋ = -z
      exact Int.floor_intCast (-z)
    rw [this]
    omega

/-- The conversion to `int` of an integer that fits 64 bits is that integer. -/
theorem toInt_intCast (ovfInt : ℚ → Int) (z : Int) (hz : isInt64 z) :
    toInt ovfInt (z : ℚ) = z := by
  unfold toInt
  rw [truncate_intCast, if_pos hz]

/-- The conversion to `int` of an integer that does not fit 64 bits is left to the
implementation. -/
theorem toInt_overflow (ovfInt : ℚ → Int) (z : Int) (hz : ¬ isInt64 z) :
    toInt ovfInt (z : ℚ) = wrap64 (ovfInt (z : ℚ)) := by
  unfold toInt
  rw [truncate_intCast, if_neg hz]

/-- A wrapped value fits 64 bits. -/
theorem wrap64_isInt64 (z : Int) : isInt64 (wrap64 z) := by
  unfold isInt64 wrap64
  omega

/-- The conversion to `int` of a value between 0 and 100 lies between 0 and 100. -/
theorem toInt_clamped (ovfInt : ℚ → Int) (x : ℚ) (h0 : 0 ≤ x) (h100 : x ≤ 100) :
    0 ≤ toInt ovfInt x ∧ toInt ovfInt x ≤ 100 := by
  have hfl : ((⌊x⌋ : Int) : ℚ) ≤ x := Int.floor_le _
  have hlo : (0 : Int) ≤ ⌊x⌋ := Int.floor_nonneg.mpr h0
  have hhi : ⌊x⌋ ≤ 100 := by
    have : ((⌊x⌋ : Int) : ℚ) ≤ ((100 : Int) : ℚ) := by
      push_cast
      linarith
    exact_mod_cast this
  have ht : truncate x = ⌊x⌋ := by
    unfold truncate
    simp only [h0, if_true]
    rfl
  have hfit : isInt64 (truncate x) := by
    rw [ht]
    unfold isInt64
    omega
  unfold toInt
  rw [if_pos hfit, ht]
  exact ⟨hlo, hhi⟩

/-- The forecast of a bucket with exactly one sample is the load of the sample rounded
to the nearest integer, whatever the load. -/
theorem bucketForecast_single (nanInt : Int) (ovfInt : ℚ → Int) (s : mockDataPoint) (d h : Int) :
    (bucketForecast nanInt ovfInt [s] d h).predictedLoad = toInt ovfInt (Round s.load) := by
  unfold bucketForecast
  simp

/-- C22: for every list of samples `linearRegressionToWeekly` returns exactly 168 entries,
and the entry at index 24·d + h, for d in 0..6 and h in 0..23, is the forecast of the
bucket of day d and hour h, with `dayOfWeek = d` and `hour = h`. -/
theorem linearRegressionToWeekly_168 (nanInt : Int) (ovfInt : ℚ → Int) (mockData : List mockDataPoint) :
    (linearRegressionToWeekly nanInt ovfInt mockData).length = 168 ∧
      ∀ d h : Nat, d < 7 → h < 24 →
        (linearRegressionToWeekly nanInt ovfInt mockData)[24 * d + h]?
          = some (bucketForecast nanInt ovfInt (bucketOf mockData (d : Int) (h : Int))
              (d : Int) (h : Int)) ∧
        (linearRegressionToWeekly nanInt ovfInt mockData)[24 * d + h]?.map weeklyForecast.dayOfWeek
          = some (d : Int) ∧
        (linearRegressionToWeekly nanInt ovfInt mockData)[24 * d + h]?.map weeklyForecast.hour
          = some (h : Int) := by
  constructor
  · exact grid_length (fun (dayOfWeek hour : Nat) =>
      bucketForecast nanInt ovfInt (bucketOf mockData (dayOfWeek : Int) (hour : Int))
        (dayOfWeek : Int) (hour : Int)) 7 24
  · intro d h hd hh
    have he := weekly_entry nanInt ovfInt mockData d h hd hh
    have hk := bucketForecast_key nanInt ovfInt (bucketOf mockData (d : Int) (h : Int)) d h
    refine ⟨he, ?_, ?_⟩
    · rw [he]; simp only [Option.map_some', hk.1]
    · rw [he]; simp only [Option.map_some', hk.2]

/-- `Round` of a value between two integers lies between them. -/
theorem Round_bounds (x : ℚ) (lo hi : Int) (h1 : (lo : ℚ) ≤ x) (h2 : x ≤ (hi : ℚ)) :
    ∃ z : Int, Round x = (z : ℚ) ∧ lo ≤ z ∧ z ≤ hi := by
  unfold Round
  by_cases h0 : 0 ≤ x
  · simp only [h0, if_true]
    refine ⟨(x + 1 / 2).floor, rfl, ?_, ?_⟩
    · exact Rat.le_floor.mpr (by linarith)
    · have : ⌊x + 1 / 2⌋ < hi + 1 := by
        rw [Int.floor_lt]
        push_cast
        linarith
      show ⌊x + 1 / 2⌋ ≤ hi
      omega
  · simp only [h0, if_false]
    refine ⟨-((-x + 1 / 2).floor), by push_cast; rfl, ?_, ?_⟩
    · have : ⌊-x + 1 / 2⌋ < -lo + 1 := by
        rw [Int.floor_lt]
        push_cast
        linarith
      show lo ≤ -⌊-x + 1 / 2⌋
      omega
    · have : -hi ≤ ⌊-x + 1 / 2⌋ := by
        rw [Int.le_floor]
        push_cast
        linarith
      show -⌊-x + 1 / 2⌋ ≤ hi
      omega

/-- C21, as stated, fails: the bucket of day 0, hour 0 of `samplesHuge` holds exactly one
sample, of load 10^19, and the prediction emitted for it is the conversion of 10^19 to the
64-bit `int`, which 10^19 does not fit: whatever the implementation returns, the prediction
is not the load of the sample. -/
theorem single_sample_prediction_overflows :
    bucketOf samplesHuge 0 0 = [⟨0, 0, 0, 10000000000000000000⟩] ∧
      ∀ (nanInt : Int) (ovfInt : ℚ → Int),
        (linearRegressionToWeekly nanInt ovfInt samplesHuge)[0]?.map
            weeklyForecast.predictedLoad = some (wrap64 (ovfInt 10000000000000000000)) ∧
          wrap64 (ovfInt 10000000000000000000) ≠ 10000000000000000000 := by
  have hb : bucketOf samplesHuge ((0 : Nat) : Int) ((0 : Nat) : Int)
      = [⟨0, 0, 0, 10000000000000000000⟩] := by decide
  refine ⟨hb, fun nanInt ovfInt => ⟨?_, ?_⟩⟩
  · have he := weekly_entry nanInt ovfInt samplesHuge 0 0 (by decide) (by decide)
    rw [hb] at he
    have he0 : (linearRegressionToWeekly nanInt ovfInt samplesHuge)[0]?
        = some (bucketForecast nanInt ovfInt [⟨0, 0, 0, 10000000000000000000⟩]
            ((0 : Nat) : Int) ((0 : Nat) : Int)) := he
    rw [he0]
    simp only [Option.map_some', bucketForecast_single]
    have hcast : (10000000000000000000 : ℚ) = ((10000000000000000000 : Int) : ℚ) := by
      norm_num
    rw [hcast, Round_intCast, toInt_overflow ovfInt _ (by decide)]
  · have h := (wrap64_isInt64 (ovfInt 10000000000000000000)).2
    omega

/-- C21 (amended): for every bucket that holds exactly one sample whose load lies within
the range of the 64-bit `int`, the prediction emitted by `linearRegressionToWeekly` for
that day and hour is the load of that sample (the mean of the bucket) rounded to the
nearest integer; it is the load itself when the load is an integer. -/
theorem single_sample_prediction (nanInt : Int) (ovfInt : ℚ → Int)
    (mockData : List mockDataPoint) (d h : Nat) (s : mockDataPoint) (hd : d < 7) (hh : h < 24)
    (hone : bucketOf mockData (d : Int) (h : Int) = [s])
    (hfit : -9223372036854775808 ≤ s.load ∧ s.load ≤ 9223372036854775807) :
    ∃ z : Int, Round s.load = (z : ℚ) ∧
      (linearRegressionToWeekly nanInt ovfInt mockData)[24 * d + h]?.map
        weeklyForecast.predictedLoad = some z ∧
      ∀ z' : Int, s.load = (z' : ℚ) → z = z' := by
  obtain ⟨z, hz, hlo, hhi⟩ := Round_bounds s.load (-9223372036854775808) 9223372036854775807
    (by push_cast; exact hfit.1) (by push_cast; exact hfit.2)
  have he := weekly_entry nanInt ovfInt mockData d h hd hh
  rw [hone] at he
  refine ⟨z, hz, ?_, ?_⟩
  · rw [he]
    simp only [Option.map_some', bucketForecast_single]
    rw [hz, toInt_intCast ovfInt z ⟨hlo, hhi⟩]
  · intro z' hz'
    rw [hz', Round_intCast] at hz
    exact_mod_cast hz.symm

/-- C21 (amended) at `samplesOver`: the only sample of the bucket of day 0, hour 0, has
load 150. -/
theorem single_sample_prediction_witness :
    ∃ z : Int, Round (⟨0, 0, 0, 150⟩ : mockDataPoint).load = (z : ℚ) ∧
      (linearRegressionToWeekly 0 (fun _ => 0) samplesOver)[24 * 0 + 0]?.map
        weeklyForecast.predictedLoad = some z ∧
      ∀ z' : Int, (⟨0, 0, 0, 150⟩ : mockDataPoint).load = (z' : ℚ) → z = z' :=
  single_sample_prediction 0 (fun _ => 0) samplesOver 0 0 ⟨0, 0, 0, 150⟩ (by decide)
    (by decide) (by decide) ⟨by norm_num, by norm_num⟩

/-- Every bucket of `samplesOver` holds exactly one sample, of load 150. -/
theorem bucketOf_samplesOver :
    ∀ d : Nat, d < 7 → ∀ h : Nat, h < 24 →
      bucketOf samplesOver (d : Int) (h : Int) = [⟨(d : Int), (d : Int), (h : Int), 150⟩] := by
  decide

/-- Every bucket of `samplesFlat` holds exactly one sample. -/
theorem bucketOf_samplesFlat :
    ∀ d : Nat, d < 7 → ∀ h : Nat, h < 24 →
      bucketOf samplesFlat (d : Int) (h : Int) = [⟨(d : Int), (d : Int), (h : Int), 40⟩] := by
  decide

/-- The forecast of a bucket with at least two samples lies between 0 and 100. -/
theorem bucketForecast_clamped (nanInt : Int) (ovfInt : ℚ → Int)
    (samples : List mockDataPoint) (d h : Int) (hn : 2 ≤ samples.length) :
    (bucketForecast nanInt ovfInt samples d h).predictedLoad
        = toInt ovfInt (min 100 (max 0 (Round (predictNext samples)))) ∧
      0 ≤ (bucketForecast nanInt ovfInt samples d h).predictedLoad ∧
      (bucketForecast nanInt ovfInt samples d h).predictedLoad ≤ 100 := by
  have hlt : ¬ samples.length < 2 := by omega
  have hval : (bucketForecast nanInt ovfInt samples d h).predictedLoad
      = toInt ovfInt (min 100 (max 0 (Round (predictNext samples)))) := by
    unfold bucketForecast
    simp only [hlt, if_false]
  have h0 : (0 : ℚ) ≤ min 100 (max 0 (Round (predictNext samples))) :=
    le_min (by norm_num) (le_max_left _ _)
  have h100 : min 100 (max 0 (Round (predictNext samples))) ≤ (100 : ℚ) := min_le_left _ _
  refine ⟨hval, ?_⟩
  rw [hval]
  exact toInt_clamped ovfInt _ h0 h100

/-- C23, as stated, fails: on `samplesOver`, where each of the 168 buckets holds exactly
one sample, of load 150, every entry returned by `linearRegressionToWeekly` has
`predictedLoad` 150, above 100: the branch for fewer than 2 samples rounds the average and
does not clamp it. -/
theorem single_sample_bucket_not_clamped :
    (∀ d : Nat, d < 7 → ∀ h : Nat, h < 24 →
      (bucketOf samplesOver (d : Int) (h : Int)).length = 1) ∧
    (∀ (nanInt : Int) (ovfInt : ℚ → Int) (d : Nat), d < 7 → ∀ h : Nat, h < 24 →
      (linearRegressionToWeekly nanInt ovfInt samplesOver)[24 * d + h]?.map
        weeklyForecast.predictedLoad = some 150) ∧
    (∀ s ∈ samplesOver, s.load = 150) := by
  refine ⟨?_, ?_, fun s hs => by
    obtain ⟨i, j, _, _, rfl⟩ := grid_mem _ 7 24 s hs
    rfl⟩
  · intro d hd h hh
    rw [bucketOf_samplesOver d hd h hh]
    rfl
  · intro nanInt ovfInt d hd h hh
    rw [weekly_entry nanInt ovfInt samplesOver d h hd hh, bucketOf_samplesOver d hd h hh]
    simp only [Option.map_some', bucketForecast_single]
    have h150 : (150 : ℚ) = ((150 : Int) : ℚ) := by norm_num
    rw [h150, Round_intCast, toInt_intCast ovfInt 150 (by decide)]

/-- C23 (amended): for every list of samples whose loads lie between 0 and 100 (the range
of the generated data) and in which every (dayOfWeek, hour) bucket is non-empty, every one
of the 168 entries returned by `linearRegressionToWeekly` has an integer `predictedLoad`
with 0 ≤ predictedLoad ≤ 100: a bucket of at least two samples is clamped, a bucket of one
sample gives its rounded load. -/
theorem predictions_within_0_100 (nanInt : Int) (ovfInt : ℚ → Int)
    (mockData : List mockDataPoint)
    (hload : ∀ s ∈ mockData, 0 ≤ s.load ∧ s.load ≤ 100)
    (hne : ∀ d h : Nat, d < 7 → h < 24 → bucketOf mockData (d : Int) (h : Int) ≠ []) :
    (linearRegressionToWeekly nanInt ovfInt mockData).length = 168 ∧
      ∀ e ∈ linearRegressionToWeekly nanInt ovfInt mockData,
        0 ≤ e.predictedLoad ∧ e.predictedLoad ≤ 100 := by
  refine ⟨grid_length (fun (dayOfWeek hour : Nat) =>
      bucketForecast nanInt ovfInt (bucketOf mockData (dayOfWeek : Int) (hour : Int))
        (dayOfWeek : Int) (hour : Int)) 7 24, ?_⟩
  intro e he
  obtain ⟨d, h, hd, hh, rfl⟩ := grid_mem (fun (dayOfWeek hour : Nat) =>
      bucketForecast nanInt ovfInt
        (mockData.filter (fun x =>
          decide (x.dayOfWeek = (dayOfWeek : Int)) && decide (x.hour = (hour : Int))))
        (dayOfWeek : Int) (hour : Int)) 7 24 e he
  show 0 ≤ (bucketForecast nanInt ovfInt (bucketOf mockData (d : Int) (h : Int))
      (d : Int) (h : Int)).predictedLoad ∧
    (bucketForecast nanInt ovfInt (bucketOf mockData (d : Int) (h : Int))
      (d : Int) (h : Int)).predictedLoad ≤ 100
  have hb := hne d h hd hh
  cases hbk : bucketOf mockData (d : Int) (h : Int) with
  | nil => exact absurd hbk hb
  | cons s rest =>
    cases rest with
    | nil =>
      have hs : s ∈ mockData := by
        have : s ∈ bucketOf mockData (d : Int) (h : Int) := by
          rw [hbk]; exact List.mem_singleton.mpr rfl
        exact (List.mem_filter.mp this).1
      obtain ⟨hs0, hs100⟩ := hload s hs
      obtain ⟨z, hz, hz0, hz100⟩ := Round_bounds s.load 0 100 (by push_cast; exact hs0)
        (by push_cast; exact hs100)
      rw [bucketForecast_single, hz, toInt_intCast ovfInt z (by unfold isInt64; omega)]
      exact ⟨hz0, hz100⟩
    | cons t rest =>
      exact (bucketForecast_clamped nanInt ovfInt (s :: t :: rest) (d : Int) (h : Int)
        (by simp)).2

/-- C23 (amended) at `samplesFlat`: one sample of load 40 in every bucket. -/
theorem predictions_within_0_100_witness :
    (linearRegressionToWeekly 0 (fun _ => 0) samplesFlat).length = 168 ∧
      ∀ e ∈ linearRegressionToWeekly 0 (fun _ => 0) samplesFlat,
        0 ≤ e.predictedLoad ∧ e.predictedLoad ≤ 100 :=
  predictions_within_0_100 0 (fun _ => 0) samplesFlat
    (fun s hs => by
      obtain ⟨i, j, _, _, rfl⟩ := grid_mem _ 7 24 s hs
      exact ⟨by norm_num, by norm_num⟩)
    (fun d h hd hh => by
      rw [bucketOf_samplesFlat d hd h hh]
      exact List.cons_ne_nil _ _)

/-! ## The regression denominator -/

/-- The sums of the positions 0..n-1 and of their squares. -/
theorem range_sums (n : Nat) :
    ((List.range n).map (fun (i : Nat) => (i : ℚ))).sum = (n : ℚ) * ((n : ℚ) - 1) / 2 ∧
    ((List.range n).map (fun (i : Nat) => (i : ℚ) * (i : ℚ))).sum
      = ((n : ℚ) - 1) * (n : ℚ) * (2 * (n : ℚ) - 1) / 6 := by
  induction n with
  | zero => simp
  | succ k ih =>
    obtain ⟨h1, h2⟩ := ih
    simp only [List.range_succ, List.map_append, List.map_cons, List.map_nil,
      List.sum_append, List.sum_cons, List.sum_nil, add_zero]
    rw [h1, h2]
    push_cast
    refine ⟨?_, ?_⟩ <;> ring

/-- The x values of the regression data of a bucket are the positions 0..n-1. -/
theorem regressionPoints_positions (samples : List mockDataPoint) :
    (regressionPoints samples).map Prod.fst
      = (List.range samples.length).map (fun (i : Nat) => (i : ℚ)) := by
  unfold regressionPoints
  apply List.ext_getElem
  · simp
  · intro i h1 h2
    simp only [List.getElem_map, List.getElem_enum, List.getElem_range]

/-- The denominator of the regression of a bucket of n samples is n²(n² − 1)/12. -/
theorem regressionDenom_bucket (samples : List mockDataPoint) :
    regressionDenom (regressionPoints samples)
      = (samples.length : ℚ) ^ 2 * ((samples.length : ℚ) ^ 2 - 1) / 12 := by
  have hpos := regressionPoints_positions samples
  obtain ⟨h1, h2⟩ := range_sums samples.length
  have hlen : (regressionPoints samples).length = samples.length := by
    simp [regressionPoints]
  have hx : ((regressionPoints samples).map (fun p => p.1)).sum
      = (samples.length : ℚ) * ((samples.length : ℚ) - 1) / 2 := by
    have : (regressionPoints samples).map (fun p => p.1)
        = (regressionPoints samples).map Prod.fst := rfl
    rw [this, hpos, h1]
  have hxx : ((regressionPoints samples).map (fun p => p.1 * p.1)).sum
      = ((samples.length : ℚ) - 1) * (samples.length : ℚ)
          * (2 * (samples.length : ℚ) - 1) / 6 := by
    have : (regressionPoints samples).map (fun p => p.1 * p.1)
        = ((regressionPoints samples).map Prod.fst).map (fun x => x * x) := by
      rw [List.map_map]; rfl
    rw [this, hpos, List.map_map]
    exact h2
  unfold regressionDenom
  rw [foldl_add_eq_sum, foldl_add_eq_sum, hx, hxx, hlen]
  ring

/-- The regression denominator of a bucket of at least two samples is positive. -/
theorem regressionDenom_pos (samples : List mockDataPoint) (hn : 2 ≤ samples.length) :
    0 < regressionDenom (regressionPoints samples) := by
  rw [regressionDenom_bucket]
  have hn2 : (2 : ℚ) ≤ (samples.length : ℚ) := by exact_mod_cast hn
  have : (0 : ℚ) < (samples.length : ℚ) ^ 2 - 1 := by nlinarith
  positivity

/-- C28: for every bucket of n ≥ 2 samples the x values used by `linearRegressionToWeekly`
are the positions 0..n-1, the regression denominator n·Σx² − (Σx)² equals n²(n² − 1)/12 and
is strictly positive, and `linearReg` returns the slope and intercept of the regular branch
(a division by this denominator and by n), not the zero-denominator fallback. -/
theorem regression_denominator_positive (samples : List mockDataPoint)
    (hn : 2 ≤ samples.length) :
    (regressionPoints samples).map Prod.fst
        = (List.range samples.length).map (fun (i : Nat) => (i : ℚ)) ∧
      regressionDenom (regressionPoints samples)
        = (samples.length : ℚ) ^ 2 * ((samples.length : ℚ) ^ 2 - 1) / 12 ∧
      0 < regressionDenom (regressionPoints samples) ∧
      (samples.length : ℚ) ≠ 0 ∧
      linearReg (regressionPoints samples) =
        (((samples.length : ℚ) *
              (regressionPoints samples).foldl (fun acc p => acc + p.1 * p.2) 0
            - (regressionPoints samples).foldl (fun acc p => acc + p.1) 0 *
              (regressionPoints samples).foldl (fun acc p => acc + p.2) 0)
          / regressionDenom (regressionPoints samples),
         ((regressionPoints samples).foldl (fun acc p => acc + p.2) 0
            - (((samples.length : ℚ) *
                  (regressionPoints samples).foldl (fun acc p => acc + p.1 * p.2) 0
                - (regressionPoints samples).foldl (fun acc p => acc + p.1) 0 *
                  (regressionPoints samples).foldl (fun acc p => acc + p.2) 0)
              / regressionDenom (regressionPoints samples))
              * (regressionPoints samples).foldl (fun acc p => acc + p.1) 0)
          / (samples.length : ℚ)) := by
  have hpos := regressionDenom_pos samples hn
  have hn2 : (2 : ℚ) ≤ (samples.length : ℚ) := by exact_mod_cast hn
  have hn0 : (samples.length : ℚ) ≠ 0 := by linarith
  have hlen : (regressionPoints samples).length = samples.length := by
    simp [regressionPoints]
  refine ⟨regressionPoints_positions samples, regressionDenom_bucket samples, hpos, hn0, ?_⟩
  have hd : ¬ ((regressionPoints samples).length : ℚ) *
      (regressionPoints samples).foldl (fun acc p => acc + p.1 * p.1) 0
      - (regressionPoints samples).foldl (fun acc p => acc + p.1) 0 *
        (regressionPoints samples).foldl (fun acc p => acc + p.1) 0 = 0 := ne_of_gt hpos
  have hl0 : ¬ ((regressionPoints samples).length : ℚ) = 0 := by rw [hlen]; exact hn0
  unfold linearReg
  simp only [hl0, if_false, hd]
  unfold regressionDenom
  rw [hlen]

/-- C28 at the bucket `samplesLine` of three samples: the denominator is 6. -/
theorem regression_denominator_positive_witness :
    (regressionPoints samplesLine).map Prod.fst
        = (List.range samplesLine.length).map (fun (i : Nat) => (i : ℚ)) ∧
      regressionDenom (regressionPoints samplesLine)
        = (samplesLine.length : ℚ) ^ 2 * ((samplesLine.length : ℚ) ^ 2 - 1) / 12 ∧
      0 < regressionDenom (regressionPoints samplesLine) ∧
      (samplesLine.length : ℚ) ≠ 0 ∧
      linearReg (regressionPoints samplesLine) =
        (((samplesLine.length : ℚ) *
              (regressionPoints samplesLine).foldl (fun acc p => acc + p.1 * p.2) 0
            - (regressionPoints samplesLine).foldl (fun acc p => acc + p.1) 0 *
              (regressionPoints samplesLine).foldl (fun acc p => acc + p.2) 0)
          / regressionDenom (regressionPoints samplesLine),
         ((regressionPoints samplesLine).foldl (fun acc p => acc + p.2) 0
            - (((samplesLine.length : ℚ) *
                  (regressionPoints samplesLine).foldl (fun acc p => acc + p.1 * p.2) 0
                - (regressionPoints samplesLine).foldl (fun acc p => acc + p.1) 0 *
                  (regressionPoints samplesLine).foldl (fun acc p => acc + p.2) 0)
              / regressionDenom (regressionPoints samplesLine))
              * (regressionPoints samplesLine).foldl (fun acc p => acc + p.1) 0)
          / (samplesLine.length : ℚ)) :=
  regression_denominator_positive samplesLine (by decide)

/-! ## Generated data: `generateTwoMonthMockData` -/

/-- `Round` of a value between 0 and 100 is an integer between 0 and 100. -/
theorem Round_clamped (x : ℚ) (h0 : 0 ≤ x) (h100 : x ≤ 100) :
    ∃ z : Int, Round x = (z : ℚ) ∧ 0 ≤ z ∧ z ≤ 100 := by
  refine ⟨(x + 1 / 2).floor, ?_, ?_, ?_⟩
  · unfold Round
    simp only [h0, if_true]
  · exact Rat.le_floor.mpr (by push_cast; linarith)
  · have hfl : ((⌊x + 1 / 2⌋ : Int) : ℚ) ≤ x + 1 / 2 := Int.floor_le _
    have hlt : ((⌊x + 1 / 2⌋ : Int) : ℚ) < ((101 : Int) : ℚ) := by
      push_cast
      linarith
    have : ⌊x + 1 / 2⌋ < 101 := by exact_mod_cast hlt
    show ⌊x + 1 / 2⌋ ≤ 100
    omega

/-- The bucket of day `d` and hour `h` of the generated data: the samples of hour `h` of
the days whose day of week is `d`, in the order of the days. -/
theorem bucketOf_generated (profile : String) (rnd : Nat → ℚ) (d h : Nat) (hh : h < 24) :
    bucketOf (generateTwoMonthMockData profile rnd) (d : Int) (h : Int)
      = ((List.range 60).filter (fun day => decide (day % 7 = d))).map
          (fun day => sampleAt (profiles profile) rnd day h) := by
  unfold bucketOf generateTwoMonthMockData
  apply grid_filter (fun day hour => sampleAt (profiles profile) rnd day hour) _ _ 60 24 h hh
  intro i j
  have h1 : (sampleAt (profiles profile) rnd i j).dayOfWeek = ((i % 7 : Nat) : Int) := rfl
  have h2 : (sampleAt (profiles profile) rnd i j).hour = (j : Int) := rfl
  rw [h1, h2]
  have e1 : decide (((i % 7 : Nat) : Int) = (d : Int)) = decide (i % 7 = d) := by
    simp only [Nat.cast_inj]
  have e2 : decide ((j : Int) = (h : Int)) = decide (j = h) := by
    simp only [Nat.cast_inj]
  rw [e1, e2]

/-- Among the days 0..59 each day of week 0..3 occurs 9 times, each of 4..6 occurs 8 times. -/
theorem days_per_weekday :
    ∀ d : Nat, d < 7 →
      ((List.range 60).filter (fun day => decide (day % 7 = d))).length
        = (if d ≤ 3 then 9 else 8) := by
  decide

/-- C26: for every profile and every outcome of the random source
`generateTwoMonthMockData` returns 1440 samples with `dayOfWeek = day mod 7`; each of the
168 buckets holds 9 samples for the days of week 0..3 and 8 for 4..6, so at least 2 and at
most 9; and `linearRegressionToWeekly` on it takes for every bucket the regression branch
(the clamped rounded regression value, whatever `nanInt`), with a denominator and a sample
count that are not zero. -/
theorem generated_buckets_hold_8_or_9 (profile : String) (rnd : Nat → ℚ) (nanInt : Int)
    (ovfInt : ℚ → Int) :
    (generateTwoMonthMockData profile rnd).length = 1440 ∧
    (∀ s ∈ generateTwoMonthMockData profile rnd,
      s.dayOfWeek = s.day % 7 ∧ 0 ≤ s.day ∧ s.day < 60 ∧ 0 ≤ s.hour ∧ s.hour < 24) ∧
    ∀ d h : Nat, d < 7 → h < 24 →
      (bucketOf (generateTwoMonthMockData profile rnd) (d : Int) (h : Int)).length
        = (if d ≤ 3 then 9 else 8) ∧
      2 ≤ (bucketOf (generateTwoMonthMockData profile rnd) (d : Int) (h : Int)).length ∧
      (bucketOf (generateTwoMonthMockData profile rnd) (d : Int) (h : Int)).length ≤ 9 ∧
      (linearRegressionToWeekly nanInt ovfInt (generateTwoMonthMockData profile rnd))[24 * d + h]?
        = some ⟨(d : Int), (h : Int),
            toInt ovfInt (min 100 (max 0 (Round (predictNext
              (bucketOf (generateTwoMonthMockData profile rnd) (d : Int) (h : Int))))))⟩ ∧
      0 < regressionDenom (regressionPoints
        (bucketOf (generateTwoMonthMockData profile rnd) (d : Int) (h : Int))) ∧
      ((bucketOf (generateTwoMonthMockData profile rnd) (d : Int) (h : Int)).length : ℚ)
        ≠ 0 := by
  refine ⟨?_, ?_, ?_⟩
  · exact grid_length (fun day hour => sampleAt (profiles profile) rnd day hour) 60 24
  · intro s hs
    obtain ⟨i, j, hi, hj, rfl⟩ :=
      grid_mem (fun day hour => sampleAt (profiles profile) rnd day hour) 60 24 s hs
    have h1 : (sampleAt (profiles profile) rnd i j).dayOfWeek = ((i % 7 : Nat) : Int) := rfl
    have h2 : (sampleAt (profiles profile) rnd i j).day = (i : Int) := rfl
    have h3 : (sampleAt (profiles profile) rnd i j).hour = (j : Int) := rfl
    rw [h1, h2, h3]
    refine ⟨by push_cast; rfl, by omega, by omega, by omega, by omega⟩
  · intro d h hd hh
    have hlen : (bucketOf (generateTwoMonthMockData profile rnd) (d : Int) (h : Int)).length
        = (if d ≤ 3 then 9 else 8) := by
      rw [bucketOf_generated profile rnd d h hh, List.length_map]
      exact days_per_weekday d hd
    have h2 : 2 ≤ (bucketOf (generateTwoMonthMockData profile rnd) (d : Int) (h : Int)).length := by
      rw [hlen]; split <;> omega
    have h9 : (bucketOf (generateTwoMonthMockData profile rnd) (d : Int) (h : Int)).length ≤ 9 := by
      rw [hlen]; split <;> omega
    refine ⟨hlen, h2, h9, ?_, regressionDenom_pos _ h2, ?_⟩
    · rw [weekly_entry nanInt ovfInt _ d h hd hh]
      have hk := bucketForecast_key nanInt ovfInt
        (bucketOf (generateTwoMonthMockData profile rnd) (d : Int) (h : Int)) d h
      have hc := (bucketForecast_clamped nanInt ovfInt
        (bucketOf (generateTwoMonthMockData profile rnd) (d : Int) (h : Int)) d h h2).1
      congr 1
      cases hb : bucketForecast nanInt ovfInt
        (bucketOf (generateTwoMonthMockData profile rnd) (d : Int) (h : Int)) d h with
      | mk a b c =>
        rw [hb] at hk hc
        simp only [] at hk hc
        rw [hk.1, hk.2, hc]
    · have : (2 : ℚ) ≤
          ((bucketOf (generateTwoMonthMockData profile rnd) (d : Int) (h : Int)).length : ℚ) := by
        exact_mod_cast h2
      linarith

/-- C27: for every profile (central, suburban and outskirt of the profile table, and any
other name, which reads as the zero configuration) and every sequence of random draws in
[0, 1), every sample returned by `generateTwoMonthMockData` has a load that is an integer
between 0 and 100, and the noise added to the load of every sample lies between
−variance/2 and +variance/2. -/
theorem generated_loads_in_range (profile : String) (rnd : Nat → ℚ)
    (hrnd : ∀ n, 0 ≤ rnd n ∧ rnd n < 1) :
    (∀ s ∈ generateTwoMonthMockData profile rnd,
      ∃ z : Int, s.load = (z : ℚ) ∧ 0 ≤ z ∧ z ≤ 100) ∧
    (∀ k : Nat, -((profiles profile).variance / 2) ≤ noiseAt (profiles profile) rnd k ∧
      noiseAt (profiles profile) rnd k ≤ (profiles profile).variance / 2) := by
  constructor
  · intro s hs
    obtain ⟨i, j, _, _, rfl⟩ :=
      grid_mem (fun day hour => sampleAt (profiles profile) rnd day hour) 60 24 s hs
    unfold sampleAt
    simp only []
    exact Round_clamped _ (le_min (by norm_num) (le_max_left _ _)) (min_le_left _ _)
  · intro k
    have hv : 0 ≤ (profiles profile).variance := by
      unfold profiles
      split_ifs <;> norm_num
    obtain ⟨h0, h1⟩ := hrnd (2 * k)
    unfold noiseAt
    constructor <;> nlinarith

/-- C27 at the profile central with every draw 0.5. -/
theorem generated_loads_in_range_witness :
    (∀ s ∈ generateTwoMonthMockData "central" rndHalf,
      ∃ z : Int, s.load = (z : ℚ) ∧ 0 ≤ z ∧ z ≤ 100) ∧
    (∀ k : Nat, -((profiles "central").variance / 2) ≤ noiseAt (profiles "central") rndHalf k ∧
      noiseAt (profiles "central") rndHalf k ≤ (profiles "central").variance / 2) :=
  generated_loads_in_range "central" rndHalf (fun _ => by unfold rndHalf; norm_num)

/-- C24: with the profile central and the random source `rndAlternating` (no noise, the
direction draws alternating), the samples number 1428 and 1429 of one call of
`generateTwoMonthMockData` (day 59, hours 12 and 13) start from the same load 65 and are
scaled with opposite trend directions, -1 and +1, giving the loads 59 and 71: the direction
is drawn for every sample, not once for the call. -/
theorem trend_direction_drawn_per_sample :
    directionAt rndAlternating (59 * 24 + 12) = -1 ∧
      directionAt rndAlternating (59 * 24 + 13) = 1 ∧
      patternLoad (profiles "central") false 12 = 65 ∧
      patternLoad (profiles "central") false 13 = 65 ∧
      noiseAt (profiles "central") rndAlternating (59 * 24 + 12) = 0 ∧
      noiseAt (profiles "central") rndAlternating (59 * 24 + 13) = 0 ∧
      (generateTwoMonthMockData "central" rndAlternating)[24 * 59 + 12]?
        = some ⟨59, 3, 12, 59⟩ ∧
      (generateTwoMonthMockData "central" rndAlternating)[24 * 59 + 13]?
        = some ⟨59, 3, 13, 71⟩ := by
  have hd1 : directionAt rndAlternating (59 * 24 + 12) = -1 := by
    norm_num [directionAt, rndAlternating]
  have hd2 : directionAt rndAlternating (59 * 24 + 13) = 1 := by
    norm_num [directionAt, rndAlternating]
  have hn1 : noiseAt (profiles "central") rndAlternating (59 * 24 + 12) = 0 := by
    norm_num [noiseAt, rndAlternating]
  have hn2 : noiseAt (profiles "central") rndAlternating (59 * 24 + 13) = 0 := by
    norm_num [noiseAt, rndAlternating]
  have hp1 : patternLoad (profiles "central") false 12 = 65 := by
    norm_num [patternLoad, profiles]
  have hp2 : patternLoad (profiles "central") false 13 = 65 := by
    norm_num [patternLoad, profiles]
  refine ⟨hd1, hd2, hp1, hp2, hn1, hn2, ?_, ?_⟩
  · rw [generateTwoMonthMockData, grid_getElem?
      (fun day hour => sampleAt (profiles "central") rndAlternating day hour) 60 24 59 12
      (by decide) (by decide)]
    congr 1
    have hp : patternLoad (profiles "central") (decide (59 % 7 ≥ 5)) ((12 : Nat) : Int) = 65 :=
      hp1
    unfold sampleAt
    simp only [hd1, hn1, hp]
    have hx : min (100 : ℚ) (max 0 (min 100 (max 0 (65 + 0)) *
        (1 + ((59 : Nat) : ℚ) / 60 * (1 / 10) * -1))) = 7033 / 120 := by
      norm_num
    rw [hx, Round_eq_of (7033 / 120) 59 (by norm_num) (by norm_num) (by norm_num)]
    norm_num
  · rw [generateTwoMonthMockData, grid_getElem?
      (fun day hour => sampleAt (profiles "central") rndAlternating day hour) 60 24 59 13
      (by decide) (by decide)]
    congr 1
    have hp : patternLoad (profiles "central") (decide (59 % 7 ≥ 5)) ((13 : Nat) : Int) = 65 :=
      hp2
    unfold sampleAt
    simp only [hd2, hn2, hp]
    have hx : min (100 : ℚ) (max 0 (min 100 (max 0 (65 + 0)) *
        (1 + ((59 : Nat) : ℚ) / 60 * (1 / 10) * 1))) = 8567 / 120 := by
      norm_num
    rw [hx, Round_eq_of (8567 / 120) 71 (by norm_num) (by norm_num) (by norm_num)]
    norm_num

end Theorems

end SmartCharge
